import Mathlib

/-!
# Memory range discovery of kexec for the PowerPC (`kexec/arch/ppc/kexec-ppc.c`)

A shallow embedding of the device-tree based memory range planner
(`get_memory_ranges_dt` and the functions it calls) together with theorems about it.

Conventions of the embedding

* `unsigned long long` / `uint64_t` values are natural numbers; every arithmetic
  operation that can leave the 64-bit range is reduced modulo `2 ^ 64` at the place
  where the C code performs it.
* A heap array (`exclude_range`, `memory_range`, `base_memory_range`) is the list of the
  elements of its allocation, so the length of the list is the number of elements that
  were allocated for it.  The element counts (`nr_exclude_ranges`, `nr_memory_ranges`,
  the local `j`) are kept separately, as in the C code.
* An access outside the allocation has no defined result; functions that can perform one
  return `Option` and yield `none` there.
-/

namespace KexecPpc

/-- Modulus of the 64-bit unsigned integer types. -/
def U64 : Nat := 2 ^ 64

/-- Modulus of the 32-bit unsigned integer types. -/
def U32 : Nat := 2 ^ 32

/-- Modelled from the spec: the range kind `RAM` ("usable").  The header `kexec.h`
that defines `RANGE_RAM` is not among the sources; its value there is `0`. -/
def RANGE_RAM : Nat := 0

/-- The record `struct memory_range` (declared in `kexec.h`):
`unsigned long long start, end; unsigned type;`.  `end_` is the field `end`. -/
structure memory_range where
  start : Nat
  end_ : Nat
  type : Nat
deriving DecidableEq, Repr

/-- A zero-filled element, as left by the `memset` of `alloc_memory_ranges`. -/
def zero_range : memory_range := ⟨0, 0, 0⟩

/-! ## `setup_memory_ranges`: synthesis of the usable ranges (lines 629-690) -/

/-- Lines 634-639: `memory_range[j] = {0, exclude_range[0].start - 1, RANGE_RAM}; j++`,
executed for `i == 0` when `exclude_range[0].start != 0`.  No limit to `rmo_top` is
applied here. -/
def first_hole (e : memory_range) (i : Nat) (mr : List memory_range) (j : Nat) :
    Option (List memory_range × Nat) :=
  if i = 0 ∧ e.start ≠ 0 then
    if j < mr.length then some (mr.set j ⟨0, e.start - 1, RANGE_RAM⟩, j + 1) else none
  else some (mr, j)

/-- Lines 647-661 and 667-680: store the range `[s, e]` in `memory_range[j]`, `j++`, and
limit it to `rmo_top`.  The third component tells whether the loop is left (`break`).
* `memory_range[j-1].start >= rmo_top`: `j--; break` (the stored element stays in the
  array but is no longer counted);
* `start < rmo_top && end >= rmo_top`: `memory_range[j-1].end = rmo_top; break`;
* otherwise the loop goes on. -/
def emit_range (rmo_top : Nat) (mr : List memory_range) (j : Nat) (s e : Nat) :
    Option (List memory_range × Nat × Bool) :=
  if j < mr.length then
    if s ≥ rmo_top then some (mr.set j ⟨s, e, RANGE_RAM⟩, j, true)
    else if e ≥ rmo_top then some (mr.set j ⟨s, rmo_top, RANGE_RAM⟩, j + 1, true)
    else some (mr.set j ⟨s, e, RANGE_RAM⟩, j + 1, false)
  else none

/-- Lines 641-680: the part of the loop body after the first hole, for index `i`.
`exclude_range[i+1]` is read whenever the trailing-gap branch did not `continue` or
`break`, also for `i == nr_exclude_ranges - 1`. -/
def gap_step (exclude_range : List memory_range) (nr_exclude_ranges memory_max rmo_top : Nat)
    (i : Nat) (e : memory_range) (mr : List memory_range) (j : Nat) :
    Option (List memory_range × Nat × Bool) :=
  if i = nr_exclude_ranges - 1 ∧ e.end_ < memory_max then
    emit_range rmo_top mr j ((e.end_ + 1) % U64) memory_max
  else
    match exclude_range[i + 1]? with
    | none => none
    | some e1 =>
      if e1.start = (e.end_ + 1) % U64 then some (mr, j, false)
      else emit_range rmo_top mr j ((e.end_ + 1) % U64) ((e1.start + U64 - 1) % U64)

/-- One iteration of the loop of lines 629-681 for index `i`. -/
def setup_step (exclude_range : List memory_range) (nr_exclude_ranges memory_max rmo_top : Nat)
    (i : Nat) (mr : List memory_range) (j : Nat) : Option (List memory_range × Nat × Bool) :=
  match exclude_range[i]? with
  | none => none
  | some e =>
    match first_hole e i mr j with
    | none => none
    | some (mr1, j1) => gap_step exclude_range nr_exclude_ranges memory_max rmo_top i e mr1 j1

/-- The loop `for (i = 0; i < nr_exclude_ranges; i++)` of lines 629-681, started at
index `i` with `k` iterations left (`k = nr_exclude_ranges - i`). -/
def setup_loop (exclude_range : List memory_range) (nr_exclude_ranges memory_max rmo_top : Nat) :
    Nat → Nat → List memory_range → Nat → Option (List memory_range × Nat)
  | 0, _, mr, j => some (mr, j)
  | k + 1, i, mr, j =>
    match setup_step exclude_range nr_exclude_ranges memory_max rmo_top i mr j with
    | none => none
    | some (mr1, j1, true) => some (mr1, j1)
    | some (mr1, j1, false) =>
      setup_loop exclude_range nr_exclude_ranges memory_max rmo_top k (i + 1) mr1 j1

/-- Lines 683-690: the fixup for `j == 0` and the assignment of `nr_memory_ranges`.
`base` is the array `base_memory_range` as it is after the loop.  The result is the array
`memory_range` and the count `nr_memory_ranges`. -/
def setup_fixup (base : List memory_range) (rmo_top : Nat)
    (mr : List memory_range) (j : Nat) : Option (List memory_range × Nat) :=
  if j = 0 then
    match base[0]? with
    | none => none
    | some b0 =>
      if 0 < mr.length then some (mr.set 0 ⟨b0.start, rmo_top, RANGE_RAM⟩, 1) else none
  else some (mr, j)

/-- Lines 629-690 of `setup_memory_ranges`: from the sorted exclusion array, its count,
`memory_max`, `rmo_top` and the base array, compute the array `memory_range` (whose
allocation on entry is `mr0`) and `nr_memory_ranges`.  `shared` tells that
`base_memory_range` and `memory_range` are the same block, as they are after a successful
`realloc_memory_ranges` (line 191); the stores of the loop into `memory_range` are then
stores into `base_memory_range` as well. -/
def setup_ranges (exclude_range : List memory_range) (nr_exclude_ranges memory_max rmo_top : Nat)
    (base_memory_range mr0 : List memory_range) (shared : Bool) :
    Option (List memory_range × Nat) :=
  match setup_loop exclude_range nr_exclude_ranges memory_max rmo_top
      nr_exclude_ranges 0 mr0 0 with
  | none => none
  | some (mr, j) => setup_fixup (if shared then mr else base_memory_range) rmo_top mr j

/-- The range list handed to the caller: the first `nr_memory_ranges` elements of
`memory_range` (`*range = memory_range; *ranges = nr_memory_ranges`). -/
def output_ranges (exclude_range : List memory_range) (nr_exclude_ranges memory_max rmo_top : Nat)
    (base_memory_range mr0 : List memory_range) (shared : Bool) :
    Option (List memory_range) :=
  (setup_ranges exclude_range nr_exclude_ranges memory_max rmo_top
    base_memory_range mr0 shared).map (fun r => r.1.take r.2)

/-! ## List-level description of the synthesis

The functions below describe the loop of `setup_memory_ranges` on the list of the first
`nr_exclude_ranges` exclusions; `output_ranges_eq_synth` and `output_ranges_some_eq_synth`
prove that the array code computes them.  They are used to state and prove the theorems
only. -/

/-- The limit to `rmo_top` of `emit_range` on values: the ranges that stay counted and
whether the loop is left. -/
def clip (rmo_top s e : Nat) : List memory_range × Bool :=
  if s ≥ rmo_top then ([], true)
  else if e ≥ rmo_top then ([⟨s, rmo_top, RANGE_RAM⟩], true)
  else ([⟨s, e, RANGE_RAM⟩], false)

/-- The ranges the loop counts for the exclusions `l` (first hole apart); `nxt` is the
element `exclude_range[nr_exclude_ranges]` that follows them in the allocation, if any. -/
def gaps_from (memory_max rmo_top : Nat) (nxt : Option memory_range) :
    List memory_range → Option (List memory_range)
  | [] => some []
  | [e] =>
    if e.end_ < memory_max then some (clip rmo_top ((e.end_ + 1) % U64) memory_max).1
    else
      match nxt with
      | none => none
      | some e1 =>
        if e1.start = (e.end_ + 1) % U64 then some []
        else some (clip rmo_top ((e.end_ + 1) % U64) ((e1.start + U64 - 1) % U64)).1
  | e :: e1 :: rest =>
    if e1.start = (e.end_ + 1) % U64 then gaps_from memory_max rmo_top nxt (e1 :: rest)
    else
      match clip rmo_top ((e.end_ + 1) % U64) ((e1.start + U64 - 1) % U64) with
      | (l, true) => some l
      | (l, false) => (gaps_from memory_max rmo_top nxt (e1 :: rest)).map (fun g => l ++ g)

/-- The loop of `setup_loop` without the first hole. -/
def gap_loop (exclude_range : List memory_range) (nr_exclude_ranges memory_max rmo_top : Nat) :
    Nat → Nat → List memory_range → Nat → Option (List memory_range × Nat)
  | 0, _, mr, j => some (mr, j)
  | k + 1, i, mr, j =>
    match exclude_range[i]? with
    | none => none
    | some e =>
      match gap_step exclude_range nr_exclude_ranges memory_max rmo_top i e mr j with
      | none => none
      | some (mr1, j1, true) => some (mr1, j1)
      | some (mr1, j1, false) =>
        gap_loop exclude_range nr_exclude_ranges memory_max rmo_top k (i + 1) mr1 j1

/-- The first hole `[0, exclude_range[0].start - 1]`, if any. -/
def hole : List memory_range → List memory_range
  | [] => []
  | e :: _ => if e.start ≠ 0 then [⟨0, e.start - 1, RANGE_RAM⟩] else []

/-- The range list of `setup_memory_ranges` on the exclusion list `l`; `b0` is
`base_memory_range[0].start`. -/
def synth (memory_max rmo_top : Nat) (nxt : Option memory_range) (b0 : Nat)
    (l : List memory_range) : Option (List memory_range) :=
  (gaps_from memory_max rmo_top nxt l).map
    (fun g => if hole l ++ g = [] then [⟨b0, rmo_top, RANGE_RAM⟩] else hole l ++ g)

/-- Every range of `g` is tagged RAM, starts below `rt`, ends at or below `rt`, and only
the last one can end at `rt`. -/
def limited (rt : Nat) (g : List memory_range) : Prop :=
  (∀ r ∈ g, r.type = RANGE_RAM ∧ r.start < rt ∧ r.end_ ≤ rt) ∧
    g.Pairwise (fun r _ => r.end_ < rt)

/-- Consecutive (hence all) entries are strictly ordered and disjoint. -/
def chain (l : List memory_range) : Prop := l.Pairwise (fun a b => a.end_ < b.start)

/-- Address `a` lies in some range of `l`. -/
def covers (l : List memory_range) (a : Nat) : Prop := ∃ r ∈ l, r.start ≤ a ∧ a ≤ r.end_

/-- Some range of `l` ends directly below `rt`. -/
def ends_before (l : List memory_range) (rt : Nat) : Prop := ∃ x ∈ l, x.end_ + 1 = rt

/-- Sorted ascending by `start`. -/
def sorted_by_start (l : List memory_range) : Prop := l.Pairwise (fun a b => a.start ≤ b.start)

/-- Pairwise non-overlapping: of two ranges one ends before the other starts. -/
def non_overlapping (l : List memory_range) : Prop :=
  l.Pairwise (fun a b => a.end_ < b.start ∨ b.end_ < a.start)

/-- Well-formed: `start <= end` for every range. -/
def well_formed (l : List memory_range) : Prop := ∀ e ∈ l, e.start ≤ e.end_

instance (l : List memory_range) : Decidable (sorted_by_start l) := by
  unfold sorted_by_start; infer_instance

instance (l : List memory_range) : Decidable (non_overlapping l) := by
  unfold non_overlapping; infer_instance

instance (l : List memory_range) : Decidable (well_formed l) := by
  unfold well_formed; infer_instance

instance (l : List memory_range) (a : Nat) : Decidable (covers l a) := by
  unfold covers; infer_instance

instance (l : List memory_range) (rt : Nat) : Decidable (ends_before l rt) := by
  unfold ends_before; infer_instance

/-- The set-complement law: the ranges of `out` cover exactly the addresses of
`[0, min(memory_max, rmo_top)]` that lie in no range of `excl`. -/
def complement_law (excl out : List memory_range) (memory_max rmo_top : Nat) : Prop :=
  ∀ a, covers out a ↔ (a ≤ min memory_max rmo_top ∧ ¬ covers excl a)

/-- The range `r` is the first hole `[0, exclude[0].start - 1]` of the exclusion list `l`. -/
def is_first_hole (l : List memory_range) (r : memory_range) : Prop :=
  ∃ e, l.head? = some e ∧ e.start ≠ 0 ∧ r = ⟨0, e.start - 1, RANGE_RAM⟩

/-! ## `sort_ranges` and `sort_base_ranges` (lines 134-175) -/

/-- Lines 140-147 (and 164-171): compare elements `j` and `j+1` of the array and, when
`a[j].start > a[j+1].start`, exchange their `start` and `end` fields.  The `type` fields
are not exchanged. -/
def swap_step (a : List memory_range) (j : Nat) : Option (List memory_range) :=
  match a[j]?, a[j + 1]? with
  | some x, some y =>
    if x.start > y.start then
      some ((a.set j ⟨y.start, y.end_, x.type⟩).set (j + 1) ⟨x.start, x.end_, y.type⟩)
    else some a
  | _, _ => none

/-- The inner loop `for (j = 0; j < nr - i - 1; j++)`, at index `j` with `k` iterations
left. -/
def sort_inner : Nat → Nat → List memory_range → Option (List memory_range)
  | 0, _, a => some a
  | k + 1, j, a =>
    match swap_step a j with
    | none => none
    | some a1 => sort_inner k (j + 1) a1

/-- The outer loop `for (i = 0; i < nr - 1; i++)`, at index `i` with `k` iterations left. -/
def sort_outer (nr : Nat) : Nat → Nat → List memory_range → Option (List memory_range)
  | 0, _, a => some a
  | k + 1, i, a =>
    match sort_inner (nr - i - 1) 0 a with
    | none => none
    | some a1 => sort_outer nr k (i + 1) a1

/-- `sort_ranges`: bubble sort of `exclude_range[0 .. nr_exclude_ranges)` by `start`.
For `nr_exclude_ranges == 0` the bound `nr_exclude_ranges - 1` is `-1` and the loop is not
entered. -/
def sort_ranges (exclude_range : List memory_range) (nr_exclude_ranges : Nat) :
    Option (List memory_range) :=
  sort_outer nr_exclude_ranges (nr_exclude_ranges - 1) 0 exclude_range

/-- `sort_base_ranges`: the same bubble sort on `base_memory_range[0 .. nr_memory_ranges)`. -/
def sort_base_ranges (base_memory_range : List memory_range) (nr_memory_ranges : Nat) :
    Option (List memory_range) :=
  sort_outer nr_memory_ranges (nr_memory_ranges - 1) 0 base_memory_range

/-- The `(start, end)` pairs of a list of ranges. -/
def pairs (l : List memory_range) : List (Nat × Nat) := l.map (fun r => (r.start, r.end_))

/-- List-level description of `sort_inner`: `k` compare-and-exchange steps from the head. -/
def pass : Nat → List memory_range → List memory_range
  | k + 1, x :: y :: r =>
    if x.start > y.start then
      ⟨y.start, y.end_, x.type⟩ :: pass k (⟨x.start, x.end_, y.type⟩ :: r)
    else x :: pass k (y :: r)
  | _, l => l

/-- The entries with a given `start`, in order, are the same in `p` and `q`: entries with
equal start keep their order. -/
def same_order (p q : List (Nat × Nat)) : Prop :=
  ∀ s : Nat, p.filter (fun x => decide (x.1 = s)) = q.filter (fun x => decide (x.1 = s))

/-! ## Global state and the allocator -/

/-- How the pointers `memory_range` and `base_memory_range` stand to each other.  After
line 191, `base_memory_range = realloc(memory_range, ...)`, they are the same block when
`realloc` returns its argument (`shared`), and `memory_range` points to freed memory when
`realloc` moves the block (`dangling`). -/
inductive mr_link where
  | separate
  | shared
  | dangling
deriving DecidableEq, Repr

/-- The global variables of `kexec-ppc.c` together with the external variables it uses
(`usablemem_rgns` of `crashdump-powerpc.c`, `mem_min` and `mem_max` of `kexec.c`).
A `NULL` array pointer is the empty allocation `[]`.  When `link` is `shared` the content
of the common block of `memory_range` and `base_memory_range` is the field `memory_range`.
`nalloc` counts the calls of the allocator made so far; it only selects the answers of
the allocator in `Heap`. -/
structure State where
  rmo_top : Nat
  crash_base : Nat
  crash_size : Nat
  rtas_base : Nat
  rtas_size : Nat
  max_memory_ranges : Nat
  use_new_dtb : Bool
  nr_memory_ranges : Nat
  nr_exclude_ranges : Nat
  memory_max : Nat
  mem_min : Nat
  mem_max : Nat
  usablemem_rgns_size : Nat
  nalloc : Nat
  link : mr_link
  mem_rsrv : List (Nat × Nat)
  usablemem_rgns_ranges : List KexecPpc.memory_range
  exclude_range : List KexecPpc.memory_range
  base_memory_range : List KexecPpc.memory_range
  memory_range : List KexecPpc.memory_range
deriving DecidableEq, Repr

/-- The elements that `base_memory_range` points to. -/
def base_array (s : State) : List memory_range :=
  if s.link = mr_link.shared then s.memory_range else s.base_memory_range

/-- A store into the block that `base_memory_range` points to. -/
def set_base_array (s : State) (a : List memory_range) : State :=
  if s.link = mr_link.shared then { s with memory_range := a }
  else { s with base_memory_range := a }

/-- The behaviour of the C allocator that the program cannot control: whether the `k`-th
call succeeds, whether it returns a block at another address when it is a `realloc`, and
the indeterminate value `junk k i` found in element `i` of memory that the `k`-th call
hands out uninitialised. -/
structure Heap where
  ok : Nat → Bool
  moves : Nat → Bool
  junk : Nat → Nat → memory_range

/-- The block returned by the `k`-th allocator call when it is `malloc` of `n` elements
(`none` is `NULL`). -/
def c_malloc (h : Heap) (k n : Nat) : Option (List memory_range) :=
  if h.ok k then some ((List.range n).map (h.junk k)) else none

/-- The block returned by the `k`-th allocator call when it is `realloc (old, n elements)`:
the old contents up to the smaller of the two sizes, the rest indeterminate. -/
def c_realloc (h : Heap) (k : Nat) (old : List memory_range) (n : Nat) :
    Option (List memory_range) :=
  if h.ok k then some ((List.range n).map (fun i => old.getD i (h.junk k i))) else none

/-- `realloc_memory_ranges` (lines 180-212).  The result is the return value and the new
state.  `memory_range` becomes a fresh `malloc` block (line 187); `base_memory_range`
becomes `realloc` of that fresh block (line 191 passes `memory_range`, not
`base_memory_range`), so it holds the content of the fresh block and is that block itself
unless `realloc` moves it; `exclude_range` and `usablemem_rgns.ranges` are `realloc`ed from
themselves. -/
def realloc_memory_ranges (h : Heap) (s : State) : Int × State :=
  let n := s.max_memory_ranges + 1
  let s1 := { s with max_memory_ranges := n }
  match c_malloc h s1.nalloc n with
  | none =>
    (-1, { s1 with base_memory_range := base_array s1, memory_range := [],
                   link := mr_link.separate, nalloc := s1.nalloc + 1 })
  | some m =>
    let s2 := { s1 with base_memory_range := base_array s1, memory_range := m,
                        link := mr_link.separate, nalloc := s1.nalloc + 1 }
    match c_realloc h s2.nalloc s2.memory_range n with
    | none => (-1, { s2 with base_memory_range := [], nalloc := s2.nalloc + 1 })
    | some b =>
      let s3 :=
        if h.moves s2.nalloc then
          { s2 with base_memory_range := b, memory_range := [], link := mr_link.dangling,
                    nalloc := s2.nalloc + 1 }
        else
          { s2 with base_memory_range := b, memory_range := b, link := mr_link.shared,
                    nalloc := s2.nalloc + 1 }
      match c_realloc h s3.nalloc s3.exclude_range n with
      | none => (-1, { s3 with exclude_range := [], nalloc := s3.nalloc + 1 })
      | some e =>
        let s4 := { s3 with exclude_range := e, nalloc := s3.nalloc + 1 }
        match c_realloc h s4.nalloc s4.usablemem_rgns_ranges n with
        | none => (-1, { s4 with usablemem_rgns_ranges := [], nalloc := s4.nalloc + 1 })
        | some u => (0, { s4 with usablemem_rgns_ranges := u, nalloc := s4.nalloc + 1 })

/-! ## The device tree and `get_devtree_details` (lines 292-612)

The program is built for the 32-bit big-endian PowerPC: `unsigned long` and `unsigned int`
have 4 bytes, `unsigned long long` has 8, and the first byte of an object is its most
significant one. -/

/-- `sizeof(unsigned long)` on the 32-bit PowerPC. -/
def SIZEOF_LONG : Nat := 4

/-- `sizeof(unsigned int)` on the 32-bit PowerPC. -/
def SIZEOF_INT : Nat := 4

/-- `#define MAXBYTES 128` (line 178). -/
def MAXBYTES : Nat := 128

/-- Modelled from the spec: the size of the "fixed-size window" kept as the crash backup
region.  `KDUMP_BACKUP_LIMIT` is defined in `crashdump-powerpc.h`, which is not among the
sources; the value there is `0x10000`. -/
def KDUMP_BACKUP_LIMIT : Nat := 0x10000

/-- A property file below a node of `/proc/device-tree`: its bytes, or a file that `fopen`
cannot open for a reason other than `ENOENT`. -/
inductive prop_file where
  | data (bytes : List Nat)
  | unreadable
deriving DecidableEq, Repr

/-- A directory entry of `/proc/device-tree/`: its name, whether `opendir` succeeds on it,
and the property files below it. -/
structure dt_node where
  d_name : String
  is_dir : Bool
  props : List (String × prop_file)
deriving DecidableEq, Repr

/-- The outcome of `fopen(fname, "r")`. -/
inductive fopen_result where
  | file (bytes : List Nat)
  | enoent
  | error
deriving DecidableEq, Repr

/-- `fopen` of the property `name` of node `nd`. -/
def fopen (nd : dt_node) (name : String) : fopen_result :=
  match nd.props.find? (fun p => p.1 = name) with
  | none => fopen_result.enoent
  | some (_, prop_file.data b) => fopen_result.file b
  | some (_, prop_file.unreadable) => fopen_result.error

/-- `strncmp(name, pre, strlen(pre)) == 0`. -/
def starts_with (name pre : String) : Bool := pre.data.isPrefixOf name.data

/-- The length of `"/proc/device-tree/"`, the content of `device_tree` (lines 218 and 302). -/
def DEVICE_TREE_LEN : Nat := 18

/-- The size of the path buffer `char fname[256]` (lines 219 and 303). -/
def FNAME_SIZE : Nat := 256

/-- `strlen`: the number of bytes of a name. -/
def strlen (s : String) : Nat := s.utf8ByteSize

/-- `strcpy(fname, device_tree); strcat(fname, dentry->d_name);` stays inside `fname`:
the path and its terminating zero have room in `FNAME_SIZE` bytes. -/
def dir_path_fits (nd : dt_node) : Bool := DEVICE_TREE_LEN + strlen nd.d_name < FNAME_SIZE

/-- The further `strcat(fname, "/<name>")` stays inside `fname`. -/
def prop_path_fits (nd : dt_node) (name : String) : Bool :=
  DEVICE_TREE_LEN + strlen nd.d_name + 1 + strlen name < FNAME_SIZE

/-- Build the path of the property `name` of node `nd` in `fname` with `strcpy` and
`strcat`, which check no length, and `fopen` it: `none` when the path leaves `fname`. -/
def open_prop (nd : dt_node) (name : String) : Option fopen_result :=
  if prop_path_fits nd name then some (fopen nd name) else none

/-- The unsigned integer that a sequence of bytes denotes, most significant byte first. -/
def be (bytes : List Nat) : Nat := bytes.foldl (fun acc b => acc * 256 + b % 256) 0

/-- `fread(ptr, size, 1, file) == 1` on a freshly opened file: the `size` bytes read, or
`none` when the call does not return `1`. -/
def fread_item (bytes : List Nat) (size : Nat) : Option (List Nat) :=
  if 0 < size ∧ size ≤ bytes.length then some (bytes.take size) else none

/-- The value of an object of `width` bytes that held `old` after its first
`item.length` bytes were overwritten by `item`. -/
def store_be (width old : Nat) (item : List Nat) : Nat :=
  be item * 256 ^ (width - item.length) + old % 256 ^ (width - item.length)

/-- What the program cannot control during one call: the directory
`/proc/device-tree/` in `readdir` order (`none`: it cannot be opened), the allocator, the
external flag `reuse_initrd`, the indeterminate initial content `buf0` of the buffer `buf`
of `get_base_ranges`, and the indeterminate initial values of the local variables that
`fread` overwrites only in part. -/
structure Env where
  tree : Option (List dt_node)
  heap : Heap
  reuse_initrd : Bool
  buf0 : List Nat
  htab_base0 : Nat
  htab_size0 : Nat
  initrd_start0 : Nat
  initrd_end0 : Nat
  tce_base0 : Nat

/-- The outcome of the loop body for one directory entry. -/
inductive node_result where
  | next (s : State) (i : Nat)
  | fail (s : State)
deriving DecidableEq, Repr

/-- `a[i].start = st; a[i].end = en;` (the `type` field is not written). -/
def set_start_end (a : List memory_range) (i st en : Nat) : Option (List memory_range) :=
  match a[i]? with
  | none => none
  | some r => some (a.set i ⟨st, en, r.type⟩)

/-- `if (i >= max_memory_ranges) realloc_memory_ranges();` -- the return value is ignored. -/
def grow_if_full (h : Heap) (s : State) (i : Nat) : State :=
  if i ≥ s.max_memory_ranges then (realloc_memory_ranges h s).2 else s

/-- Modelled from the spec: `add_usable_mem_rgns` of `crashdump-powerpc.c` (not among the
sources) appends the region `[base, base + size]` to the crash usable-region list, without
merging or sorting. -/
def add_usable_mem_rgns (base size : Nat) (s : State) : State :=
  { s with
    usablemem_rgns_ranges :=
      s.usablemem_rgns_ranges.take s.usablemem_rgns_size ++
        ⟨base, (base + size) % U64, 0⟩ ::
          s.usablemem_rgns_ranges.drop (s.usablemem_rgns_size + 1)
    usablemem_rgns_size := s.usablemem_rgns_size + 1 }

/-- Modelled from the spec: `reserve` (not among the sources) registers the window
`[base, base + size]` as a reservation.  `exclude_range` and the local `i` are out of its
reach (`exclude_range` is `static` in `kexec-ppc.c`). -/
def reserve (base size : Nat) (s : State) : State :=
  { s with mem_rsrv := s.mem_rsrv ++ [(base, size)] }

/-- Lines 435-484: the retained initrd, read when `reuse_initrd` is set. -/
def chosen_initrd (env : Env) (nd : dt_node) (s : State) (i : Nat) : Option node_result :=
  if env.reuse_initrd then
    match open_prop nd "linux,initrd-start" with
    | none => none
    | some (fopen_result.file b1) =>
      if b1.length > 8 then none
      else
        match fread_item b1 b1.length with
        | none => some (node_result.fail s)
        | some it1 =>
          let initrd_start := store_be 8 env.initrd_start0 it1
          match open_prop nd "linux,initrd-end" with
          | none => none
          | some (fopen_result.file b2) =>
            if b2.length > 8 then none
            else
              match fread_item b2 b2.length with
              | none => some (node_result.fail s)
              | some it2 =>
                let initrd_end := store_be 8 env.initrd_end0 it2
                match set_start_end s.exclude_range i initrd_start initrd_end with
                | none => none
                | some ex =>
                  some (node_result.next
                    (grow_if_full env.heap { s with exclude_range := ex } (i + 1)) (i + 1))
          | some _ => some (node_result.fail s)
    | some _ => some (node_result.fail s)
  else some (node_result.next s i)

/-- Lines 393-484: the hash table and, after it, the initrd.  When `linux,htab-base` does
not exist (`ENOENT`) the loop `continue`s with the next directory entry. -/
def chosen_htab (env : Env) (nd : dt_node) (s : State) (i : Nat) : Option node_result :=
  match open_prop nd "linux,htab-base" with
  | none => none
  | some fopen_result.enoent => some (node_result.next s i)
  | some fopen_result.error => some (node_result.fail s)
  | some (fopen_result.file b1) =>
    match fread_item b1 SIZEOF_LONG with
    | none => some (node_result.fail s)
    | some it1 =>
      let htab_base := store_be 8 env.htab_base0 it1
      match open_prop nd "linux,htab-size" with
      | none => none
      | some (fopen_result.file b2) =>
        match fread_item b2 SIZEOF_LONG with
        | none => some (node_result.fail s)
        | some it2 =>
          let htab_size := store_be 8 env.htab_size0 it2
          match set_start_end s.exclude_range i htab_base ((htab_base + htab_size) % U64) with
          | none => none
          | some ex =>
            chosen_initrd env nd
              (grow_if_full env.heap { s with exclude_range := ex } (i + 1)) (i + 1)
      | some _ => some (node_result.fail s)

/-- Lines 350-392: on `KEXEC_ON_CRASH`, read the crash kernel region, narrow `mem_min` and
`mem_max`, record the usable region and the backup reservation.  The first component is
`false` when the function is left with `return -1`; the result is `none` when a path
leaves `fname`. -/
def chosen_crash (nd : dt_node) (on_crash : Bool) (s : State) : Option (Bool × State) :=
  if on_crash then
    match open_prop nd "linux,crashkernel-base" with
    | none => none
    | some (fopen_result.file b1) =>
      match fread_item b1 SIZEOF_LONG with
      | none => some (false, s)
      | some it1 =>
        let s1 := { s with crash_base := be it1 }
        match open_prop nd "linux,crashkernel-size" with
        | none => none
        | some (fopen_result.file b2) =>
          match fread_item b2 SIZEOF_LONG with
          | none => some (false, s1)
          | some it2 =>
            let s2 := { s1 with crash_size := be it2 }
            let s3 := if s2.crash_base > s2.mem_min then { s2 with mem_min := s2.crash_base }
              else s2
            let s4 := if (s3.crash_base + s3.crash_size) % U64 < s3.mem_max then
                { s3 with mem_max := (s3.crash_base + s3.crash_size) % U64 }
              else s3
            some (true,
              reserve KDUMP_BACKUP_LIMIT ((s4.crash_base + U64 - KDUMP_BACKUP_LIMIT) % U64)
                (add_usable_mem_rgns 0 ((s4.crash_base + s4.crash_size) % U64) s4))
        | some _ => some (false, s1)
    | some _ => some (false, s)
  else some (true, s)

/-- Lines 329-485: a directory entry whose name starts with `chosen`. -/
def chosen_node (env : Env) (nd : dt_node) (on_crash : Bool) (s : State) (i : Nat) :
    Option node_result :=
  match open_prop nd "linux,kernel-end" with
  | none => none
  | some (fopen_result.file b) =>
    match fread_item b SIZEOF_LONG with
    | none => some (node_result.fail s)
    | some it =>
      match set_start_end s.exclude_range i 0 (be it) with
      | none => none
      | some ex =>
        let s1 := grow_if_full env.heap { s with exclude_range := ex } (i + 1)
        match chosen_crash nd on_crash s1 with
        | none => none
        | some (false, s2) => some (node_result.fail s2)
        | some (true, s2) => chosen_htab env nd s2 (i + 1)
  | some _ => some (node_result.fail s)

/-- Lines 487-518: a directory entry whose name starts with `rtas`.  The sum
`rtas_base + rtas_size` is computed in `unsigned int`.  No reallocation follows the store
into `exclude_range`. -/
def rtas_node (nd : dt_node) (on_crash : Bool) (s : State) (i : Nat) : Option node_result :=
  match open_prop nd "linux,rtas-base" with
  | none => none
  | some (fopen_result.file b1) =>
    match fread_item b1 SIZEOF_INT with
    | none => some (node_result.fail s)
    | some it1 =>
      let s1 := { s with rtas_base := be it1 }
      match open_prop nd "rtas-size" with
      | none => none
      | some (fopen_result.file b2) =>
        match fread_item b2 SIZEOF_INT with
        | none => some (node_result.fail s1)
        | some it2 =>
          let s2 := { s1 with rtas_size := be it2 }
          match set_start_end s2.exclude_range i s2.rtas_base
              ((s2.rtas_base + s2.rtas_size) % U32) with
          | none => none
          | some ex =>
            let s3 := { s2 with exclude_range := ex }
            some (node_result.next
              (if on_crash then add_usable_mem_rgns s3.rtas_base s3.rtas_size s3 else s3)
              (i + 1))
      | some _ => some (node_result.fail s1)
  | some _ => some (node_result.fail s)

/-- Lines 520-546: a directory entry `memory` or `memory@...`: `rmo_top` from its `reg`
property, limited to `0x30000000`.  The buffer `buf` has `MAXBYTES - 1` bytes while up to
`MAXBYTES` are read. -/
def memory_node (nd : dt_node) (s : State) (i : Nat) : Option node_result :=
  match open_prop nd "reg" with
  | none => none
  | some (fopen_result.file b) =>
    if b.length ≥ MAXBYTES then none
    else if b.length = 8 then
      let rmo_top := (be (b.take 4) + be ((b.drop 4).take 4)) % U64
      some (node_result.next
        { s with rmo_top := if rmo_top > 0x30000000 then 0x30000000 else rmo_top } i)
    else if b.length = 16 then
      let rmo_top := (be (b.take 8) + be ((b.drop 8).take 8)) % U64
      some (node_result.next
        { s with rmo_top := if rmo_top > 0x30000000 then 0x30000000 else rmo_top } i)
    else some (node_result.fail s)
  | some _ => some (node_result.fail s)

/-- Lines 548-588: a directory entry whose name starts with `pci@`.  When
`linux,tce-base` does not exist (`ENOENT`) the loop `continue`s.  No reallocation follows
the store into `exclude_range`. -/
def pci_node (env : Env) (nd : dt_node) (on_crash : Bool) (s : State) (i : Nat) :
    Option node_result :=
  match open_prop nd "linux,tce-base" with
  | none => none
  | some fopen_result.enoent => some (node_result.next s i)
  | some fopen_result.error => some (node_result.fail s)
  | some (fopen_result.file b1) =>
    match fread_item b1 SIZEOF_LONG with
    | none => some (node_result.fail s)
    | some it1 =>
      let tce_base := store_be 8 env.tce_base0 it1
      match open_prop nd "linux,tce-size" with
      | none => none
      | some (fopen_result.file b2) =>
        match fread_item b2 SIZEOF_INT with
        | none => some (node_result.fail s)
        | some it2 =>
          let tce_size := be it2
          match set_start_end s.exclude_range i tce_base ((tce_base + tce_size) % U64) with
          | none => none
          | some ex =>
            let s1 := { s with exclude_range := ex }
            some (node_result.next
              (if on_crash then add_usable_mem_rgns tce_base tce_size s1 else s1) (i + 1))
      | some _ => some (node_result.fail s)

/-- Lines 315-589: the loop body for one directory entry.  For an entry that passes the
name filter, `strcpy` and `strcat` build its path in `fname` before `opendir` (lines
322-324). -/
def devtree_node (env : Env) (on_crash : Bool) (nd : dt_node) (s : State) (i : Nat) :
    Option node_result :=
  if !(starts_with nd.d_name "chosen" || starts_with nd.d_name "memory@" ||
      starts_with nd.d_name "memory" || starts_with nd.d_name "pci@" ||
      starts_with nd.d_name "rtas") then
    some (node_result.next s i)
  else if !dir_path_fits nd then none
  else if !nd.is_dir then some (node_result.fail s)
  else if starts_with nd.d_name "chosen" then chosen_node env nd on_crash s i
  else if starts_with nd.d_name "rtas" then rtas_node nd on_crash s i
  else if starts_with nd.d_name "memory@" || nd.d_name = "memory" then memory_node nd s i
  else if starts_with nd.d_name "pci@" then pci_node env nd on_crash s i
  else some (node_result.next s i)

/-- The `while ((dentry = readdir(dir)) != NULL)` loop of lines 315-589 over the entries
that are left. -/
def devtree_loop (env : Env) (on_crash : Bool) :
    List dt_node → State → Nat → Option node_result
  | [], s, i => some (node_result.next s i)
  | nd :: rest, s, i =>
    match devtree_node env on_crash nd s i with
    | none => none
    | some (node_result.fail s1) => some (node_result.fail s1)
    | some (node_result.next s1 i1) => devtree_loop env on_crash rest s1 i1

/-- `get_devtree_details` (lines 292-612): the return value and the state, or `none` when
an access leaves an allocation.  `on_crash` is `kexec_flags & KEXEC_ON_CRASH`. -/
def get_devtree_details (env : Env) (on_crash : Bool) (s : State) : Option (Int × State) :=
  match env.tree with
  | none => some (-1, s)
  | some nodes =>
    match devtree_loop env on_crash nodes s 0 with
    | none => none
    | some (node_result.fail s1) => some (-1, s1)
    | some (node_result.next s1 i) =>
      match sort_ranges s1.exclude_range i with
      | none => none
      | some ex => some (0, { s1 with nr_exclude_ranges := i, exclude_range := ex })

/-- The exclusion list that `get_devtree_details` leaves: the first `nr_exclude_ranges`
elements of `exclude_range`. -/
def exclusion_list (s : State) : List memory_range := s.exclude_range.take s.nr_exclude_ranges

/-! ## `count_memory_ranges`, `alloc_memory_ranges`, `get_base_ranges`,
`setup_memory_ranges` and `get_memory_ranges_dt` -/

/-- The test of lines 77-78 and 231-232: the entry is `memory` or starts with `memory@`. -/
def is_memory_node (nd : dt_node) : Bool :=
  starts_with nd.d_name "memory@" || nd.d_name = "memory"

/-- `count_memory_ranges` (lines 65-91): `max_memory_ranges` is increased by the number of
memory nodes, and by one more when `use_new_dtb` is set. -/
def count_memory_ranges (env : Env) (s : State) : Int × State :=
  match env.tree with
  | none => (-1, s)
  | some nodes =>
    let n := s.max_memory_ranges + (nodes.filter is_memory_node).length
    (0, { s with max_memory_ranges := if s.use_new_dtb then n + 1 else n })

/-- `cleanup_memory_ranges` (lines 93-98): the three arrays are freed.  When
`memory_range` and `base_memory_range` are the same block, or `memory_range` points to
memory that `realloc` has freed, a block is freed twice and there is no defined result. -/
def cleanup_memory_ranges (s : State) : Option State :=
  if s.link = mr_link.separate then
    some { s with memory_range := [], base_memory_range := [], exclude_range := [] }
  else none

/-- `alloc_memory_ranges` (lines 104-131): three zero-filled arrays of `max_memory_ranges`
elements; on a failed `malloc` the blocks obtained so far are freed again. -/
def alloc_memory_ranges (env : Env) (s : State) : Int × State :=
  let n := s.max_memory_ranges
  match c_malloc env.heap s.nalloc n with
  | none => (-1, { s with memory_range := [], link := mr_link.separate, nalloc := s.nalloc + 1 })
  | some _ =>
    match c_malloc env.heap (s.nalloc + 1) n with
    | none =>
      (-1, { s with memory_range := [], base_memory_range := [], exclude_range := [],
                    link := mr_link.separate, nalloc := s.nalloc + 2 })
    | some _ =>
      match c_malloc env.heap (s.nalloc + 2) n with
      | none =>
        (-1, { s with memory_range := [], base_memory_range := [], exclude_range := [],
                      link := mr_link.separate, nalloc := s.nalloc + 3 })
      | some _ =>
        (0, { s with
          memory_range := List.replicate n zero_range
          base_memory_range := List.replicate n zero_range
          exclude_range := List.replicate n zero_range
          link := mr_link.separate
          nalloc := s.nalloc + 3 })

/-- The outcome of the loop body of `get_base_ranges` for one directory entry: the state,
`local_memory_ranges` and the content of `buf`, or `return -1`. -/
inductive base_result where
  | next (s : State) (n : Nat) (buf : List Nat)
  | fail (s : State)

/-- Lines 230-278: the loop body of `get_base_ranges` for one directory entry.  The two
32-bit words at the start of `buf` are taken as base and size whatever the number of
bytes read.  The path of the node is built in `fname` before `opendir` (lines 234-235), and
`"/reg"` is appended when the node has an entry `reg` (line 244). -/
def base_node (env : Env) (nd : dt_node) (s : State) (n : Nat) (buf : List Nat) :
    Option base_result :=
  if !is_memory_node nd then some (base_result.next s n buf)
  else if !dir_path_fits nd then none
  else if !nd.is_dir then some (base_result.fail s)
  else
    match fopen nd "reg" with
    | fopen_result.enoent => some (base_result.next s n buf)
    | fopen_result.error =>
      if !prop_path_fits nd "reg" then none else some (base_result.fail s)
    | fopen_result.file b =>
      if !prop_path_fits nd "reg" then none
      else
        let buf1 := b.take MAXBYTES ++ buf.drop (min b.length MAXBYTES)
        let r := if n ≥ s.max_memory_ranges then realloc_memory_ranges env.heap s else (0, s)
        if r.1 < 0 then some (base_result.next r.2 n buf1)
        else
          let start := be (buf1.take 4)
          let size := be ((buf1.drop 4).take 4)
          if n < (base_array r.2).length then
            some (base_result.next
              (set_base_array r.2
                ((base_array r.2).set n ⟨start, (start + size) % U64, RANGE_RAM⟩))
              (n + 1) buf1)
          else none

/-- The `while` loop of lines 230-278 over the entries that are left. -/
def base_loop (env : Env) : List dt_node → State → Nat → List Nat → Option base_result
  | [], s, n, buf => some (base_result.next s n buf)
  | nd :: rest, s, n, buf =>
    match base_node env nd s n buf with
    | none => none
    | some (base_result.fail s1) => some (base_result.fail s1)
    | some (base_result.next s1 n1 buf1) => base_loop env rest s1 n1 buf1

/-- `get_base_ranges` (lines 215-287).  After the loop `memory_max` is read from
`base_memory_range[nr_memory_ranges - 1]`, also when `nr_memory_ranges` is `0`. -/
def get_base_ranges (env : Env) (s : State) : Option (Int × State) :=
  match env.tree with
  | none => some (-1, s)
  | some nodes =>
    match base_loop env nodes s 0 env.buf0 with
    | none => none
    | some (base_result.fail s1) => some (-1, s1)
    | some (base_result.next s1 n _) =>
      match sort_base_ranges (base_array s1) n with
      | none => none
      | some b =>
        if n = 0 then none
        else
          match b[n - 1]? with
          | none => none
          | some last =>
            let s2 := set_base_array s1 b
            some (0, { s2 with nr_memory_ranges := n, memory_max := last.end_ })

/-- The exit `out:` of `setup_memory_ranges` (lines 701-703). -/
def setup_out (s : State) : Option (Int × State) :=
  match cleanup_memory_ranges s with
  | none => none
  | some s1 => some (-1, s1)

/-- `setup_memory_ranges` (lines 616-704). -/
def setup_memory_ranges (env : Env) (on_crash : Bool) (s : State) : Option (Int × State) :=
  match get_base_ranges env s with
  | none => none
  | some (r1, s1) =>
    if r1 ≠ 0 then setup_out s1
    else
      match get_devtree_details env on_crash s1 with
      | none => none
      | some (r2, s2) =>
        if r2 ≠ 0 then setup_out s2
        else
          match setup_ranges s2.exclude_range s2.nr_exclude_ranges s2.memory_max s2.rmo_top
              s2.base_memory_range s2.memory_range (decide (s2.link = mr_link.shared)) with
          | none => none
          | some (mr, nr) => some (0, { s2 with memory_range := mr, nr_memory_ranges := nr })

/-- `get_memory_ranges_dt` (lines 708-721): the return value, the state, and the range
list handed to the caller through `*range` and `*ranges` (`none` when they are not
assigned). -/
def get_memory_ranges_dt (env : Env) (on_crash : Bool) (s : State) :
    Option (Int × State × Option (List memory_range)) :=
  match count_memory_ranges env s with
  | (r1, s1) =>
    if r1 ≠ 0 then some (-1, s1, none)
    else
      match alloc_memory_ranges env s1 with
      | (r2, s2) =>
        if r2 ≠ 0 then some (-1, s2, none)
        else
          match setup_memory_ranges env on_crash s2 with
          | none => none
          | some (r3, s3) =>
            if r3 ≠ 0 then some (-1, s3, none)
            else some (0, s3, some (s3.memory_range.take s3.nr_memory_ranges))

/-! ## Concrete inputs used in the theorems -/

/-- The four bytes of a 32-bit value, most significant first. -/
def u32_bytes (n : Nat) : List Nat := [n / 2 ^ 24 % 256, n / 2 ^ 16 % 256, n / 2 ^ 8 % 256, n % 256]

/-- An allocator that always succeeds, never moves a block in `realloc`, and hands out
zero-filled memory. -/
def heap_zero : Heap := ⟨fun _ => true, fun _ => false, fun _ _ => zero_range⟩

/-- The state at program start: objects of static storage duration are zero, and
`mem_max` is `ULONG_MAX`. -/
def init_state : State :=
  { rmo_top := 0, crash_base := 0, crash_size := 0, rtas_base := 0, rtas_size := 0,
    max_memory_ranges := 0, use_new_dtb := false, nr_memory_ranges := 0,
    nr_exclude_ranges := 0, memory_max := 0, mem_min := 0, mem_max := 0xFFFFFFFF,
    usablemem_rgns_size := 0, nalloc := 0, link := mr_link.separate, mem_rsrv := [],
    usablemem_rgns_ranges := [],
    exclude_range := [], base_memory_range := [], memory_range := [] }

/-- The state of a machine with one memory node `[0, 0x10000000]` when
`get_devtree_details` has stored the kernel exclusion `[0, 0xFFFFFF]` and finds
`i >= max_memory_ranges` (line 348). -/
def state_one_node : State :=
  { init_state with
    max_memory_ranges := 1, nr_memory_ranges := 1, memory_max := 0x10000000, nalloc := 3,
    exclude_range := [⟨0, 0xFFFFFF, 0⟩],
    base_memory_range := [⟨0, 0x10000000, RANGE_RAM⟩],
    memory_range := [zero_range] }

/-- A memory node `memory@0` with `reg = (0, 0x10000000)` as two 32-bit values. -/
def node_memory : dt_node :=
  ⟨"memory@0", true, [("reg", prop_file.data (u32_bytes 0 ++ u32_bytes 0x10000000))]⟩

/-- A `chosen` node with `linux,kernel-end = 0xFFFFFF` and an initrd at
`[0x2000000, 0x2800000]` (8-byte properties), without `linux,htab-base`. -/
def node_chosen_no_htab : dt_node :=
  ⟨"chosen", true,
    [("linux,kernel-end", prop_file.data (u32_bytes 0xFFFFFF)),
     ("linux,initrd-start", prop_file.data (u32_bytes 0 ++ u32_bytes 0x2000000)),
     ("linux,initrd-end", prop_file.data (u32_bytes 0 ++ u32_bytes 0x2800000))]⟩

/-- The same `chosen` node with `linux,htab-base` and `linux,htab-size` added. -/
def node_chosen_htab : dt_node :=
  ⟨"chosen", true,
    [("linux,kernel-end", prop_file.data (u32_bytes 0xFFFFFF)),
     ("linux,htab-base", prop_file.data (u32_bytes 0x1000000)),
     ("linux,htab-size", prop_file.data (u32_bytes 0x40000)),
     ("linux,initrd-start", prop_file.data (u32_bytes 0 ++ u32_bytes 0x2000000)),
     ("linux,initrd-end", prop_file.data (u32_bytes 0 ++ u32_bytes 0x2800000))]⟩

/-- A device tree with the given `chosen` node and one memory node; `reuse_initrd` is set,
the allocator hands out zero-filled memory and the locals start as zero. -/
def env_of_chosen (chosen : dt_node) : Env :=
  ⟨some [chosen, node_memory], heap_zero, true, List.replicate 128 0, 0, 0, 0, 0, 0⟩

/-- A device tree with two memory nodes of 8 MiB, `reg = (0, 0x800000)` and
`reg = (0x800000, 0x800000)`, and a `chosen` node with `linux,kernel-end = 0xFFFFFF`: the
kernel fills the memory. -/
def env_kernel_fills_memory : Env :=
  ⟨some [⟨"chosen", true, [("linux,kernel-end", prop_file.data (u32_bytes 0xFFFFFF))]⟩,
      ⟨"memory@0", true, [("reg", prop_file.data (u32_bytes 0 ++ u32_bytes 0x800000))]⟩,
      ⟨"memory@800000", true,
        [("reg", prop_file.data (u32_bytes 0x800000 ++ u32_bytes 0x800000))]⟩],
    heap_zero, false, List.replicate 128 0, 0, 0, 0, 0, 0⟩

/-! ## Further inputs and predicates used in the theorems -/

/-- A `chosen` node of a crash-capture boot: `linux,kernel-end = 0xFFFFFF`, a crash kernel
region of `0x1000000` bytes at `0x2000000`, and no `linux,htab-base`. -/
def node_chosen_crash : dt_node :=
  ⟨"chosen", true,
    [("linux,kernel-end", prop_file.data (u32_bytes 0xFFFFFF)),
     ("linux,crashkernel-base", prop_file.data (u32_bytes 0x2000000)),
     ("linux,crashkernel-size", prop_file.data (u32_bytes 0x1000000))]⟩

/-- The state after `alloc_memory_ranges` on a machine with two memory nodes: three
zero-filled arrays of two elements. -/
def state_two_slots : State :=
  { init_state with
    max_memory_ranges := 2, nalloc := 3,
    exclude_range := [zero_range, zero_range],
    base_memory_range := [zero_range, zero_range],
    memory_range := [zero_range, zero_range] }

/-- The state that the loop body leaves on `node_chosen_crash` from `state_two_slots` when
`KEXEC_ON_CRASH` is set. -/
def state_after_chosen_crash : State :=
  { state_two_slots with
    crash_base := 0x2000000, crash_size := 0x1000000,
    mem_min := 0x2000000, mem_max := 0x3000000,
    usablemem_rgns_size := 1,
    mem_rsrv := [(0x10000, 0x1FF0000)],
    usablemem_rgns_ranges := [⟨0, 0x3000000, 0⟩],
    exclude_range := [⟨0, 0xFFFFFF, 0⟩, zero_range] }

/-- The pair `(base, size)` that the `reg` property of a node encodes, either as two
32-bit values (8 bytes) or as two 64-bit values (16 bytes), most significant byte first
(the decoding of lines 531-540). -/
def reg_pair (nd : dt_node) : Option (Nat × Nat) :=
  match fopen nd "reg" with
  | fopen_result.file b =>
    if b.length = 8 then some (be (b.take 4), be ((b.drop 4).take 4))
    else if b.length = 16 then some (be (b.take 8), be ((b.drop 8).take 8))
    else none
  | _ => none

/-- A `pci@` node without `linux,tce-base`. -/
def node_pci_no_tce : dt_node :=
  ⟨"pci@80000000", true, [("device_type", prop_file.data [112, 99, 105, 0])]⟩

/-- A directory with a `chosen` node without `linux,htab-base`, one memory node and a
`pci@` node without `linux,tce-base`. -/
def env_absent_properties : Env :=
  ⟨some [node_chosen_no_htab, node_memory, node_pci_no_tce], heap_zero, false,
    List.replicate 128 0, 0, 0, 0, 0, 0⟩

/-- The state in which `get_memory_ranges_dt` calls `setup_memory_ranges`: after
`count_memory_ranges` and `alloc_memory_ranges`. -/
def state_allocated (env : Env) (s : State) : State :=
  (alloc_memory_ranges env (count_memory_ranges env s).2).2

/-- A directory without a memory node: the `chosen` node alone. -/
def env_no_memory_node : Env :=
  ⟨some [node_chosen_no_htab], heap_zero, false, List.replicate 128 0, 0, 0, 0, 0, 0⟩

/-- A memory node `memory@0` with `reg = (0, 0x20000000)` as two 64-bit values. -/
def node_memory_reg64 : dt_node :=
  ⟨"memory@0", true,
    [("reg", prop_file.data
      (u32_bytes 0 ++ u32_bytes 0 ++ u32_bytes 0 ++ u32_bytes 0x20000000))]⟩

/-- A directory with the given memory node alone. -/
def env_of_memory (nd : dt_node) : Env :=
  ⟨some [nd], heap_zero, false, List.replicate 128 0, 0, 0, 0, 0, 0⟩

/-- A directory with a `chosen` node with `linux,kernel-end = 0xFFFFFF` and one memory
node with `reg = (0, 0x1000000)`: the kernel fills the memory. -/
def env_one_node_full : Env :=
  ⟨some [⟨"chosen", true, [("linux,kernel-end", prop_file.data (u32_bytes 0xFFFFFF))]⟩,
      ⟨"memory@0", true, [("reg", prop_file.data (u32_bytes 0 ++ u32_bytes 0x1000000))]⟩],
    heap_zero, false, List.replicate 128 0, 0, 0, 0, 0, 0⟩

/-- The base ranges that `get_base_ranges` has left: the first `nr_memory_ranges`
elements of `base_memory_range`. -/
def base_ranges (s : State) : List memory_range := (base_array s).take s.nr_memory_ranges

/-- The largest `end` in a list of ranges (`0` for the empty list). -/
def largest_end (l : List memory_range) : Nat := l.foldr (fun r m => max r.end_ m) 0

/-- Of any two ranges of the list, the one that starts no later ends no later. -/
def ends_follow_starts (l : List memory_range) : Prop :=
  ∀ a ∈ l, ∀ b ∈ l, a.start ≤ b.start → a.end_ ≤ b.end_

instance (l : List memory_range) : Decidable (ends_follow_starts l) := by
  unfold ends_follow_starts; infer_instance

/-- A directory with two memory nodes one inside the other: `reg = (0, 0x4000)` and
`reg = (0x1000, 0x1000)`. -/
def env_nested_memory : Env :=
  ⟨some [⟨"memory@0", true, [("reg", prop_file.data (u32_bytes 0 ++ u32_bytes 0x4000))]⟩,
      ⟨"memory@1000", true,
        [("reg", prop_file.data (u32_bytes 0x1000 ++ u32_bytes 0x1000))]⟩],
    heap_zero, false, List.replicate 128 0, 0, 0, 0, 0, 0⟩

/-- The property `linux,kernel-end` of the node cannot be opened, or the `fread` of an
`unsigned long` from it does not return `1`. -/
def kernel_end_unreadable (nd : dt_node) : Bool :=
  match fopen nd "linux,kernel-end" with
  | fopen_result.file b => (fread_item b SIZEOF_LONG).isNone
  | _ => true

/-- The node has a directory entry `reg` whose path fits in `fname`, and the property, if
it can be opened, has fewer than `MAXBYTES` bytes. -/
def reg_present (nd : dt_node) : Bool :=
  prop_path_fits nd "reg" &&
    match fopen nd "reg" with
    | fopen_result.file b => decide (b.length < MAXBYTES)
    | fopen_result.error => true
    | fopen_result.enoent => false

/-- A `chosen` node without `linux,kernel-end`. -/
def node_chosen_no_kernel_end : dt_node :=
  ⟨"chosen", true, [("bootargs", prop_file.data [0])]⟩

/-- A directory with one memory node, a `chosen` node without `linux,kernel-end`, and a
`pci@` node. -/
def env_no_kernel_end : Env :=
  ⟨some [node_memory, node_chosen_no_kernel_end, node_pci_no_tce], heap_zero, false,
    List.replicate 128 0, 0, 0, 0, 0, 0⟩

/-- An `rtas` node with `linux,rtas-base = 0x3000000` and `rtas-size = 0x10000`. -/
def node_rtas : dt_node :=
  ⟨"rtas", true,
    [("linux,rtas-base", prop_file.data (u32_bytes 0x3000000)),
     ("rtas-size", prop_file.data (u32_bytes 0x10000))]⟩

/-- A `pci@` node with `linux,tce-base = 0x4000000` and `linux,tce-size = 0x100000`. -/
def node_pci_tce : dt_node :=
  ⟨"pci@80000000", true,
    [("linux,tce-base", prop_file.data (u32_bytes 0x4000000)),
     ("linux,tce-size", prop_file.data (u32_bytes 0x100000))]⟩

/-- A directory with the given entries in `readdir` order; `reuse_initrd` is not set, the
allocator hands out zero-filled memory and the locals start as zero. -/
def env_of_nodes (nodes : List dt_node) : Env :=
  ⟨some nodes, heap_zero, false, List.replicate 128 0, 0, 0, 0, 0, 0⟩

/-- A second entry whose name starts with `chosen`, without `linux,kernel-end`. -/
def node_chosen_second : dt_node := ⟨"chosen@1", true, []⟩

/-- A directory with a `chosen` node (with `linux,kernel-end`, without `linux,htab-base`),
one memory node, and a second `chosen` entry without `linux,kernel-end`. -/
def env_two_chosen : Env :=
  env_of_nodes [node_chosen_no_htab, node_memory, node_chosen_second]

/-- A directory with a `chosen` node (with `linux,kernel-end`, without `linux,htab-base`),
one memory node, an `rtas` node and a `pci@` node with `linux,tce-base`, in this order. -/
def env_pci_after_rtas : Env :=
  env_of_nodes [node_chosen_no_htab, node_memory, node_rtas, node_pci_tce]

/-- A directory with one memory node, an `rtas` node, a `pci@` node with `linux,tce-base`
and a `chosen` node without `linux,kernel-end`, in this order. -/
def env_pci_before_chosen : Env :=
  env_of_nodes [node_memory, node_rtas, node_pci_tce, node_chosen_no_kernel_end]

/-- The index `i` of the next store into `exclude_range`, the number of elements of
`exclude_range` and `max_memory_ranges` after a run of the loop of `get_devtree_details`
(`i` is not reported for a run that ended in an error return). -/
def index_and_capacity : node_result → Nat × Nat × Nat
  | node_result.next s i => (i, s.exclude_range.length, s.max_memory_ranges)
  | node_result.fail s => (0, s.exclude_range.length, s.max_memory_ranges)

/-! # Theorems -/

/-- Storing a range keeps the length of `memory_range`, raises `j` by at most one and leaves
it inside the allocation. -/
theorem emit_range_count (rt : Nat) (mr : List memory_range) (j s e : Nat)
    (mr1 : List memory_range) (j1 : Nat) (b : Bool)
    (h : emit_range rt mr j s e = some (mr1, j1, b)) :
    mr1.length = mr.length ∧ j1 ≤ j + 1 ∧ j1 ≤ mr1.length := by
  unfold emit_range at h
  split at h
  · rename_i hj
    split at h
    · simp only [Option.some.injEq, Prod.mk.injEq] at h
      obtain ⟨h1, h2, -⟩ := h
      rw [← h1, ← h2]
      refine ⟨List.length_set _ _ _, by omega, ?_⟩
      rw [List.length_set]; omega
    · split at h
      all_goals
        simp only [Option.some.injEq, Prod.mk.injEq] at h
        obtain ⟨h1, h2, -⟩ := h
        rw [← h1, ← h2]
        refine ⟨List.length_set _ _ _, by omega, ?_⟩
        rw [List.length_set]; omega
  · simp at h

/-- The first hole raises `j` by at most one, and only for `i == 0`. -/
theorem first_hole_count (e : memory_range) (i : Nat) (mr : List memory_range) (j : Nat)
    (mr1 : List memory_range) (j1 : Nat) (h : first_hole e i mr j = some (mr1, j1))
    (hj : j ≤ mr.length) :
    mr1.length = mr.length ∧ j1 ≤ j + (if i = 0 then 1 else 0) ∧ j1 ≤ mr1.length := by
  unfold first_hole at h
  split at h
  · rename_i hc
    split at h
    · simp only [Option.some.injEq, Prod.mk.injEq] at h
      obtain ⟨h1, h2⟩ := h
      rw [← h1, ← h2]
      refine ⟨List.length_set _ _ _, ?_, ?_⟩
      · rw [if_pos hc.1]
      · rw [List.length_set]; omega
    · simp at h
  · simp only [Option.some.injEq, Prod.mk.injEq] at h
    obtain ⟨h1, h2⟩ := h
    subst h1 h2
    refine ⟨rfl, ?_, hj⟩
    split <;> omega

/-- The rest of the loop body raises `j` by at most one. -/
theorem gap_step_count (ex : List memory_range) (n mm rt i : Nat) (e : memory_range)
    (mr : List memory_range) (j : Nat) (mr1 : List memory_range) (j1 : Nat) (b : Bool)
    (h : gap_step ex n mm rt i e mr j = some (mr1, j1, b)) (hj : j ≤ mr.length) :
    mr1.length = mr.length ∧ j1 ≤ j + 1 ∧ j1 ≤ mr1.length := by
  unfold gap_step at h
  split at h
  · exact emit_range_count _ _ _ _ _ _ _ _ h
  · cases hx : ex[i + 1]? with
    | none => rw [hx] at h; simp at h
    | some e1 =>
      rw [hx] at h
      simp only [] at h
      split at h
      · simp only [Option.some.injEq, Prod.mk.injEq] at h
        obtain ⟨h1, h2, -⟩ := h
        subst h1 h2
        exact ⟨rfl, by omega, hj⟩
      · exact emit_range_count _ _ _ _ _ _ _ _ h

/-- After `k` iterations from index `i`, `j` has grown by at most `k`, plus one for the first
hole when `i == 0`. -/
theorem setup_loop_count (ex : List memory_range) (n mm rt : Nat) :
    ∀ (k i : Nat) (mr : List memory_range) (j : Nat) (mr1 : List memory_range) (j1 : Nat),
      setup_loop ex n mm rt k i mr j = some (mr1, j1) → j ≤ mr.length →
      mr1.length = mr.length ∧ j1 ≤ j + k + (if i = 0 then 1 else 0) ∧ j1 ≤ mr1.length
  | 0, i, mr, j, mr1, j1, h, hj => by
    simp only [setup_loop, Option.some.injEq, Prod.mk.injEq] at h
    obtain ⟨h1, h2⟩ := h
    subst h1 h2
    exact ⟨rfl, by omega, hj⟩
  | k + 1, i, mr, j, mr1, j1, h, hj => by
    simp only [setup_loop, setup_step] at h
    cases hx : ex[i]? with
    | none => rw [hx] at h; simp at h
    | some e =>
      rw [hx] at h
      simp only [] at h
      cases hf : first_hole e i mr j with
      | none => rw [hf] at h; simp at h
      | some p =>
        obtain ⟨mr2, j2⟩ := p
        rw [hf] at h
        simp only [] at h
        obtain ⟨f1, f2, f3⟩ := first_hole_count e i mr j mr2 j2 hf hj
        cases hg : gap_step ex n mm rt i e mr2 j2 with
        | none => rw [hg] at h; simp at h
        | some q =>
          obtain ⟨mr3, j3, b⟩ := q
          rw [hg] at h
          obtain ⟨g1, g2, g3⟩ := gap_step_count ex n mm rt i e mr2 j2 mr3 j3 b hg f3
          cases b with
          | true =>
            simp only [Option.some.injEq, Prod.mk.injEq] at h
            obtain ⟨h1, h2⟩ := h
            subst h1 h2
            exact ⟨g1.trans f1, by omega, g3⟩
          | false =>
            simp only [] at h
            obtain ⟨l1, l2, l3⟩ := setup_loop_count ex n mm rt k (i + 1) mr3 j3 mr1 j1 h g3
            simp only [Nat.add_eq_zero, one_ne_zero, and_false, if_false] at l2
            exact ⟨l1.trans (g1.trans f1), by omega, l3⟩

/-- Lines 629-690 leave `1 <= nr_memory_ranges <= nr_exclude_ranges + 1`, and the ranges
counted lie inside the allocation of `memory_range`. -/
theorem setup_ranges_count (ex : List memory_range) (n mm rt : Nat)
    (base mr0 : List memory_range) (shared : Bool) (mr : List memory_range) (nr : Nat)
    (h : setup_ranges ex n mm rt base mr0 shared = some (mr, nr)) :
    1 ≤ nr ∧ nr ≤ n + 1 ∧ nr ≤ mr.length := by
  unfold setup_ranges at h
  cases hl : setup_loop ex n mm rt n 0 mr0 0 with
  | none => rw [hl] at h; simp at h
  | some p =>
    obtain ⟨mr1, j⟩ := p
    rw [hl] at h
    simp only [] at h
    obtain ⟨l1, l2, l3⟩ := setup_loop_count ex n mm rt n 0 mr0 0 mr1 j hl (Nat.zero_le _)
    simp only [if_true] at l2
    unfold setup_fixup at h
    split at h
    · cases hb : (if shared = true then mr1 else base)[0]? with
      | none => rw [hb] at h; simp at h
      | some b0 =>
        rw [hb] at h
        simp only [] at h
        split at h
        · simp only [Option.some.injEq, Prod.mk.injEq] at h
          obtain ⟨h1, h2⟩ := h
          subst h1 h2
          simp only [List.length_set]
          omega
        · simp at h
    · simp only [Option.some.injEq, Prod.mk.injEq] at h
      obtain ⟨h1, h2⟩ := h
      subst h1 h2
      omega

/-- Elements behind the end of `memory_range` play no part in a store that stays inside
it. -/
theorem emit_range_pad (rt : Nat) (mr : List memory_range) (j s e : Nat)
    (mr1 : List memory_range) (j1 : Nat) (b : Bool) (p : List memory_range)
    (h : emit_range rt mr j s e = some (mr1, j1, b)) :
    emit_range rt (mr ++ p) j s e = some (mr1 ++ p, j1, b) := by
  unfold emit_range at h ⊢
  by_cases hj : j < mr.length
  · rw [if_pos hj] at h
    rw [if_pos (by rw [List.length_append]; omega)]
    simp only [List.set_append_left _ _ hj]
    split at h
    · rename_i h1
      rw [if_pos h1]
      simp only [Option.some.injEq, Prod.mk.injEq] at h ⊢
      exact ⟨by rw [h.1], h.2.1, h.2.2⟩
    · rename_i h1
      rw [if_neg h1]
      split at h
      · rename_i h2
        rw [if_pos h2]
        simp only [Option.some.injEq, Prod.mk.injEq] at h ⊢
        exact ⟨by rw [h.1], h.2.1, h.2.2⟩
      · rename_i h2
        rw [if_neg h2]
        simp only [Option.some.injEq, Prod.mk.injEq] at h ⊢
        exact ⟨by rw [h.1], h.2.1, h.2.2⟩
  · rw [if_neg hj] at h; simp at h

/-- The first hole on a longer array. -/
theorem first_hole_pad (e : memory_range) (i : Nat) (mr : List memory_range) (j : Nat)
    (mr1 : List memory_range) (j1 : Nat) (p : List memory_range)
    (h : first_hole e i mr j = some (mr1, j1)) :
    first_hole e i (mr ++ p) j = some (mr1 ++ p, j1) := by
  unfold first_hole at h ⊢
  split at h
  · rename_i hc
    rw [if_pos hc]
    by_cases hj : j < mr.length
    · rw [if_pos hj] at h
      rw [if_pos (by rw [List.length_append]; omega)]
      simp only [List.set_append_left _ _ hj]
      simp only [Option.some.injEq, Prod.mk.injEq] at h ⊢
      exact ⟨by rw [h.1], h.2⟩
    · rw [if_neg hj] at h; simp at h
  · rename_i hc
    rw [if_neg hc]
    simp only [Option.some.injEq, Prod.mk.injEq] at h ⊢
    exact ⟨by rw [h.1], h.2⟩

/-- The rest of the loop body on a longer array. -/
theorem gap_step_pad (ex : List memory_range) (n mm rt i : Nat) (e : memory_range)
    (mr : List memory_range) (j : Nat) (mr1 : List memory_range) (j1 : Nat) (b : Bool)
    (p : List memory_range) (h : gap_step ex n mm rt i e mr j = some (mr1, j1, b)) :
    gap_step ex n mm rt i e (mr ++ p) j = some (mr1 ++ p, j1, b) := by
  unfold gap_step at h ⊢
  split at h
  · rename_i hc
    rw [if_pos hc]
    exact emit_range_pad _ _ _ _ _ _ _ _ _ h
  · rename_i hc
    rw [if_neg hc]
    cases hx : ex[i + 1]? with
    | none => rw [hx] at h; simp at h
    | some e1 =>
      rw [hx] at h
      simp only [] at h ⊢
      split at h
      · rename_i h1
        rw [if_pos h1]
        simp only [Option.some.injEq, Prod.mk.injEq] at h ⊢
        exact ⟨by rw [h.1], h.2.1, h.2.2⟩
      · rename_i h1
        rw [if_neg h1]
        exact emit_range_pad _ _ _ _ _ _ _ _ _ h

/-- A run of the loop that stays inside `memory_range` is the same run on every longer
array, whose additional elements it leaves as they are. -/
theorem setup_loop_pad (ex : List memory_range) (n mm rt : Nat) (p : List memory_range) :
    ∀ (k i : Nat) (mr : List memory_range) (j : Nat) (mr1 : List memory_range) (j1 : Nat),
      setup_loop ex n mm rt k i mr j = some (mr1, j1) →
      setup_loop ex n mm rt k i (mr ++ p) j = some (mr1 ++ p, j1)
  | 0, i, mr, j, mr1, j1, h => by
    simp only [setup_loop, Option.some.injEq, Prod.mk.injEq] at h ⊢
    exact ⟨by rw [h.1], h.2⟩
  | k + 1, i, mr, j, mr1, j1, h => by
    simp only [setup_loop, setup_step] at h ⊢
    cases hx : ex[i]? with
    | none => rw [hx] at h; simp at h
    | some e =>
      rw [hx] at h
      simp only [] at h ⊢
      cases hf : first_hole e i mr j with
      | none => rw [hf] at h; simp at h
      | some q =>
        obtain ⟨mr2, j2⟩ := q
        rw [hf] at h
        rw [first_hole_pad e i mr j mr2 j2 p hf]
        simp only [] at h ⊢
        cases hg : gap_step ex n mm rt i e mr2 j2 with
        | none => rw [hg] at h; simp at h
        | some q =>
          obtain ⟨mr3, j3, b⟩ := q
          rw [hg] at h
          rw [gap_step_pad ex n mm rt i e mr2 j2 mr3 j3 b p hg]
          cases b with
          | true =>
            simp only [Option.some.injEq, Prod.mk.injEq] at h ⊢
            exact ⟨by rw [h.1], h.2⟩
          | false =>
            simp only [] at h ⊢
            exact setup_loop_pad ex n mm rt p k (i + 1) mr3 j3 mr1 j1 h

theorem take_set_self {α : Type} (l : List α) (j : Nat) (a : α) :
    (l.set j a).take j = l.take j := by
  induction l generalizing j with
  | nil => simp
  | cons x xs ih =>
    cases j with
    | zero => simp
    | succ j => simp [ih]

theorem take_succ_set {α : Type} (l : List α) (j : Nat) (a : α) (h : j < l.length) :
    (l.set j a).take (j + 1) = l.take j ++ [a] := by
  induction l generalizing j with
  | nil => simp at h
  | cons x xs ih =>
    cases j with
    | zero => simp
    | succ j =>
      simp only [List.length_cons, Nat.add_lt_add_iff_right] at h
      simp [ih j h]

theorem clip_length_le (rt s e : Nat) : (clip rt s e).1.length ≤ 1 := by
  unfold clip; split_ifs <;> simp

theorem emit_range_clip (rt : Nat) (mr : List memory_range) (j s e : Nat) (hj : j < mr.length) :
    ∃ mr1, emit_range rt mr j s e = some (mr1, j + (clip rt s e).1.length, (clip rt s e).2) ∧
      mr1.length = mr.length ∧
      mr1.take (j + (clip rt s e).1.length) = mr.take j ++ (clip rt s e).1 := by
  unfold emit_range clip
  simp only [hj, if_true]
  by_cases h1 : s ≥ rt
  · simp [h1, take_set_self]
  · by_cases h2 : e ≥ rt
    · simp only [h1, h2, if_true, if_false]
      exact ⟨_, rfl, by simp, take_succ_set _ _ _ hj⟩
    · simp only [h1, h2, if_true, if_false]
      exact ⟨_, rfl, by simp, take_succ_set _ _ _ hj⟩

theorem first_hole_pos (e : memory_range) (i : Nat) (mr : List memory_range) (j : Nat)
    (hi : 1 ≤ i) : first_hole e i mr j = some (mr, j) := by
  unfold first_hole
  have : ¬ (i = 0 ∧ e.start ≠ 0) := by omega
  simp [this]

theorem setup_loop_eq_gap_loop (ex : List memory_range) (n mm rt : Nat) (k i : Nat)
    (mr : List memory_range) (j : Nat) (hi : 1 ≤ i) :
    setup_loop ex n mm rt k i mr j = gap_loop ex n mm rt k i mr j := by
  induction k generalizing i mr j with
  | zero => rfl
  | succ k ih =>
    unfold setup_loop gap_loop setup_step
    cases hex : ex[i]? with
    | none => rfl
    | some e =>
      simp only [first_hole_pos e i mr j hi]
      cases hg : gap_step ex n mm rt i e mr j with
      | none => rfl
      | some r =>
        obtain ⟨mr1, j1, b⟩ := r
        cases b
        · simp only; exact ih (i + 1) mr1 j1 (by omega)
        · rfl

theorem drop_take_cons (ex : List memory_range) (n i : Nat) (hi : i < n) (hn : n ≤ ex.length) :
    ∃ e, ex[i]? = some e ∧ (ex.take n).drop i = e :: (ex.take n).drop (i + 1) := by
  have h1 : i < ex.length := by omega
  have h2 : i < (ex.take n).length := by simp; omega
  refine ⟨ex[i], by simp [h1], ?_⟩
  rw [List.drop_eq_getElem_cons h2]
  simp

theorem gap_loop_refines (ex : List memory_range) (n mm rt : Nat) (hn : n ≤ ex.length) :
    ∀ (k i : Nat) (mr : List memory_range) (j : Nat), i + k = n → j + k ≤ mr.length →
      match gaps_from mm rt ex[n]? ((ex.take n).drop i) with
      | none => gap_loop ex n mm rt k i mr j = none
      | some g => ∃ mr1, gap_loop ex n mm rt k i mr j = some (mr1, j + g.length) ∧
          mr1.length = mr.length ∧ mr1.take (j + g.length) = mr.take j ++ g := by
  intro k
  induction k with
  | zero =>
    intro i mr j hik hj
    have : (ex.take n).drop i = [] := by
      apply List.drop_eq_nil_of_le; simp; omega
    rw [this]
    simp [gaps_from, gap_loop]
  | succ k ih =>
    intro i mr j hik hj
    obtain ⟨e, he, hd⟩ := drop_take_cons ex n i (by omega) hn
    rw [hd]
    unfold gap_loop
    simp only [he]
    cases k with
    | zero =>
      have hnil : (ex.take n).drop (i + 1) = [] := by
        apply List.drop_eq_nil_of_le; simp; omega
      have hlast : i = n - 1 := by omega
      have hnx : ex[i + 1]? = ex[n]? := by rw [show i + 1 = n by omega]
      rw [hnil]
      unfold gaps_from gap_step
      by_cases hmm : e.end_ < mm
      · simp only [hmm, hlast, and_self, if_true]
        obtain ⟨mr1, h1, h2, h3⟩ :=
          emit_range_clip rt mr j ((e.end_ + 1) % U64) mm (by omega)
        rw [← hlast, h1]
        cases hb : (clip rt ((e.end_ + 1) % U64) mm).2 <;>
          exact ⟨mr1, by simp [gap_loop], h2, h3⟩
      · simp only [hmm, and_false, if_false, hnx]
        cases hx : ex[n]? with
        | none => simp
        | some e1 =>
          simp only
          by_cases hc : e1.start = (e.end_ + 1) % U64
          · simp only [hc, if_true]
            exact ⟨mr, by simp [gap_loop], rfl, by simp⟩
          · simp only [hc, if_false]
            obtain ⟨mr1, h1, h2, h3⟩ := emit_range_clip rt mr j ((e.end_ + 1) % U64)
              ((e1.start + U64 - 1) % U64) (by omega)
            rw [h1]
            cases hb : (clip rt ((e.end_ + 1) % U64) ((e1.start + U64 - 1) % U64)).2 <;>
              exact ⟨mr1, by simp [gap_loop], h2, h3⟩
    | succ k =>
      obtain ⟨e1, he1, hd1⟩ := drop_take_cons ex n (i + 1) (by omega) hn
      have hlast : ¬ (i = n - 1 ∧ e.end_ < mm) := by omega
      rw [hd1]
      unfold gaps_from gap_step
      simp only [hlast, if_false, he1]
      by_cases hc : e1.start = (e.end_ + 1) % U64
      · simp only [hc, if_true]
        have := ih (i + 1) mr j (by omega) (by omega)
        rw [hd1] at this
        exact this
      · simp only [hc, if_false]
        obtain ⟨mr1, h1, h2, h3⟩ := emit_range_clip rt mr j ((e.end_ + 1) % U64)
          ((e1.start + U64 - 1) % U64) (by omega)
        rw [h1]
        have hlen := clip_length_le rt ((e.end_ + 1) % U64) ((e1.start + U64 - 1) % U64)
        generalize clip rt ((e.end_ + 1) % U64) ((e1.start + U64 - 1) % U64) = c at h1 h2 h3 hlen
        obtain ⟨l, b⟩ := c
        cases b
        · simp only at h3 hlen ⊢
          have := ih (i + 1) mr1 (j + l.length) (by omega) (by omega)
          rw [hd1] at this
          cases hg : gaps_from mm rt ex[n]? (e1 :: (ex.take n).drop (i + 1 + 1)) with
          | none => rw [hg] at this; simpa using this
          | some g =>
            rw [hg] at this
            obtain ⟨mr2, g1, g2, g3⟩ := this
            refine ⟨mr2, ?_, by omega, ?_⟩
            · simp [g1, Nat.add_assoc]
            · simp only [List.length_append, ← Nat.add_assoc, g3, h3, List.append_assoc]
        · exact ⟨mr1, rfl, h2, h3⟩

theorem setup_loop_zero (ex : List memory_range) (n mm rt : Nat) (k : Nat)
    (mr : List memory_range) (j : Nat) (e : memory_range) (he : ex[0]? = some e) :
    setup_loop ex n mm rt (k + 1) 0 mr j =
      match first_hole e 0 mr j with
      | none => none
      | some (mr1, j1) => gap_loop ex n mm rt (k + 1) 0 mr1 j1 := by
  unfold setup_loop gap_loop setup_step
  simp only [he]
  cases hf : first_hole e 0 mr j with
  | none => rfl
  | some r =>
    obtain ⟨mr1, j1⟩ := r
    simp only
    cases hg : gap_step ex n mm rt 0 e mr1 j1 with
    | none => rfl
    | some r =>
      obtain ⟨mr2, j2, b⟩ := r
      cases b
      · simp only; exact setup_loop_eq_gap_loop ex n mm rt k 1 mr2 j2 (by omega)
      · rfl

/-- The loop computes the first hole followed by the gaps, in the first `j` elements of
`memory_range`. -/
theorem setup_loop_refines (ex : List memory_range) (n mm rt : Nat) (mr0 : List memory_range)
    (hn : n ≤ ex.length) (hcap : n < mr0.length) :
    match gaps_from mm rt ex[n]? (ex.take n) with
    | none => setup_loop ex n mm rt n 0 mr0 0 = none
    | some g => ∃ mr1, setup_loop ex n mm rt n 0 mr0 0 =
          some (mr1, (hole (ex.take n) ++ g).length) ∧
        mr1.length = mr0.length ∧
        mr1.take (hole (ex.take n) ++ g).length = hole (ex.take n) ++ g := by
  cases n with
  | zero => simp [setup_loop, gaps_from, hole]
  | succ k =>
    obtain ⟨e, he, hd⟩ := drop_take_cons ex (k + 1) 0 (by omega) hn
    simp only [List.drop_zero] at hd
    rw [setup_loop_zero ex (k + 1) mm rt k mr0 0 e he]
    have hhole : hole (ex.take (k + 1)) =
        if e.start ≠ 0 then [⟨0, e.start - 1, RANGE_RAM⟩] else [] := by
      rw [hd]; rfl
    by_cases hs : e.start ≠ 0
    · have h0 : (0 : Nat) < mr0.length := by omega
      have hf : first_hole e 0 mr0 0 =
          some (mr0.set 0 ⟨0, e.start - 1, RANGE_RAM⟩, 0 + 1) := by
        unfold first_hole; simp [hs, h0]
      rw [hf]
      have := gap_loop_refines ex (k + 1) mm rt hn (k + 1) 0
        (mr0.set 0 ⟨0, e.start - 1, RANGE_RAM⟩) (0 + 1) (by omega) (by simp; omega)
      simp only [List.drop_zero] at this
      cases hg : gaps_from mm rt ex[k + 1]? (ex.take (k + 1)) with
      | none => rw [hg] at this; simpa using this
      | some g =>
        rw [hg] at this
        obtain ⟨mr1, g1, g2, g3⟩ := this
        rw [take_succ_set _ _ _ h0] at g3
        simp only [hhole, if_pos hs]
        refine ⟨mr1, ?_, by simpa using g2, ?_⟩
        · simp only [g1]; simp [Nat.add_comm]
        · simpa [Nat.add_comm] using g3
    · have hf : first_hole e 0 mr0 0 = some (mr0, 0) := by
        unfold first_hole; simp [hs]
      rw [hf]
      have := gap_loop_refines ex (k + 1) mm rt hn (k + 1) 0 mr0 0 (by omega) (by omega)
      simp only [List.drop_zero] at this
      cases hg : gaps_from mm rt ex[k + 1]? (ex.take (k + 1)) with
      | none => rw [hg] at this; simpa using this
      | some g =>
        rw [hg] at this
        obtain ⟨mr1, g1, g2, g3⟩ := this
        simp only [hhole, if_neg hs, List.nil_append]
        exact ⟨mr1, by simpa using g1, g2, by simpa using g3⟩

/-- The array code computes `synth`: the range list is the first hole followed by the gaps,
or the single fallback range when there are none.  `b0` is the start of
`base_memory_range[0]` at the fixup; when the two arrays are separate blocks it is the one
on entry. -/
theorem output_ranges_eq_synth (ex : List memory_range) (n mm rt : Nat)
    (base mr0 : List memory_range) (shared : Bool) (b : memory_range)
    (hn : n ≤ ex.length) (hcap : n < mr0.length)
    (hb : (if shared then mr0 else base)[0]? = some b) :
    ∃ b0, (shared = false → b0 = b.start) ∧
      output_ranges ex n mm rt base mr0 shared = synth mm rt ex[n]? b0 (ex.take n) := by
  have href := setup_loop_refines ex n mm rt mr0 hn hcap
  unfold output_ranges setup_ranges synth
  cases hg : gaps_from mm rt ex[n]? (ex.take n) with
  | none =>
    rw [hg] at href
    simp only at href
    exact ⟨b.start, fun _ => rfl, by simp [href]⟩
  | some g =>
    rw [hg] at href
    obtain ⟨mr1, h1, h2, h3⟩ := href
    have hlen : 0 < mr1.length := by omega
    have hb1 : ∃ b1, (if shared then mr1 else base)[0]? = some b1 ∧
        (shared = false → b1 = b) := by
      cases shared with
      | true => exact ⟨mr1[0], by simp [hlen], by simp⟩
      | false => exact ⟨b, by simpa using hb, fun _ => rfl⟩
    obtain ⟨b1, hb1, hb2⟩ := hb1
    refine ⟨b1.start, fun h => by rw [hb2 h], ?_⟩
    rw [h1]
    simp only [Option.map_some']
    by_cases hne : hole (ex.take n) ++ g = []
    · rw [if_pos hne]
      simp only [hne, List.length_nil, setup_fixup, if_true, hb1, hlen, Option.map_some']
      rw [take_succ_set _ _ _ hlen]; simp
    · rw [if_neg hne]
      have hj : (hole (ex.take n) ++ g).length ≠ 0 := by
        intro h; exact hne (List.length_eq_zero.1 h)
      simp only [setup_fixup, if_neg hj, Option.map_some', h3]

/-- Whenever the loop runs to its end, whatever the size of `memory_range`, the first `j`
elements of the array are the first hole followed by the gaps. -/
theorem setup_loop_some_refines (ex : List memory_range) (n mm rt : Nat)
    (mr0 mr1 : List memory_range) (j : Nat) (hn : n ≤ ex.length)
    (h : setup_loop ex n mm rt n 0 mr0 0 = some (mr1, j)) :
    ∃ g, gaps_from mm rt ex[n]? (ex.take n) = some g ∧
      j = (hole (ex.take n) ++ g).length ∧ mr1.take j = hole (ex.take n) ++ g := by
  have hpad := setup_loop_pad ex n mm rt (List.replicate (n + 1) zero_range) n 0 mr0 0 mr1 j h
  have href := setup_loop_refines ex n mm rt (mr0 ++ List.replicate (n + 1) zero_range) hn
    (by simp only [List.length_append, List.length_replicate]; omega)
  obtain ⟨-, -, hj⟩ := setup_loop_count ex n mm rt n 0 mr0 0 mr1 j h (Nat.zero_le _)
  cases hg : gaps_from mm rt ex[n]? (ex.take n) with
  | none =>
    rw [hg] at href
    simp only [] at href
    rw [hpad] at href
    simp at href
  | some g =>
    rw [hg] at href
    obtain ⟨mr2, h1, -, h3⟩ := href
    rw [hpad] at h1
    simp only [Option.some.injEq, Prod.mk.injEq] at h1
    obtain ⟨h4, h5⟩ := h1
    refine ⟨g, rfl, h5, ?_⟩
    rw [← h4, ← h5, List.take_append_of_le_length hj] at h3
    exact h3

/-- Whenever the array code returns a range list, whatever the size of `memory_range`, that
list is the one of `synth`.  `b0` is the start of `base_memory_range[0]` at the fixup; when
the two arrays are separate blocks it is the one on entry. -/
theorem output_ranges_some_eq_synth (ex : List memory_range) (n mm rt : Nat)
    (base mr0 : List memory_range) (shared : Bool) (out : List memory_range)
    (hn : n ≤ ex.length) (hout : output_ranges ex n mm rt base mr0 shared = some out) :
    ∃ b0 g mr1, (shared = false → ∀ b, base[0]? = some b → b0 = b.start) ∧
      gaps_from mm rt ex[n]? (ex.take n) = some g ∧
      setup_loop ex n mm rt n 0 mr0 0 = some (mr1, (hole (ex.take n) ++ g).length) ∧
      synth mm rt ex[n]? b0 (ex.take n) = some out := by
  unfold output_ranges setup_ranges at hout
  cases hl : setup_loop ex n mm rt n 0 mr0 0 with
  | none => rw [hl] at hout; simp at hout
  | some q =>
    obtain ⟨mr1, j⟩ := q
    rw [hl] at hout
    simp only [] at hout
    obtain ⟨g, hg, hj, htake⟩ := setup_loop_some_refines ex n mm rt mr0 mr1 j hn hl
    unfold setup_fixup at hout
    by_cases hj0 : j = 0
    · rw [if_pos hj0] at hout
      cases hb : (if shared = true then mr1 else base)[0]? with
      | none => rw [hb] at hout; simp at hout
      | some b0 =>
        rw [hb] at hout
        simp only [] at hout
        by_cases hlen : 0 < mr1.length
        · rw [if_pos hlen] at hout
          simp only [Option.map_some', Option.some.injEq] at hout
          have hnil : hole (ex.take n) ++ g = [] := by
            apply List.eq_nil_of_length_eq_zero
            omega
          refine ⟨b0.start, g, mr1, ?_, hg, by rw [← hj], ?_⟩
          · intro hs b hbb
            rw [hs] at hb
            simp only [Bool.false_eq_true, if_false] at hb
            rw [hb] at hbb
            simp only [Option.some.injEq] at hbb
            rw [hbb]
          · unfold synth
            rw [hg]
            simp only [Option.map_some', hnil, if_true, Option.some.injEq]
            rw [← hout]
            exact ((take_succ_set mr1 0 _ hlen).trans (by simp)).symm
        · rw [if_neg hlen] at hout; simp at hout
    · rw [if_neg hj0] at hout
      simp only [Option.map_some', Option.some.injEq] at hout
      have hne : hole (ex.take n) ++ g ≠ [] := by
        intro hc
        rw [hc] at hj
        simp at hj
        exact hj0 hj
      refine ⟨(base[0]?.map (fun b => b.start)).getD 0, g, mr1, ?_, hg, by rw [← hj], ?_⟩
      · intro _ b hbb
        rw [hbb]; rfl
      · unfold synth
        rw [hg]
        simp only [Option.map_some', hne, if_false, Option.some.injEq]
        rw [← hout, htake]

/-- The loop runs to its end on every array `memory_range` that has one element for each
exclusion, and one more when there is a first hole. -/
theorem setup_loop_fits (ex : List memory_range) (n mm rt : Nat) (mr0 : List memory_range)
    (hn : n ≤ ex.length) (hcap : n + (hole (ex.take n)).length ≤ mr0.length) :
    match gaps_from mm rt ex[n]? (ex.take n) with
    | none => setup_loop ex n mm rt n 0 mr0 0 = none
    | some g => ∃ mr1, setup_loop ex n mm rt n 0 mr0 0 =
          some (mr1, (hole (ex.take n) ++ g).length) ∧
        mr1.length = mr0.length ∧
        mr1.take (hole (ex.take n) ++ g).length = hole (ex.take n) ++ g := by
  cases n with
  | zero => simp [setup_loop, gaps_from, hole]
  | succ k =>
    obtain ⟨e, he, hd⟩ := drop_take_cons ex (k + 1) 0 (by omega) hn
    simp only [List.drop_zero] at hd
    rw [setup_loop_zero ex (k + 1) mm rt k mr0 0 e he]
    have hhole : hole (ex.take (k + 1)) =
        if e.start ≠ 0 then [⟨0, e.start - 1, RANGE_RAM⟩] else [] := by
      rw [hd]; rfl
    rw [hhole] at hcap
    by_cases hs : e.start ≠ 0
    · rw [if_pos hs] at hcap
      simp only [List.length_singleton] at hcap
      have h0 : (0 : Nat) < mr0.length := by omega
      have hf : first_hole e 0 mr0 0 =
          some (mr0.set 0 ⟨0, e.start - 1, RANGE_RAM⟩, 0 + 1) := by
        unfold first_hole; simp [hs, h0]
      rw [hf]
      have := gap_loop_refines ex (k + 1) mm rt hn (k + 1) 0
        (mr0.set 0 ⟨0, e.start - 1, RANGE_RAM⟩) (0 + 1) (by omega) (by simp; omega)
      simp only [List.drop_zero] at this
      cases hg : gaps_from mm rt ex[k + 1]? (ex.take (k + 1)) with
      | none => rw [hg] at this; simpa using this
      | some g =>
        rw [hg] at this
        obtain ⟨mr1, g1, g2, g3⟩ := this
        rw [take_succ_set _ _ _ h0] at g3
        simp only [hhole, if_pos hs]
        refine ⟨mr1, ?_, by simpa using g2, ?_⟩
        · simp only [g1]; simp [Nat.add_comm]
        · simpa [Nat.add_comm] using g3
    · rw [if_neg hs] at hcap
      simp only [List.length_nil] at hcap
      have hf : first_hole e 0 mr0 0 = some (mr0, 0) := by
        unfold first_hole; simp [hs]
      rw [hf]
      have := gap_loop_refines ex (k + 1) mm rt hn (k + 1) 0 mr0 0 (by omega) (by omega)
      simp only [List.drop_zero] at this
      cases hg : gaps_from mm rt ex[k + 1]? (ex.take (k + 1)) with
      | none => rw [hg] at this; simpa using this
      | some g =>
        rw [hg] at this
        obtain ⟨mr1, g1, g2, g3⟩ := this
        simp only [hhole, if_neg hs, List.nil_append]
        exact ⟨mr1, by simpa using g1, g2, by simpa using g3⟩

/-- The array code returns a range list when `memory_range` has one element for each
exclusion, and one more when there is a first hole, and, for the fallback range, when
`memory_range` and `base_memory_range` have an element `0`. -/
theorem output_ranges_defined (ex : List memory_range) (n mm rt : Nat)
    (base mr0 : List memory_range) (shared : Bool) (g : List memory_range)
    (hn : n ≤ ex.length) (hcap : n + (hole (ex.take n)).length ≤ mr0.length)
    (hg : gaps_from mm rt ex[n]? (ex.take n) = some g)
    (hb : hole (ex.take n) ++ g = [] → 0 < mr0.length ∧ (shared = false → base ≠ [])) :
    ∃ out, output_ranges ex n mm rt base mr0 shared = some out := by
  have href := setup_loop_fits ex n mm rt mr0 hn hcap
  rw [hg] at href
  obtain ⟨mr1, h1, h2, -⟩ := href
  unfold output_ranges setup_ranges
  rw [h1]
  simp only []
  unfold setup_fixup
  by_cases hne : hole (ex.take n) ++ g = []
  · obtain ⟨hlen, hbase⟩ := hb hne
    have hj : (hole (ex.take n) ++ g).length = 0 := by rw [hne]; rfl
    rw [if_pos hj]
    have hb1 : ∃ b1, (if shared = true then mr1 else base)[0]? = some b1 := by
      cases shared with
      | true =>
        have : 0 < mr1.length := by omega
        exact ⟨mr1[0], by simp [this]⟩
      | false =>
        cases base with
        | nil => exact absurd rfl (hbase rfl)
        | cons b _ => exact ⟨b, by simp⟩
    obtain ⟨b1, hb1⟩ := hb1
    rw [hb1]
    simp only []
    rw [if_pos (by omega)]
    exact ⟨_, rfl⟩
  · have hj : (hole (ex.take n) ++ g).length ≠ 0 := by
      intro h; exact hne (List.length_eq_zero.1 h)
    rw [if_neg hj]
    exact ⟨_, rfl⟩

theorem clip_cases (rt s e : Nat) :
    (rt ≤ s ∧ clip rt s e = ([], true)) ∨
    (s < rt ∧ rt ≤ e ∧ clip rt s e = ([⟨s, rt, RANGE_RAM⟩], true)) ∨
    (s < rt ∧ e < rt ∧ clip rt s e = ([⟨s, e, RANGE_RAM⟩], false)) := by
  unfold clip
  by_cases h1 : s ≥ rt
  · left; exact ⟨h1, by simp [h1]⟩
  · by_cases h2 : e ≥ rt
    · right; left; exact ⟨by omega, h2, by simp [h1, h2]⟩
    · right; right; exact ⟨by omega, by omega, by simp [h1, h2]⟩

theorem clip_limited (rt s e : Nat) : limited rt (clip rt s e).1 := by
  rcases clip_cases rt s e with ⟨_, h⟩ | ⟨h1, h2, h⟩ | ⟨h1, h2, h⟩
  · rw [h]; simp [limited]
  · rw [h]; simp [limited]; omega
  · rw [h]; simp [limited]; omega

theorem limited_cons_of_lt (rt s e : Nat) (g : List memory_range) (hs : s < rt) (he : e < rt)
    (hg : limited rt g) : limited rt (⟨s, e, RANGE_RAM⟩ :: g) := by
  obtain ⟨h1, h2⟩ := hg
  refine ⟨?_, ?_⟩
  · intro r hr
    rcases List.mem_cons.1 hr with rfl | hr
    · exact ⟨rfl, hs, by simp; omega⟩
    · exact h1 r hr
  · exact List.Pairwise.cons (fun _ _ => he) h2

theorem gaps_from_limited (mm rt : Nat) (nxt : Option memory_range) :
    ∀ (l g : List memory_range), gaps_from mm rt nxt l = some g → limited rt g := by
  intro l
  induction l with
  | nil => intro g h; simp [gaps_from] at h; subst h; simp [limited]
  | cons e rest ih =>
    intro g h
    cases rest with
    | nil =>
      unfold gaps_from at h
      split_ifs at h with h1
      · simp at h; subst h; exact clip_limited _ _ _
      · cases nxt with
        | none => simp at h
        | some e1 =>
          simp only at h
          split_ifs at h with h2
          · simp at h; subst h; simp [limited]
          · simp at h; subst h; exact clip_limited _ _ _
    | cons e1 rest =>
      unfold gaps_from at h
      split_ifs at h with h1
      · exact ih g h
      · rcases clip_cases rt ((e.end_ + 1) % U64) ((e1.start + U64 - 1) % U64) with
          ⟨_, hc⟩ | ⟨_, _, hc⟩ | ⟨c1, c2, hc⟩
        · rw [hc] at h; simp at h; subst h; simp [limited]
        · have := clip_limited rt ((e.end_ + 1) % U64) ((e1.start + U64 - 1) % U64)
          rw [hc] at h this; simp at h; subst h; exact this
        · rw [hc] at h
          simp only [Option.map_eq_some'] at h
          obtain ⟨g', hg', rfl⟩ := h
          exact limited_cons_of_lt rt _ _ g' c1 c2 (ih g' hg')

theorem succ_mod_U64 (x : Nat) (h : x + 1 < U64) : (x + 1) % U64 = x + 1 :=
  Nat.mod_eq_of_lt h

theorem pred_mod_U64 (x : Nat) (h0 : 0 < x) (h : x < U64) : (x + U64 - 1) % U64 = x - 1 := by
  unfold U64 at *; omega

/-- Under the hypotheses of the regular case (strictly ordered disjoint well-formed
exclusions that all end below `memory_max`), the gaps after the first exclusion. -/
theorem gaps_from_regular (mm rt : Nat) (nxt : Option memory_range) (hU : mm < U64) :
    ∀ (rest : List memory_range) (e : memory_range), chain (e :: rest) →
      (∀ x ∈ e :: rest, x.start ≤ x.end_) → (∀ x ∈ e :: rest, x.end_ < mm) →
      ∃ g, gaps_from mm rt nxt (e :: rest) = some g ∧
        (∀ r ∈ g, e.end_ < r.start ∧ r.start ≤ r.end_ ∧ r.end_ ≤ mm) ∧ chain g := by
  intro rest
  induction rest with
  | nil =>
    intro e _ _ hm
    have h1 : e.end_ < mm := hm e (by simp)
    have hs := succ_mod_U64 e.end_ (by omega)
    unfold gaps_from
    simp only [h1, if_true, hs]
    refine ⟨_, rfl, ?_⟩
    rcases clip_cases rt (e.end_ + 1) mm with ⟨_, h⟩ | ⟨c1, c2, h⟩ | ⟨c1, c2, h⟩ <;>
      rw [h] <;> simp [chain] <;> omega
  | cons e1 rest ih =>
    intro e hc hw hm
    have hc1 : chain (e1 :: rest) := (List.pairwise_cons.1 hc).2
    have h01 : e.end_ < e1.start := (List.pairwise_cons.1 hc).1 e1 (by simp)
    have hw1 : e1.start ≤ e1.end_ := hw e1 (by simp)
    have hm1 : e1.end_ < mm := hm e1 (by simp)
    obtain ⟨g', hg', hb', hch'⟩ := ih e1 hc1 (fun x hx => hw x (List.mem_cons_of_mem _ hx))
      (fun x hx => hm x (List.mem_cons_of_mem _ hx))
    have hs := succ_mod_U64 e.end_ (by omega)
    have hp := pred_mod_U64 e1.start (by omega) (by omega)
    unfold gaps_from
    simp only [hs, hp]
    by_cases hcont : e1.start = e.end_ + 1
    · simp only [hcont, if_true]
      rw [hcont] at hp
      refine ⟨g', hg', ?_, hch'⟩
      intro r hr
      have := hb' r hr
      omega
    · simp only [hcont, if_false]
      rcases clip_cases rt (e.end_ + 1) (e1.start - 1) with ⟨_, h⟩ | ⟨c1, c2, h⟩ | ⟨c1, c2, h⟩
      · rw [h]; exact ⟨_, rfl, by simp, by simp [chain]⟩
      · rw [h]; refine ⟨_, rfl, ?_, by simp [chain]⟩
        simp; omega
      · rw [h]; simp only [hg', Option.map_some']
        refine ⟨_, rfl, ?_, ?_⟩
        · intro r hr
          rcases List.mem_cons.1 hr with rfl | hr
          · simp; omega
          · have := hb' r (by simpa using hr); omega
        · simp only [List.singleton_append]
          refine List.Pairwise.cons ?_ hch'
          intro r hr
          have := hb' r hr
          simp; omega

theorem covers_nil (a : Nat) : ¬ covers [] a := by simp [covers]

theorem covers_cons (x : memory_range) (l : List memory_range) (a : Nat) :
    covers (x :: l) a ↔ (x.start ≤ a ∧ a ≤ x.end_) ∨ covers l a := by
  simp [covers]

theorem covers_append (l1 l2 : List memory_range) (a : Nat) :
    covers (l1 ++ l2) a ↔ covers l1 a ∨ covers l2 a := by
  simp only [covers, List.mem_append]
  constructor
  · rintro ⟨r, h1 | h2, h⟩
    · exact Or.inl ⟨r, h1, h⟩
    · exact Or.inr ⟨r, h2, h⟩
  · rintro (⟨r, h1, h⟩ | ⟨r, h2, h⟩)
    · exact ⟨r, Or.inl h1, h⟩
    · exact ⟨r, Or.inr h2, h⟩

theorem ends_before_nil (rt : Nat) : ¬ ends_before [] rt := by simp [ends_before]

theorem ends_before_cons (x : memory_range) (l : List memory_range) (rt : Nat) :
    ends_before (x :: l) rt ↔ x.end_ + 1 = rt ∨ ends_before l rt := by
  simp [ends_before]

theorem chain_not_covers (e : memory_range) (rest : List memory_range) (a : Nat)
    (hc : chain (e :: rest)) (ha : a ≤ e.end_) : ¬ covers rest a := by
  rintro ⟨x, hx, h1, _⟩
  have := (List.pairwise_cons.1 hc).1 x hx
  omega

theorem chain_not_ends_before (e : memory_range) (rest : List memory_range) (rt : Nat)
    (hc : chain (e :: rest)) (hw : ∀ x ∈ rest, x.start ≤ x.end_) (ha : rt ≤ e.end_ + 1) :
    ¬ ends_before rest rt := by
  rintro ⟨x, hx, h1⟩
  have := (List.pairwise_cons.1 hc).1 x hx
  have := hw x hx
  omega

theorem gaps_from_covers (mm rt : Nat) (nxt : Option memory_range) (hU : mm < U64) :
    ∀ (rest : List memory_range) (e : memory_range), chain (e :: rest) →
      (∀ x ∈ e :: rest, x.start ≤ x.end_) → (∀ x ∈ e :: rest, x.end_ < mm) →
      ∀ g, gaps_from mm rt nxt (e :: rest) = some g → ∀ a,
        (covers g a ↔ (e.end_ < a ∧ a ≤ mm ∧ a ≤ rt ∧ ¬ covers rest a ∧
          ¬ (a = rt ∧ ends_before (e :: rest) rt))) := by
  intro rest
  induction rest with
  | nil =>
    intro e _ _ hm g hg a
    have h1 : e.end_ < mm := hm e (by simp)
    have hs := succ_mod_U64 e.end_ (by omega)
    unfold gaps_from at hg
    simp only [h1, if_true, hs, Option.some.injEq] at hg
    subst hg
    have hn := covers_nil a
    have he := ends_before_nil rt
    rw [ends_before_cons]
    rcases clip_cases rt (e.end_ + 1) mm with ⟨c0, h⟩ | ⟨c1, c2, h⟩ | ⟨c1, c2, h⟩ <;>
      rw [h] <;> simp only [covers_cons, hn, he, or_false, false_or, not_false_eq_true,
        true_and, false_iff] <;> omega
  | cons e1 rest ih =>
    intro e hc hw hm g hg a
    have hc1 : chain (e1 :: rest) := (List.pairwise_cons.1 hc).2
    have h01 : e.end_ < e1.start := (List.pairwise_cons.1 hc).1 e1 (by simp)
    have hw1 : e1.start ≤ e1.end_ := hw e1 (by simp)
    have hm1 : e1.end_ < mm := hm e1 (by simp)
    have hwr : ∀ x ∈ rest, x.start ≤ x.end_ :=
      fun x hx => hw x (List.mem_cons_of_mem _ (List.mem_cons_of_mem _ hx))
    have ih' := ih e1 hc1 (fun x hx => hw x (List.mem_cons_of_mem _ hx))
      (fun x hx => hm x (List.mem_cons_of_mem _ hx))
    have hs := succ_mod_U64 e.end_ (by omega)
    have hp := pred_mod_U64 e1.start (by omega) (by omega)
    have hP : ¬ covers rest a ∨ (covers rest a ∧ e1.end_ < a) := by
      by_cases p : covers rest a
      · exact Or.inr ⟨p, Nat.lt_of_not_le (fun h => chain_not_covers e1 rest a hc1 h p)⟩
      · exact Or.inl p
    have hQ : ¬ ends_before rest rt ∨ (ends_before rest rt ∧ e1.end_ + 1 < rt) := by
      by_cases q : ends_before rest rt
      · exact Or.inr ⟨q, Nat.lt_of_not_le
          (fun h => chain_not_ends_before e1 rest rt hc1 hwr h q)⟩
      · exact Or.inl q
    unfold gaps_from at hg
    simp only [hs, hp] at hg
    by_cases hcont : e1.start = e.end_ + 1
    · simp only [hcont, if_true] at hg
      rw [ih' g hg a]
      simp only [covers_cons, ends_before_cons]
      rcases hP with p | ⟨p, hpa⟩ <;> rcases hQ with q | ⟨q, hqa⟩ <;>
        simp only [p, q, or_true, or_false, not_true_eq_false, not_false_eq_true, and_false,
          and_true, true_and, false_and, iff_false, false_iff] <;> omega
    · simp only [hcont, if_false] at hg
      rcases clip_cases rt (e.end_ + 1) (e1.start - 1) with ⟨c0, h⟩ | ⟨c1, c2, h⟩ | ⟨c1, c2, h⟩
      · rw [h] at hg
        simp only [Option.some.injEq] at hg
        subst hg
        simp only [covers_cons, ends_before_cons, covers_nil, false_iff]
        rcases hP with p | ⟨p, hpa⟩ <;> rcases hQ with q | ⟨q, hqa⟩ <;>
          simp only [p, q, or_true, or_false, not_true_eq_false, not_false_eq_true, and_false,
            and_true, true_and, false_and, iff_false, false_iff] <;> omega
      · rw [h] at hg
        simp only [Option.some.injEq] at hg
        subst hg
        simp only [covers_cons, ends_before_cons, covers_nil, or_false]
        rcases hP with p | ⟨p, hpa⟩ <;> rcases hQ with q | ⟨q, hqa⟩ <;>
          simp only [p, q, or_true, or_false, not_true_eq_false, not_false_eq_true, and_false,
            and_true, true_and, false_and, iff_false, false_iff] <;> omega
      · rw [h] at hg
        simp only [Option.map_eq_some'] at hg
        obtain ⟨g', hg', rfl⟩ := hg
        simp only [List.singleton_append, covers_cons, ends_before_cons, ih' g' hg' a]
        rcases hP with p | ⟨p, hpa⟩ <;> rcases hQ with q | ⟨q, hqa⟩ <;>
          simp only [p, q, or_true, or_false, not_true_eq_false, not_false_eq_true, and_false,
            and_true, true_and, false_and, iff_false, false_iff] <;> omega

theorem chain_of_sorted (l : List memory_range) (hs : sorted_by_start l)
    (hd : non_overlapping l) (hw : well_formed l) : chain l := by
  unfold chain
  have h := List.Pairwise.and hs hd
  refine List.Pairwise.imp_of_mem ?_ h
  intro a b _ hb hab
  have := hw b hb
  omega

theorem chain_sorted_non_overlapping (l : List memory_range) (hc : chain l)
    (hw : well_formed l) : sorted_by_start l ∧ non_overlapping l := by
  constructor
  · refine List.Pairwise.imp_of_mem ?_ hc
    intro a b ha _ hab
    have := hw a ha
    omega
  · exact List.Pairwise.imp (fun h => Or.inl h) hc

theorem hole_cons (e : memory_range) (rest : List memory_range) :
    hole (e :: rest) = if e.start ≠ 0 then [⟨0, e.start - 1, RANGE_RAM⟩] else [] := rfl

theorem covers_hole (e : memory_range) (rest : List memory_range) (a : Nat) :
    covers (hole (e :: rest)) a ↔ a < e.start := by
  rw [hole_cons]
  by_cases h : e.start ≠ 0
  · rw [if_pos h]
    simp only [covers_cons, covers_nil, or_false]
    constructor
    · intro h1; omega
    · intro h1; exact ⟨Nat.zero_le _, by omega⟩
  · rw [if_neg h]
    have := covers_nil a
    simp only [this, false_iff]; omega

/-- In the regular case the loop yields the first hole followed by the gaps. -/
theorem synth_regular (mm rt : Nat) (nxt : Option memory_range) (b0 : Nat) (hU : mm < U64)
    (l : List memory_range) (hc : chain l) (hw : well_formed l) (hm : ∀ x ∈ l, x.end_ < mm) :
    ∃ g, gaps_from mm rt nxt l = some g ∧
      synth mm rt nxt b0 l =
        some (if hole l ++ g = [] then [⟨b0, rt, RANGE_RAM⟩] else hole l ++ g) ∧
      chain (hole l ++ g) ∧ well_formed (hole l ++ g) ∧ limited rt g := by
  cases l with
  | nil =>
    refine ⟨[], rfl, rfl, by simp [hole, chain], by simp [hole, well_formed], by simp [limited]⟩
  | cons e rest =>
    obtain ⟨g, hg, hb, hch⟩ := gaps_from_regular mm rt nxt hU rest e hc hw hm
    refine ⟨g, hg, by simp [synth, hg], ?_, ?_, gaps_from_limited mm rt nxt _ g hg⟩
    · rw [hole_cons]
      by_cases h : e.start ≠ 0
      · rw [if_pos h]
        show List.Pairwise _ (_ :: g)
        refine List.Pairwise.cons ?_ hch
        intro r hr
        have := hb r hr
        have := hw e (by simp)
        simp; omega
      · rw [if_neg h]; exact hch
    · intro r hr
      rcases List.mem_append.1 hr with h | h
      · rw [hole_cons] at h
        by_cases h0 : e.start ≠ 0
        · simp [h0] at h; subst h; simp
        · simp [h0] at h
      · exact (hb r h).2.1

/-- C1 (as stated, refuted): with the single exclusion `[0x10, 0xFFF]`, `memory_max = 0x2FFF`
and `rmo_top = 0x1000` the code emits only the first hole `[0, 0xF]`; the trailing gap
`[0x1000, 0x2FFF]` starts at `rmo_top` and is discarded, so address `0x1000`, which lies in
`[0, min(memory_max, rmo_top)]` and in no exclusion, is not covered. -/
theorem C1_counterexample :
    sorted_by_start ([⟨0x10, 0xFFF, 0⟩, zero_range].take 1) ∧
    output_ranges [⟨0x10, 0xFFF, 0⟩, zero_range] 1 0x2FFF 0x1000
      [⟨0, 0x2FFF, 0⟩, zero_range] [zero_range, zero_range] false = some [⟨0, 0xF, 0⟩] ∧
    ¬ complement_law ([⟨0x10, 0xFFF, 0⟩, zero_range].take 1) [⟨0, 0xF, 0⟩] 0x2FFF 0x1000 := by
  refine ⟨by decide, by decide, ?_⟩
  intro h
  have h1 := h 0x1000
  revert h1
  decide

/-- C1 (amended): for a non-empty exclusion list that is sorted by start, pairwise
non-overlapping and well-formed, whose ranges all end below `memory_max`, with
`exclude[0].start <= rmo_top + 1`, no exclusion ending at `rmo_top - 1`, and at least one
address of `[0, min(memory_max, rmo_top)]` outside every exclusion: (1) the addresses covered
by every range list that the code returns, whatever the size of `memory_range`, are exactly
those of `[0, min(memory_max, rmo_top)]` that lie in no exclusion region; (2) the code
returns a range list when `memory_range` has one element for each exclusion, and one more
when `exclude[0].start != 0`. -/
theorem C1_complement_law (ex : List memory_range) (n mm rt : Nat)
    (base mr0 : List memory_range) (shared : Bool) (e0 : memory_range)
    (hn : n ≤ ex.length) (hU : mm < U64)
    (hs : sorted_by_start (ex.take n)) (hd : non_overlapping (ex.take n))
    (hw : well_formed (ex.take n)) (hm : ∀ x ∈ ex.take n, x.end_ < mm)
    (h0 : (ex.take n)[0]? = some e0) (h1 : e0.start ≤ rt + 1)
    (h2 : ¬ ends_before (ex.take n) rt)
    (h3 : ∃ a, a ≤ min mm rt ∧ ¬ covers (ex.take n) a) :
    (∀ out, output_ranges ex n mm rt base mr0 shared = some out →
      complement_law (ex.take n) out mm rt) ∧
    (n + (hole (ex.take n)).length ≤ mr0.length →
      ∃ out, output_ranges ex n mm rt base mr0 shared = some out) := by
  have hc := chain_of_sorted _ hs hd hw
  have main : ∃ g, gaps_from mm rt ex[n]? (ex.take n) = some g ∧
      hole (ex.take n) ++ g ≠ [] ∧
      (∀ b0, synth mm rt ex[n]? b0 (ex.take n) = some (hole (ex.take n) ++ g)) ∧
      complement_law (ex.take n) (hole (ex.take n) ++ g) mm rt := by
    generalize ex[n]? = nxt
    generalize ex.take n = l at *
    cases l with
    | nil => simp at h0
    | cons e rest =>
      simp only [List.getElem?_cons_zero, Option.some.injEq] at h0
      subst h0
      obtain ⟨g, hg, -, -, -, -⟩ := synth_regular mm rt nxt 0 hU _ hc hw hm
      have hcov := gaps_from_covers mm rt nxt hU rest e hc hw hm g hg
      have key : complement_law (e :: rest) (hole (e :: rest) ++ g) mm rt := by
        intro a
        rw [covers_append, covers_hole, hcov a, covers_cons]
        have hP : ¬ covers rest a ∨ (covers rest a ∧ e.end_ < a) := by
          by_cases p : covers rest a
          · exact Or.inr ⟨p, Nat.lt_of_not_le (fun h => chain_not_covers e rest a hc h p)⟩
          · exact Or.inl p
        have he := hw e (by simp)
        have hme := hm e (by simp)
        rcases hP with p | ⟨p, hpa⟩ <;>
          simp only [p, h2, or_true, or_false, not_true_eq_false, not_false_eq_true, and_false,
            and_true, true_and, false_and, iff_false, false_iff] <;> omega
      have hne : hole (e :: rest) ++ g ≠ [] := by
        obtain ⟨a, ha1, ha2⟩ := h3
        have : covers (hole (e :: rest) ++ g) a := (key a).2 ⟨ha1, ha2⟩
        obtain ⟨r, hr, -⟩ := this
        exact List.ne_nil_of_mem hr
      refine ⟨g, hg, hne, ?_, key⟩
      intro b0
      unfold synth
      rw [hg]
      simp only [Option.map_some', if_neg hne]
  obtain ⟨g, hg, hne, hsy, key⟩ := main
  refine ⟨?_, ?_⟩
  · intro out hout
    obtain ⟨b0, _, _, -, -, -, heq⟩ :=
      output_ranges_some_eq_synth ex n mm rt base mr0 shared out hn hout
    rw [hsy b0] at heq
    simp only [Option.some.injEq] at heq
    rw [← heq]
    exact key
  · intro hcap
    exact output_ranges_defined ex n mm rt base mr0 shared g hn hcap hg
      (fun h => absurd h hne)

theorem mem_hole (l : List memory_range) (r : memory_range) (h : r ∈ hole l) :
    is_first_hole l r := by
  cases l with
  | nil => simp [hole] at h
  | cons e rest =>
    rw [hole_cons] at h
    by_cases h0 : e.start ≠ 0
    · rw [if_pos h0] at h
      exact ⟨e, rfl, h0, by simpa using h⟩
    · rw [if_neg h0] at h; simp at h

theorem synth_shape (mm rt : Nat) (nxt : Option memory_range) (b0 : Nat)
    (l out : List memory_range) (h : synth mm rt nxt b0 l = some out) :
    ∃ g, gaps_from mm rt nxt l = some g ∧ limited rt g ∧
      out = if hole l ++ g = [] then [⟨b0, rt, RANGE_RAM⟩] else hole l ++ g := by
  unfold synth at h
  cases hg : gaps_from mm rt nxt l with
  | none => rw [hg] at h; simp at h
  | some g =>
    rw [hg] at h
    simp only [Option.map_some', Option.some.injEq] at h
    exact ⟨g, rfl, gaps_from_limited mm rt nxt l g hg, h.symm⟩

/-- C2 (as stated, refuted): the exclusion list `[0, 0x1FFF], [0x1000, 0x17FF]` is sorted by
start but its ranges overlap; with `memory_max = 0x2FFF` and `rmo_top = 0x3FFF` the code
emits `[0x2000, 0xFFF], [0x1800, 0x2FFF]`, which is not sorted by start. -/
theorem C2_counterexample :
    sorted_by_start ([⟨0, 0x1FFF, 0⟩, ⟨0x1000, 0x17FF, 0⟩, zero_range].take 2) ∧
    output_ranges [⟨0, 0x1FFF, 0⟩, ⟨0x1000, 0x17FF, 0⟩, zero_range] 2 0x2FFF 0x3FFF
      [⟨0, 0x2FFF, 0⟩, zero_range, zero_range] [zero_range, zero_range, zero_range] false =
      some [⟨0x2000, 0xFFF, 0⟩, ⟨0x1800, 0x2FFF, 0⟩] ∧
    ¬ (sorted_by_start [⟨0x2000, 0xFFF, 0⟩, ⟨0x1800, 0x2FFF, 0⟩] ∧
        non_overlapping [⟨0x2000, 0xFFF, 0⟩, ⟨0x1800, 0x2FFF, 0⟩]) := by
  decide

/-- C2 (amended): for an exclusion list that is sorted by start, pairwise non-overlapping
and well-formed, whose ranges all end below `memory_max`: (1) every range list that the code
returns, whatever the size of `memory_range`, is sorted ascending by start and pairwise
non-overlapping; (2) the code returns a range list when `memory_range` has one element for
each exclusion, and one more when `exclude[0].start != 0`, and at least one element, and
`base_memory_range` has an element `0`. -/
theorem C2_sorted_non_overlapping (ex : List memory_range) (n mm rt : Nat)
    (base mr0 : List memory_range) (shared : Bool)
    (hn : n ≤ ex.length) (hU : mm < U64)
    (hs : sorted_by_start (ex.take n)) (hd : non_overlapping (ex.take n))
    (hw : well_formed (ex.take n)) (hm : ∀ x ∈ ex.take n, x.end_ < mm) :
    (∀ out, output_ranges ex n mm rt base mr0 shared = some out →
      sorted_by_start out ∧ non_overlapping out) ∧
    (n + (hole (ex.take n)).length ≤ mr0.length → 0 < mr0.length →
      (shared = false → base ≠ []) →
      ∃ out, output_ranges ex n mm rt base mr0 shared = some out) := by
  have hc := chain_of_sorted _ hs hd hw
  refine ⟨?_, ?_⟩
  · intro out hout
    obtain ⟨b0, _, _, -, -, -, heq⟩ :=
      output_ranges_some_eq_synth ex n mm rt base mr0 shared out hn hout
    obtain ⟨g, -, hsy, hch, hwf, -⟩ := synth_regular mm rt ex[n]? b0 hU _ hc hw hm
    rw [hsy] at heq
    simp only [Option.some.injEq] at heq
    rw [← heq]
    by_cases hne : hole (ex.take n) ++ g = []
    · rw [if_pos hne]; simp [sorted_by_start, non_overlapping]
    · rw [if_neg hne]; exact chain_sorted_non_overlapping _ hch hwf
  · intro hcap hlen hbase
    obtain ⟨g, hg, -, -, -, -⟩ := synth_regular mm rt ex[n]? 0 hU _ hc hw hm
    exact output_ranges_defined ex n mm rt base mr0 shared g hn hcap hg
      (fun _ => ⟨hlen, hbase⟩)

/-- C3 (as stated, refuted): with no exclusion, `memory_max = 0xFFF` and `rmo_top = 0x3FFF`
the code returns the single range `[base[0].start, rmo_top] = [0, 0x3FFF]`, whose end
exceeds `min(memory_max, rmo_top) = 0xFFF`. -/
theorem C3_counterexample :
    output_ranges [zero_range] 0 0xFFF 0x3FFF [⟨0, 0xFFF, 0⟩] [zero_range] false =
      some [⟨0, 0x3FFF, 0⟩] ∧
    ¬ (∀ r ∈ [(⟨0, 0x3FFF, 0⟩ : memory_range)],
        r.type = RANGE_RAM ∧ r.end_ ≤ min 0xFFF 0x3FFF) := by
  decide

/-- C3 (amended): whenever the synthesis returns a range list, whatever the size of
`memory_range`, every range in it has type `RANGE_RAM`, and every range other than the first
hole `[0, exclude[0].start - 1]` has an end that does not exceed `rmo_top`, hence does not
exceed `min(memory_max, rmo_top)` when `rmo_top <= memory_max`. -/
theorem C3_type_and_end (ex : List memory_range) (n mm rt : Nat)
    (base mr0 : List memory_range) (shared : Bool) (out : List memory_range)
    (hn : n ≤ ex.length)
    (hout : output_ranges ex n mm rt base mr0 shared = some out) :
    ∀ r ∈ out, r.type = RANGE_RAM ∧
      (is_first_hole (ex.take n) r ∨
        (r.end_ ≤ rt ∧ (rt ≤ mm → r.end_ ≤ min mm rt))) := by
  obtain ⟨b0, _, _, -, -, -, heq⟩ :=
    output_ranges_some_eq_synth ex n mm rt base mr0 shared out hn hout
  obtain ⟨g, -, hlim, rfl⟩ := synth_shape mm rt _ _ _ _ heq
  intro r hr
  by_cases hne : hole (ex.take n) ++ g = []
  · rw [if_pos hne] at hr
    simp only [List.mem_singleton] at hr
    subst hr
    exact ⟨rfl, Or.inr ⟨Nat.le_refl _, fun h => by simp [h]⟩⟩
  · rw [if_neg hne] at hr
    rcases List.mem_append.1 hr with h | h
    · obtain ⟨e, he1, he2, rfl⟩ := mem_hole _ _ h
      exact ⟨rfl, Or.inl ⟨e, he1, he2, rfl⟩⟩
    · obtain ⟨h1, -, h3⟩ := hlim.1 r h
      exact ⟨h1, Or.inr ⟨h3, fun h => by simp [h, h3]⟩⟩

/-- C4 (the code at the failing input): the exclusion list `[0, 0xFFFFFF]` (the kernel) is
non-empty, sorted, non-overlapping and well-formed; with `memory_max = rmo_top = 0x1000000`
the trailing gap `[0x1000000, 0x1000000]` starts at `rmo_top` and is discarded, `j` is `0`,
and the fixup emits `[base[0].start, rmo_top] = [0, 0x1000000]`, which contains the whole
exclusion.  The same happens in a complete run on a device tree with two memory nodes
`(0, 0x800000)` and `(0x800000, 0x800000)` and `linux,kernel-end = 0xFFFFFF`. -/
theorem C4_fixup_inside_exclusion :
    sorted_by_start ([⟨0, 0xFFFFFF, 0⟩, zero_range].take 1) ∧
    non_overlapping ([⟨0, 0xFFFFFF, 0⟩, zero_range].take 1) ∧
    well_formed ([⟨0, 0xFFFFFF, 0⟩, zero_range].take 1) ∧
    output_ranges [⟨0, 0xFFFFFF, 0⟩, zero_range] 1 0x1000000 0x1000000
      [⟨0, 0x800000, 0⟩, ⟨0x800000, 0x1000000, 0⟩] [zero_range, zero_range] false =
      some [⟨0, 0x1000000, 0⟩] ∧
    covers [⟨0, 0x1000000, 0⟩] 0x400 ∧
    covers ([⟨0, 0xFFFFFF, 0⟩, zero_range].take 1) 0x400 ∧
    (get_memory_ranges_dt env_kernel_fills_memory false init_state).map
        (fun r => (r.1, exclusion_list r.2.1, r.2.1.memory_max, r.2.1.rmo_top, r.2.2)) =
      some (0, [⟨0, 0xFFFFFF, 0⟩], 0x1000000, 0x1000000, some [⟨0, 0x1000000, 0⟩]) := by
  decide

/-- C5: with `nr_exclude_ranges = 0` the loop is not entered, `nr_memory_ranges` is `1` and
`memory_range[0]` is `[base_memory_range[0].start, rmo_top]` tagged `RANGE_RAM`; `b` is
the element `base_memory_range[0]`. -/
theorem C5_no_exclusion (ex : List memory_range) (mm rt : Nat)
    (base mr0 : List memory_range) (shared : Bool) (b : memory_range)
    (hcap : 0 < mr0.length) (hb : (if shared then mr0 else base)[0]? = some b) :
    setup_ranges ex 0 mm rt base mr0 shared = some (mr0.set 0 ⟨b.start, rt, RANGE_RAM⟩, 1) ∧
    output_ranges ex 0 mm rt base mr0 shared = some [⟨b.start, rt, RANGE_RAM⟩] := by
  have h1 : setup_ranges ex 0 mm rt base mr0 shared =
      some (mr0.set 0 ⟨b.start, rt, RANGE_RAM⟩, 1) := by
    simp [setup_ranges, setup_loop, setup_fixup, hb, hcap]
  refine ⟨h1, ?_⟩
  unfold output_ranges
  rw [h1]
  simp only [Option.map_some', Option.some.injEq]
  exact (take_succ_set mr0 0 _ hcap).trans (by simp)

/-- C6 (as stated, refuted): with no exclusion, a lowest base range starting at `0x40000000`
and `rmo_top = 0x30000000` the code returns the single range
`[base[0].start, rmo_top] = [0x40000000, 0x30000000]`, whose start is not below `rmo_top`. -/
theorem C6_counterexample :
    sorted_by_start (([zero_range] : List memory_range).take 0) ∧
    output_ranges [zero_range] 0 0x50000000 0x30000000 [⟨0x40000000, 0x50000000, 0⟩]
      [zero_range] false = some [⟨0x40000000, 0x30000000, 0⟩] ∧
    ¬ (∀ r ∈ [(⟨0x40000000, 0x30000000, 0⟩ : memory_range)], r.start < 0x30000000) := by
  decide

/-- C6 (amended): whenever the synthesis returns a range list, whatever the size of
`memory_range`, no range of it other than the first hole and the single fallback range
(emitted when the loop ends with `j == 0`) has `start >= rmo_top`; every range other than
the first hole has `end <= rmo_top`, and one that is followed by another range has
`end < rmo_top`; and a gap or trailing range computed with `start < rmo_top <= end` is
stored with `end == rmo_top` and ends the loop. -/
theorem C6_limit_to_rmo_top (ex : List memory_range) (n mm rt : Nat)
    (base mr0 : List memory_range) (shared : Bool) (out : List memory_range)
    (hn : n ≤ ex.length)
    (hout : output_ranges ex n mm rt base mr0 shared = some out) :
    (∀ r ∈ out, is_first_hole (ex.take n) r ∨
      (∃ mr, setup_loop ex n mm rt n 0 mr0 0 = some (mr, 0)) ∨ r.start < rt) ∧
    (∀ r ∈ out, is_first_hole (ex.take n) r ∨ r.end_ ≤ rt) ∧
    out.Pairwise (fun r _ => is_first_hole (ex.take n) r ∨ r.end_ < rt) ∧
    (∀ (mr : List memory_range) (j s e : Nat), j < mr.length → s < rt → rt ≤ e →
      emit_range rt mr j s e = some (mr.set j ⟨s, rt, RANGE_RAM⟩, j + 1, true)) := by
  obtain ⟨b0, g0, mr1, -, hg0, hloop, heq⟩ :=
    output_ranges_some_eq_synth ex n mm rt base mr0 shared out hn hout
  obtain ⟨g, hg, hlim, rfl⟩ := synth_shape mm rt _ _ _ _ heq
  rw [hg0] at hg
  simp only [Option.some.injEq] at hg
  subst hg
  refine ⟨?_, ?_, ?_, ?_⟩
  · intro r hr
    by_cases hne : hole (ex.take n) ++ g0 = []
    · right; left
      rw [hne] at hloop
      exact ⟨mr1, hloop⟩
    · rw [if_neg hne] at hr
      rcases List.mem_append.1 hr with h | h
      · exact Or.inl (mem_hole _ _ h)
      · exact Or.inr (Or.inr (hlim.1 r h).2.1)
  · intro r hr
    by_cases hne : hole (ex.take n) ++ g0 = []
    · rw [if_pos hne] at hr
      simp only [List.mem_singleton] at hr
      subst hr; exact Or.inr (Nat.le_refl _)
    · rw [if_neg hne] at hr
      rcases List.mem_append.1 hr with h | h
      · exact Or.inl (mem_hole _ _ h)
      · exact Or.inr (hlim.1 r h).2.2
  · by_cases hne : hole (ex.take n) ++ g0 = []
    · rw [if_pos hne]; simp
    · rw [if_neg hne]
      rw [List.pairwise_append]
      refine ⟨?_, ?_, ?_⟩
      · exact List.Pairwise.imp_of_mem (fun ha _ _ => Or.inl (mem_hole _ _ ha))
          (List.pairwise_of_forall (R := fun _ _ => True) (fun _ _ => trivial))
      · exact List.Pairwise.imp (fun h => Or.inr h) hlim.2
      · intro a ha _ _
        exact Or.inl (mem_hole _ _ ha)
  · intro mr j s e hj hs he
    unfold emit_range
    have h1 : ¬ s ≥ rt := by omega
    simp [hj, h1, he]

/-- C7: when `exclude_range[i+1].start == exclude_range[i].end + 1` for an index `i` with
`i + 1 < nr_exclude_ranges`, iteration `i` of the loop stores no range between the two
exclusions: it does nothing beyond the first hole (which only exists for `i == 0` and lies
below `exclude_range[0]`) and goes on with the next index.  For
`exclude = [[0,0xFFF],[0x1000,0x1FFF]]`, `memory_max = 0x2FFF`, `rmo_top = 0x3FFF` the result
is exactly `[[0x2000,0x2FFF]]`. -/
theorem C7_contiguous_skipped (ex : List memory_range) (n mm rt i : Nat) (a b : memory_range)
    (mr : List memory_range) (j : Nat)
    (hi : i + 1 < n) (ha : ex[i]? = some a) (hb : ex[i + 1]? = some b)
    (hb64 : b.start < U64) (hcont : b.start = a.end_ + 1) :
    gap_step ex n mm rt i a mr j = some (mr, j, false) ∧
    setup_step ex n mm rt i mr j = (first_hole a i mr j).map (fun r => (r.1, r.2, false)) ∧
    (1 ≤ i → setup_step ex n mm rt i mr j = some (mr, j, false)) ∧
    output_ranges [⟨0, 0xFFF, 0⟩, ⟨0x1000, 0x1FFF, 0⟩, zero_range] 2 0x2FFF 0x3FFF
      [⟨0, 0x2FFF, 0⟩, zero_range, zero_range] [zero_range, zero_range, zero_range] false =
      some [⟨0x2000, 0x2FFF, RANGE_RAM⟩] := by
  have hmod : b.start = (a.end_ + 1) % U64 := by
    rw [Nat.mod_eq_of_lt (by omega)]; exact hcont
  have hg : ∀ (m : List memory_range) (k : Nat),
      gap_step ex n mm rt i a m k = some (m, k, false) := by
    intro m k
    unfold gap_step
    have hl : ¬ (i = n - 1 ∧ a.end_ < mm) := by omega
    simp [hl, hb, hmod]
  have hstep : setup_step ex n mm rt i mr j =
      (first_hole a i mr j).map (fun r => (r.1, r.2, false)) := by
    unfold setup_step
    simp only [ha]
    cases hf : first_hole a i mr j with
    | none => rfl
    | some r => obtain ⟨m, k⟩ := r; simp [hg]
  refine ⟨hg mr j, hstep, ?_, by decide⟩
  intro h1
  rw [hstep, first_hole_pos a i mr j h1]
  rfl

/-- C1 (amended) at the scenario `exclude = [[0,0xFFF],[0x10000,0x1FFFF]]`,
`memory_max = 0x30000000`, `rmo_top = 0x20000000`, with two elements in each of the three
arrays: the code returns `[0x1000, 0xFFFF], [0x20000, 0x20000000]`. -/
theorem C1_witness :
    output_ranges [⟨0, 0xFFF, 0⟩, ⟨0x10000, 0x1FFFF, 0⟩] 2 0x30000000 0x20000000
        [⟨0, 0x30000000, 0⟩, zero_range] [zero_range, zero_range] false =
      some [⟨0x1000, 0xFFFF, 0⟩, ⟨0x20000, 0x20000000, 0⟩] ∧
    complement_law ([⟨0, 0xFFF, 0⟩, ⟨0x10000, 0x1FFFF, 0⟩].take 2)
      [⟨0x1000, 0xFFFF, 0⟩, ⟨0x20000, 0x20000000, 0⟩] 0x30000000 0x20000000 ∧
    (∃ out, output_ranges [⟨0, 0xFFF, 0⟩, ⟨0x10000, 0x1FFFF, 0⟩] 2 0x30000000 0x20000000
        [⟨0, 0x30000000, 0⟩, zero_range] [zero_range, zero_range] false = some out) :=
  have h := C1_complement_law [⟨0, 0xFFF, 0⟩, ⟨0x10000, 0x1FFFF, 0⟩] 2 0x30000000 0x20000000
    [⟨0, 0x30000000, 0⟩, zero_range] [zero_range, zero_range] false ⟨0, 0xFFF, 0⟩
    (by decide) (by decide) (by decide) (by decide) (by decide) (by decide) rfl
    (by decide) (by decide) ⟨0x1000, by decide, by decide⟩
  ⟨by decide, h.1 _ (by decide), h.2 (by decide)⟩

/-- C2 (amended) at the scenario `exclude = [[0,0xFFF],[0x10000,0x1FFFF]]`,
`memory_max = 0x30000000`, `rmo_top = 0x20000000`, with two elements in each of the three
arrays. -/
theorem C2_witness :
    output_ranges [⟨0, 0xFFF, 0⟩, ⟨0x10000, 0x1FFFF, 0⟩] 2 0x30000000 0x20000000
        [⟨0, 0x30000000, 0⟩, zero_range] [zero_range, zero_range] false =
      some [⟨0x1000, 0xFFFF, 0⟩, ⟨0x20000, 0x20000000, 0⟩] ∧
    (sorted_by_start [⟨0x1000, 0xFFFF, 0⟩, ⟨0x20000, 0x20000000, 0⟩] ∧
      non_overlapping [⟨0x1000, 0xFFFF, 0⟩, ⟨0x20000, 0x20000000, 0⟩]) ∧
    (∃ out, output_ranges [⟨0, 0xFFF, 0⟩, ⟨0x10000, 0x1FFFF, 0⟩] 2 0x30000000 0x20000000
        [⟨0, 0x30000000, 0⟩, zero_range] [zero_range, zero_range] false = some out) :=
  have h := C2_sorted_non_overlapping [⟨0, 0xFFF, 0⟩, ⟨0x10000, 0x1FFFF, 0⟩] 2
    0x30000000 0x20000000
    [⟨0, 0x30000000, 0⟩, zero_range] [zero_range, zero_range] false
    (by decide) (by decide) (by decide) (by decide) (by decide) (by decide)
  ⟨by decide, h.1 _ (by decide), h.2 (by decide) (by decide) (by decide)⟩

/-- C3 (amended) at the second range of the result for
`exclude = [[0,0xFFF],[0x10000,0x1FFFF]]`, `memory_max = 0x30000000`,
`rmo_top = 0x20000000`, with two elements in each of the three arrays. -/
theorem C3_witness :
    output_ranges [⟨0, 0xFFF, 0⟩, ⟨0x10000, 0x1FFFF, 0⟩] 2 0x30000000 0x20000000
        [⟨0, 0x30000000, 0⟩, zero_range] [zero_range, zero_range] false =
      some [⟨0x1000, 0xFFFF, 0⟩, ⟨0x20000, 0x20000000, 0⟩] ∧
    (⟨0x20000, 0x20000000, 0⟩ : memory_range).type = RANGE_RAM ∧
      (is_first_hole ([⟨0, 0xFFF, 0⟩, ⟨0x10000, 0x1FFFF, 0⟩].take 2)
          ⟨0x20000, 0x20000000, 0⟩ ∨
        ((⟨0x20000, 0x20000000, 0⟩ : memory_range).end_ ≤ 0x20000000 ∧
          (0x20000000 ≤ 0x30000000 →
            (⟨0x20000, 0x20000000, 0⟩ : memory_range).end_ ≤ min 0x30000000 0x20000000))) :=
  ⟨by decide,
    C3_type_and_end [⟨0, 0xFFF, 0⟩, ⟨0x10000, 0x1FFFF, 0⟩] 2 0x30000000 0x20000000
      [⟨0, 0x30000000, 0⟩, zero_range] [zero_range, zero_range] false
      [⟨0x1000, 0xFFFF, 0⟩, ⟨0x20000, 0x20000000, 0⟩]
      (by decide) (by decide) ⟨0x20000, 0x20000000, 0⟩ (by decide)⟩

/-- C5 with `base_memory_range[0] = [0, 0x30000000]` and `rmo_top = 0x20000000`. -/
theorem C5_witness :
    setup_ranges [zero_range] 0 0x30000000 0x20000000 [⟨0, 0x30000000, 0⟩] [zero_range]
        false = some ([zero_range].set 0 ⟨0, 0x20000000, RANGE_RAM⟩, 1) ∧
    output_ranges [zero_range] 0 0x30000000 0x20000000 [⟨0, 0x30000000, 0⟩] [zero_range]
        false = some [⟨0, 0x20000000, RANGE_RAM⟩] :=
  C5_no_exclusion [zero_range] 0x30000000 0x20000000 [⟨0, 0x30000000, 0⟩] [zero_range] false
    ⟨0, 0x30000000, 0⟩ (by decide) rfl

/-- C6 (amended) at the second range of the result for
`exclude = [[0,0xFFF],[0x10000,0x1FFFF]]`, `memory_max = 0x30000000`,
`rmo_top = 0x20000000`, with two elements in each of the three arrays; it is the range cut
at `rmo_top`. -/
theorem C6_witness :
    output_ranges [⟨0, 0xFFF, 0⟩, ⟨0x10000, 0x1FFFF, 0⟩] 2 0x30000000 0x20000000
        [⟨0, 0x30000000, 0⟩, zero_range] [zero_range, zero_range] false =
      some [⟨0x1000, 0xFFFF, 0⟩, ⟨0x20000, 0x20000000, 0⟩] ∧
    (is_first_hole ([⟨0, 0xFFF, 0⟩, ⟨0x10000, 0x1FFFF, 0⟩].take 2)
        ⟨0x20000, 0x20000000, 0⟩ ∨
      (∃ mr, setup_loop [⟨0, 0xFFF, 0⟩, ⟨0x10000, 0x1FFFF, 0⟩] 2 0x30000000
        0x20000000 2 0 [zero_range, zero_range] 0 = some (mr, 0)) ∨
      (⟨0x20000, 0x20000000, 0⟩ : memory_range).start < 0x20000000) ∧
    (is_first_hole ([⟨0, 0xFFF, 0⟩, ⟨0x10000, 0x1FFFF, 0⟩].take 2)
        ⟨0x20000, 0x20000000, 0⟩ ∨
      (⟨0x20000, 0x20000000, 0⟩ : memory_range).end_ ≤ 0x20000000) ∧
    [(⟨0x1000, 0xFFFF, 0⟩ : memory_range), ⟨0x20000, 0x20000000, 0⟩].Pairwise
      (fun r _ => is_first_hole ([⟨0, 0xFFF, 0⟩, ⟨0x10000, 0x1FFFF, 0⟩].take 2) r ∨
        r.end_ < 0x20000000) ∧
    emit_range 0x20000000 [zero_range, zero_range] 1 0x20000 0x30000000 =
      some ([zero_range, zero_range].set 1 ⟨0x20000, 0x20000000, RANGE_RAM⟩, 1 + 1, true) :=
  have h := C6_limit_to_rmo_top [⟨0, 0xFFF, 0⟩, ⟨0x10000, 0x1FFFF, 0⟩] 2
    0x30000000 0x20000000
    [⟨0, 0x30000000, 0⟩, zero_range] [zero_range, zero_range] false
    [⟨0x1000, 0xFFFF, 0⟩, ⟨0x20000, 0x20000000, 0⟩]
    (by decide) (by decide)
  ⟨by decide, h.1 ⟨0x20000, 0x20000000, 0⟩ (by decide),
    h.2.1 ⟨0x20000, 0x20000000, 0⟩ (by decide),
    h.2.2.1, h.2.2.2 [zero_range, zero_range] 1 0x20000 0x30000000
      (by decide) (by decide) (by decide)⟩

/-- C7 at index `0` of `exclude = [[0,0xFFF],[0x1000,0x1FFF]]`. -/
theorem C7_witness :
    gap_step [⟨0, 0xFFF, 0⟩, ⟨0x1000, 0x1FFF, 0⟩, zero_range] 2 0x2FFF 0x3FFF 0 ⟨0, 0xFFF, 0⟩
      [zero_range, zero_range, zero_range] 0 =
      some ([zero_range, zero_range, zero_range], 0, false) :=
  (C7_contiguous_skipped [⟨0, 0xFFF, 0⟩, ⟨0x1000, 0x1FFF, 0⟩, zero_range] 2 0x2FFF 0x3FFF 0
    ⟨0, 0xFFF, 0⟩ ⟨0x1000, 0x1FFF, 0⟩ [zero_range, zero_range, zero_range] 0
    (by decide) rfl rfl (by decide) rfl).1

theorem swap_step_append (pre : List memory_range) (x y : memory_range) (r : List memory_range) :
    swap_step (pre ++ x :: y :: r) pre.length =
      some (if x.start > y.start then
        pre ++ ⟨y.start, y.end_, x.type⟩ :: ⟨x.start, x.end_, y.type⟩ :: r
      else pre ++ x :: y :: r) := by
  unfold swap_step
  have h1 : (pre ++ x :: y :: r)[pre.length]? = some x := by
    rw [List.getElem?_append_right (Nat.le_refl _)]; simp
  have h2 : (pre ++ x :: y :: r)[pre.length + 1]? = some y := by
    rw [List.getElem?_append_right (by omega)]; simp
  rw [h1, h2]
  simp only
  split_ifs with h
  · congr 1
    rw [List.set_append_right _ _ (by omega), List.set_append_right _ _ (by simp)]
    simp
  · rfl

theorem sort_inner_eq_pass : ∀ (k : Nat) (pre l : List memory_range), k < l.length →
    sort_inner k pre.length (pre ++ l) = some (pre ++ pass k l) := by
  intro k
  induction k with
  | zero =>
    intro pre l _
    cases l with
    | nil => simp [sort_inner, pass]
    | cons x r => cases r <;> simp [sort_inner, pass]
  | succ k ih =>
    intro pre l hl
    match l, hl with
    | x :: y :: r, hl =>
      unfold sort_inner
      rw [swap_step_append]
      simp only [pass]
      split_ifs with h
      · have := ih (pre ++ [⟨y.start, y.end_, x.type⟩]) (⟨x.start, x.end_, y.type⟩ :: r)
          (by simp at hl ⊢; omega)
        simp only [List.length_append, List.length_singleton, List.append_assoc,
          List.singleton_append] at this
        simpa using this
      · have := ih (pre ++ [x]) (y :: r) (by simp at hl ⊢; omega)
        simp only [List.length_append, List.length_singleton, List.append_assoc,
          List.singleton_append] at this
        simpa using this

theorem pass_zero (l : List memory_range) : pass 0 l = l := by
  cases l with
  | nil => rfl
  | cons x r => cases r <;> rfl

theorem pairs_cons (x : memory_range) (l : List memory_range) :
    pairs (x :: l) = (x.start, x.end_) :: pairs l := rfl

theorem pairs_append (l1 l2 : List memory_range) : pairs (l1 ++ l2) = pairs l1 ++ pairs l2 := by
  simp [pairs]

theorem mem_pairs_start (l : List memory_range) (p : Nat × Nat) (h : p ∈ pairs l) :
    ∃ z ∈ l, z.start = p.1 := by
  unfold pairs at h
  obtain ⟨z, hz, rfl⟩ := List.mem_map.1 h
  exact ⟨z, hz, rfl⟩

theorem pass_spec : ∀ (k : Nat) (l : List memory_range), k < l.length →
    ∃ A m, pass k l = A ++ m :: l.drop (k + 1) ∧ A.length = k ∧
      (∀ z ∈ l.take (k + 1), z.start ≤ m.start) ∧ (∀ z ∈ A, z.start ≤ m.start) ∧
      (pairs (A ++ [m])).Perm (pairs (l.take (k + 1))) ∧
      same_order (pairs (A ++ [m])) (pairs (l.take (k + 1))) ∧
      (A ++ [m]).map (fun r => r.type) = (l.take (k + 1)).map (fun r => r.type) := by
  intro k
  induction k with
  | zero =>
    intro l hl
    match l, hl with
    | x :: r, _ =>
      refine ⟨[], x, by simp [pass_zero], rfl, by simp, by simp, by simp, fun s => by simp, by simp⟩
  | succ k ih =>
    intro l hl
    match l, hl with
    | x :: y :: r, hl =>
      simp only [pass]
      split_ifs with h
      · obtain ⟨A, m, h1, h2, h3, h4, h5, h6, h7⟩ :=
          ih (⟨x.start, x.end_, y.type⟩ :: r) (by simp at hl ⊢; omega)
        simp only [List.take_succ_cons, List.drop_succ_cons] at h1 h3 h5 h6 h7
        have hxm : x.start ≤ m.start := h3 ⟨x.start, x.end_, y.type⟩ (by simp)
        refine ⟨⟨y.start, y.end_, x.type⟩ :: A, m, ?_, by simp [h2], ?_, ?_, ?_, ?_, ?_⟩
        · simp [h1]
        · intro z hz
          simp only [List.take_succ_cons, List.mem_cons] at hz
          rcases hz with rfl | rfl | hz
          · exact hxm
          · omega
          · exact h3 z (List.mem_cons_of_mem _ hz)
        · intro z hz
          rcases List.mem_cons.1 hz with rfl | hz
          · show y.start ≤ m.start; omega
          · exact h4 z hz
        · simp only [List.cons_append, pairs_cons, List.take_succ_cons]
          simp only [pairs_cons] at h5
          exact (List.Perm.cons _ h5).trans (List.Perm.swap _ _ _)
        · intro s
          have := h6 s
          simp only [List.cons_append, pairs_cons, List.take_succ_cons] at this ⊢
          simp only [List.filter_cons] at this ⊢
          rw [this]
          by_cases hx : x.start = s <;> by_cases hy : y.start = s <;> simp [hx, hy]
          omega
        · simp only [List.cons_append, List.map_cons, List.take_succ_cons] at h7 ⊢
          rw [h7]
      · obtain ⟨A, m, h1, h2, h3, h4, h5, h6, h7⟩ := ih (y :: r) (by simp at hl ⊢; omega)
        simp only [List.take_succ_cons, List.drop_succ_cons] at h1 h3 h5 h6 h7
        have hym : y.start ≤ m.start := h3 y (by simp)
        refine ⟨x :: A, m, ?_, by simp [h2], ?_, ?_, ?_, ?_, ?_⟩
        · simp [h1]
        · intro z hz
          simp only [List.take_succ_cons, List.mem_cons] at hz
          rcases hz with rfl | rfl | hz
          · omega
          · exact hym
          · exact h3 z (List.mem_cons_of_mem _ hz)
        · intro z hz
          rcases List.mem_cons.1 hz with rfl | hz
          · omega
          · exact h4 z hz
        · simp only [List.cons_append, pairs_cons, List.take_succ_cons]
          exact List.Perm.cons _ h5
        · intro s
          have := h6 s
          simp only [List.cons_append, pairs_cons, List.take_succ_cons] at this ⊢
          simp only [List.filter_cons] at this ⊢
          rw [this]
        · simp only [List.cons_append, List.map_cons, List.take_succ_cons] at h7 ⊢
          rw [h7]

theorem same_order_trans {p q r : List (Nat × Nat)} (h1 : same_order p q)
    (h2 : same_order q r) : same_order p r := fun s => (h1 s).trans (h2 s)

theorem same_order_append_right {p q : List (Nat × Nat)} (t : List (Nat × Nat))
    (h : same_order p q) : same_order (p ++ t) (q ++ t) := by
  intro s; simp only [List.filter_append]; rw [h s]

theorem perm_pairs_start {l1 l2 : List memory_range} (h : (pairs l1).Perm (pairs l2))
    (z : memory_range) (hz : z ∈ l1) : ∃ w ∈ l2, w.start = z.start := by
  have : (z.start, z.end_) ∈ pairs l1 := List.mem_map.2 ⟨z, hz, rfl⟩
  exact mem_pairs_start l2 _ (h.mem_iff.1 this)

theorem sort_outer_spec (nr : Nat) : ∀ (k : Nat) (P S R : List memory_range),
    P.length = k + 1 → nr = k + 1 + S.length → sorted_by_start S →
    (∀ p ∈ P, ∀ q ∈ S, p.start ≤ q.start) →
    ∃ L, sort_outer nr k S.length (P ++ S ++ R) = some (L ++ R) ∧ L.length = nr ∧
      sorted_by_start L ∧ (pairs L).Perm (pairs (P ++ S)) ∧
      same_order (pairs L) (pairs (P ++ S)) ∧
      L.map (fun r => r.type) = (P ++ S).map (fun r => r.type) := by
  intro k
  induction k with
  | zero =>
    intro P S R hP hnr hS hPS
    refine ⟨P ++ S, rfl, by simp [hP, hnr], ?_, List.Perm.refl _, fun _ => rfl, rfl⟩
    match P, hP with
    | [p], _ =>
      exact List.Pairwise.cons (fun q hq => hPS p (by simp) q hq) hS
  | succ k ih =>
    intro P S R hP hnr hS hPS
    unfold sort_outer
    have hk : nr - S.length - 1 = k + 1 := by omega
    have hin := sort_inner_eq_pass (k + 1) [] (P ++ S ++ R) (by simp; omega)
    simp only [List.length_nil, List.nil_append] at hin
    rw [hk, hin]
    obtain ⟨A, m, h1, h2, h3, h4, h5, h6, h7⟩ := pass_spec (k + 1) (P ++ S ++ R) (by simp; omega)
    have htake : (P ++ S ++ R).take (k + 1 + 1) = P := by
      rw [List.append_assoc, List.take_append_of_le_length (by omega)]
      exact List.take_of_length_le (by omega)
    have hdrop : (P ++ S ++ R).drop (k + 1 + 1) = S ++ R := by
      rw [List.append_assoc, List.drop_append_of_le_length (by omega),
        List.drop_of_length_le (by omega)]
      rfl
    rw [htake] at h3 h5 h6 h7
    rw [hdrop] at h1
    have hmP : ∃ w ∈ P, w.start = m.start := perm_pairs_start h5 m (by simp)
    have hAP : ∀ z ∈ A, ∃ w ∈ P, w.start = z.start :=
      fun z hz => perm_pairs_start h5 z (by simp [hz])
    have hS' : sorted_by_start (m :: S) := by
      refine List.Pairwise.cons ?_ hS
      intro q hq
      obtain ⟨w, hw, hwm⟩ := hmP
      have := hPS w hw q hq
      omega
    have hAS : ∀ p ∈ A, ∀ q ∈ m :: S, p.start ≤ q.start := by
      intro p hp q hq
      rcases List.mem_cons.1 hq with rfl | hq
      · exact h4 p hp
      · obtain ⟨w, hw, hwp⟩ := hAP p hp
        have := hPS w hw q hq
        omega
    obtain ⟨L, g1, g2, g3, g4, g5, g6⟩ := ih A (m :: S) R h2 (by simp; omega) hS' hAS
    have hrew : A ++ m :: (S ++ R) = A ++ (m :: S) ++ R := by simp
    simp only [h1, hrew]
    simp only [List.length_cons] at g1
    refine ⟨L, g1, g2, g3, ?_, ?_, ?_⟩
    · have e1 : pairs (A ++ m :: S) = pairs (A ++ [m]) ++ pairs S := by
        rw [← pairs_append]; simp
      rw [pairs_append P S]
      exact g4.trans (by rw [e1]; exact List.Perm.append_right _ h5)
    · have e1 : pairs (A ++ m :: S) = pairs (A ++ [m]) ++ pairs S := by
        rw [← pairs_append]; simp
      rw [pairs_append P S]
      refine same_order_trans g5 ?_
      rw [e1]
      exact same_order_append_right _ h6
    · rw [g6]
      have e2 : A ++ m :: S = (A ++ [m]) ++ S := by simp
      rw [e2, List.map_append, h7, List.map_append]

/-- The bubble sort on the first `nr` elements of an array. -/
theorem sort_outer_sorts (a : List memory_range) (nr : Nat) (h : nr ≤ a.length) :
    ∃ L, sort_outer nr (nr - 1) 0 a = some (L ++ a.drop nr) ∧ L.length = nr ∧
      sorted_by_start L ∧ (pairs L).Perm (pairs (a.take nr)) ∧
      same_order (pairs L) (pairs (a.take nr)) ∧
      L.map (fun r => r.type) = (a.take nr).map (fun r => r.type) := by
  cases nr with
  | zero =>
    exact ⟨[], by simp [sort_outer], rfl, by simp [sorted_by_start], by simp,
      fun _ => by simp, by simp⟩
  | succ k =>
    have := sort_outer_spec (k + 1) k (a.take (k + 1)) [] (a.drop (k + 1))
      (by simp; omega) (by simp) (by simp [sorted_by_start]) (by simp)
    simpa using this

/-- C8: `sort_ranges` (on the exclusion array) and `sort_base_ranges` (on the base array)
return, on the first `nr` elements, the stable sort by `start`: the `(start, end)` pairs of
the result are a permutation of those of the input, the starts are ascending, and the
entries with equal start keep their input order.  The elements behind the first `nr` and
the `type` fields stay as they are. -/
theorem C8_sort_stable (a : List memory_range) (nr : Nat) (h : nr ≤ a.length) :
    ∃ a1, sort_ranges a nr = some a1 ∧ sort_base_ranges a nr = some a1 ∧
      (pairs (a1.take nr)).Perm (pairs (a.take nr)) ∧
      sorted_by_start (a1.take nr) ∧
      same_order (pairs (a1.take nr)) (pairs (a.take nr)) ∧
      a1.drop nr = a.drop nr ∧ a1.map (fun r => r.type) = a.map (fun r => r.type) := by
  obtain ⟨L, h1, h2, h3, h4, h5, h6⟩ := sort_outer_sorts a nr h
  have ht : (L ++ a.drop nr).take nr = L := by
    rw [List.take_append_of_le_length (by omega)]
    exact List.take_of_length_le (by omega)
  have hd : (L ++ a.drop nr).drop nr = a.drop nr := by
    rw [List.drop_append_of_le_length (by omega), List.drop_of_length_le (by omega)]
    rfl
  refine ⟨L ++ a.drop nr, h1, h1, ?_, ?_, ?_, hd, ?_⟩
  · rw [ht]; exact h4
  · rw [ht]; exact h3
  · rw [ht]; exact h5
  · rw [List.map_append, h6, ← List.map_append, List.take_append_drop]

/-- C8 on an array of five elements of which the first four are sorted. -/
theorem C8_witness :
    ∃ a1, sort_ranges [⟨3, 4, 0⟩, ⟨1, 2, 0⟩, ⟨3, 1, 0⟩, ⟨0, 9, 0⟩, ⟨2, 2, 0⟩] 4 = some a1 ∧
      sort_base_ranges [⟨3, 4, 0⟩, ⟨1, 2, 0⟩, ⟨3, 1, 0⟩, ⟨0, 9, 0⟩, ⟨2, 2, 0⟩] 4 = some a1 ∧
      (pairs (a1.take 4)).Perm
        (pairs (([⟨3, 4, 0⟩, ⟨1, 2, 0⟩, ⟨3, 1, 0⟩, ⟨0, 9, 0⟩, ⟨2, 2, 0⟩] :
          List memory_range).take 4)) ∧
      sorted_by_start (a1.take 4) ∧
      same_order (pairs (a1.take 4))
        (pairs (([⟨3, 4, 0⟩, ⟨1, 2, 0⟩, ⟨3, 1, 0⟩, ⟨0, 9, 0⟩, ⟨2, 2, 0⟩] :
          List memory_range).take 4)) ∧
      a1.drop 4 = ([⟨3, 4, 0⟩, ⟨1, 2, 0⟩, ⟨3, 1, 0⟩, ⟨0, 9, 0⟩, ⟨2, 2, 0⟩] :
        List memory_range).drop 4 ∧
      a1.map (fun r => r.type) =
        ([⟨3, 4, 0⟩, ⟨1, 2, 0⟩, ⟨3, 1, 0⟩, ⟨0, 9, 0⟩, ⟨2, 2, 0⟩] : List memory_range).map
          (fun r => r.type) :=
  C8_sort_stable [⟨3, 4, 0⟩, ⟨1, 2, 0⟩, ⟨3, 1, 0⟩, ⟨0, 9, 0⟩, ⟨2, 2, 0⟩] 4 (by decide)

/-- The sort at a concrete input: the two entries with start `3` keep their order. -/
theorem sort_ranges_example :
    sort_ranges [⟨3, 4, 0⟩, ⟨1, 2, 0⟩, ⟨3, 1, 0⟩, ⟨0, 9, 0⟩, ⟨2, 2, 0⟩] 4 =
      some [⟨0, 9, 0⟩, ⟨1, 2, 0⟩, ⟨3, 4, 0⟩, ⟨3, 1, 0⟩, ⟨2, 2, 0⟩] := by
  decide

/-- What `realloc_memory_ranges` does when every allocation succeeds: the capacity grows by
one, `base_memory_range` holds the uninitialised content of the fresh `malloc` block,
whatever it held before, and is the block of `memory_range` itself unless `realloc` moved
it; `exclude_range` keeps its entries. -/
theorem realloc_memory_ranges_success (h : Heap) (s : State) (hok : ∀ k, h.ok k = true) :
    (realloc_memory_ranges h s).1 = 0 ∧
    (realloc_memory_ranges h s).2.max_memory_ranges = s.max_memory_ranges + 1 ∧
    base_array (realloc_memory_ranges h s).2 =
      (List.range (s.max_memory_ranges + 1)).map (h.junk s.nalloc) ∧
    (realloc_memory_ranges h s).2.link =
      (if h.moves (s.nalloc + 1) then mr_link.dangling else mr_link.shared) ∧
    (∀ i, i < s.exclude_range.length → i < s.max_memory_ranges + 1 →
      (realloc_memory_ranges h s).2.exclude_range[i]? = s.exclude_range[i]?) := by
  have hfresh : (List.range (s.max_memory_ranges + 1)).map
      (fun i => ((List.range (s.max_memory_ranges + 1)).map (h.junk s.nalloc)).getD i
        (h.junk (s.nalloc + 1) i)) =
      (List.range (s.max_memory_ranges + 1)).map (h.junk s.nalloc) := by
    apply List.ext_getElem?
    intro i
    simp only [List.getElem?_map]
    by_cases hi : i < s.max_memory_ranges + 1
    · simp [List.getElem?_range hi, List.getD_eq_getElem?_getD, hi]
    · simp [List.getElem?_eq_none, Nat.le_of_not_lt hi]
  simp only [realloc_memory_ranges, c_malloc, c_realloc, hok, if_true]
  cases hm : h.moves (s.nalloc + 1)
  · simp only [Bool.false_eq_true, if_false]
    refine ⟨by trivial, by trivial, ?_, by trivial, ?_⟩
    · simp only [base_array, if_true]; exact hfresh
    · intro i h1 h2
      simp [List.getElem?_range h2, List.getD_eq_getElem?_getD, h1]
  · simp only [if_true]
    refine ⟨by trivial, by trivial, ?_, by trivial, ?_⟩
    · simp only [base_array]
      rw [if_neg (by decide)]; exact hfresh
    · intro i h1 h2
      simp [List.getElem?_range h2, List.getD_eq_getElem?_getD, h1]

/-- C9 (the code at the failing input): in the state of a machine with one memory node,
with an allocator that succeeds and hands out zero-filled memory, `realloc_memory_ranges`
returns `0` and `max_memory_ranges` grows from `1` to `2`; `exclude_range[0]` is kept, but
`base_memory_range[0]`, which held `[0, 0x10000000]`, is a zero-filled element afterwards. -/
theorem C9_base_ranges_lost :
    (realloc_memory_ranges heap_zero state_one_node).1 = 0 ∧
    state_one_node.max_memory_ranges = 1 ∧
    (realloc_memory_ranges heap_zero state_one_node).2.max_memory_ranges = 2 ∧
    (realloc_memory_ranges heap_zero state_one_node).2.exclude_range[0]? =
      state_one_node.exclude_range[0]? ∧
    (base_array state_one_node)[0]? = some ⟨0, 0x10000000, RANGE_RAM⟩ ∧
    (base_array (realloc_memory_ranges heap_zero state_one_node).2)[0]? =
      some ⟨0, 0, 0⟩ := by
  decide

/-- C10 (the code at the failing input): `reuse_initrd` is set and the `chosen` node has
readable `linux,kernel-end`, `linux,initrd-start` and `linux,initrd-end`.  Without
`linux,htab-base` the call succeeds and the exclusion list is `[0, 0xFFFFFF]` alone: the
initrd region `[0x2000000, 0x2800000]` is missing.  With `linux,htab-base` and
`linux,htab-size` present the initrd region is in the list. -/
theorem C10_initrd_skipped_without_htab :
    (get_memory_ranges_dt (env_of_chosen node_chosen_no_htab) false init_state).map
        (fun r => (r.1, exclusion_list r.2.1)) =
      some (0, [⟨0, 0xFFFFFF, 0⟩]) ∧
    (get_memory_ranges_dt (env_of_chosen node_chosen_htab) false init_state).map
        (fun r => (r.1, exclusion_list r.2.1)) =
      some (0, [⟨0, 0xFFFFFF, 0⟩, ⟨0x2000000, 0x2800000, 0⟩,
        ⟨0x100000000000000, 0x104000000000000, 0⟩]) := by
  decide

/-- C13 (as stated, refuted): for `memory_max = 0x30000000`, `rmo_top = 0x20000000` and
`exclude = [[0,0x0FFF],[0x10000,0x1FFFF]]` the result is not
`[[0x1000,0xFFFF],[0x20000,0x1FFFFFFF]]`. -/
theorem C13_counterexample :
    output_ranges [⟨0, 0x0FFF, 0⟩, ⟨0x10000, 0x1FFFF, 0⟩, zero_range] 2 0x30000000 0x20000000
      [⟨0, 0x30000000, 0⟩, zero_range, zero_range] [zero_range, zero_range, zero_range]
      false ≠ some [⟨0x1000, 0xFFFF, RANGE_RAM⟩, ⟨0x20000, 0x1FFFFFFF, RANGE_RAM⟩] := by
  decide

/-- C13 (amended): for `memory_max = 0x30000000`, `rmo_top = 0x20000000` and
`exclude = [[0,0x0FFF],[0x10000,0x1FFFF]]` the result is exactly
`[[0x1000,0xFFFF],[0x20000,0x20000000]]`: the trailing gap `[0x20000, 0x30000000]` is cut
to end at `rmo_top` itself (line 658), whether `base_memory_range` is a block of its own or
the block of `memory_range`. -/
theorem C13_scenario :
    output_ranges [⟨0, 0x0FFF, 0⟩, ⟨0x10000, 0x1FFFF, 0⟩, zero_range] 2 0x30000000 0x20000000
      [⟨0, 0x30000000, 0⟩, zero_range, zero_range] [zero_range, zero_range, zero_range]
      false = some [⟨0x1000, 0xFFFF, RANGE_RAM⟩, ⟨0x20000, 0x20000000, RANGE_RAM⟩] ∧
    output_ranges [⟨0, 0x0FFF, 0⟩, ⟨0x10000, 0x1FFFF, 0⟩, zero_range] 2 0x30000000 0x20000000
      [⟨0, 0x30000000, 0⟩, zero_range, zero_range] [zero_range, zero_range, zero_range]
      true = some [⟨0x1000, 0xFFFF, RANGE_RAM⟩, ⟨0x20000, 0x20000000, RANGE_RAM⟩] := by
  decide

/-- C20 (as stated, refuted): the exclusion list `[0, 0x5000], [0x100, 0x1FF]` is sorted by
start; with `memory_max = 0x6000` and `rmo_top = 0x7000` the code emits
`[0x5001, 0xFF], [0x200, 0x6000]`, the first of which has `start > end`. -/
theorem C20_counterexample :
    sorted_by_start ([⟨0, 0x5000, 0⟩, ⟨0x100, 0x1FF, 0⟩, zero_range].take 2) ∧
    output_ranges [⟨0, 0x5000, 0⟩, ⟨0x100, 0x1FF, 0⟩, zero_range] 2 0x6000 0x7000
      [⟨0, 0x6000, 0⟩, zero_range, zero_range] [zero_range, zero_range, zero_range] false =
      some [⟨0x5001, 0xFF, 0⟩, ⟨0x200, 0x6000, 0⟩] ∧
    ¬ well_formed [⟨0x5001, 0xFF, 0⟩, ⟨0x200, 0x6000, 0⟩] := by
  decide

/-- C20 (amended): for an exclusion list that is sorted by start, pairwise non-overlapping
and well-formed, whose ranges all end below `memory_max`: (1) in every range list that the
code returns, whatever the size of `memory_range`, every range satisfies `start <= end`,
except possibly the single fallback range `[base[0].start, rmo_top]` (emitted when the loop
ends with `j == 0`), which satisfies it when the two arrays are separate blocks and
`base_memory_range[0].start <= rmo_top`; (2) the code returns a range list when
`memory_range` has one element for each exclusion, and one more when
`exclude[0].start != 0`, and at least one element, and `base_memory_range` has an
element `0`. -/
theorem C20_start_le_end (ex : List memory_range) (n mm rt : Nat)
    (base mr0 : List memory_range) (shared : Bool)
    (hn : n ≤ ex.length) (hU : mm < U64)
    (hs : sorted_by_start (ex.take n)) (hd : non_overlapping (ex.take n))
    (hw : well_formed (ex.take n)) (hm : ∀ x ∈ ex.take n, x.end_ < mm) :
    (∀ out, output_ranges ex n mm rt base mr0 shared = some out →
      (well_formed out ∨ ∃ mr, setup_loop ex n mm rt n 0 mr0 0 = some (mr, 0)) ∧
      (∀ b, shared = false → base[0]? = some b → b.start ≤ rt → well_formed out)) ∧
    (n + (hole (ex.take n)).length ≤ mr0.length → 0 < mr0.length →
      (shared = false → base ≠ []) →
      ∃ out, output_ranges ex n mm rt base mr0 shared = some out) := by
  have hc := chain_of_sorted _ hs hd hw
  refine ⟨?_, ?_⟩
  · intro out hout
    obtain ⟨b0, g0, mr1, hb0, hg0, hloop, heq⟩ :=
      output_ranges_some_eq_synth ex n mm rt base mr0 shared out hn hout
    obtain ⟨g, hg, hsy, -, hwf, -⟩ := synth_regular mm rt ex[n]? b0 hU _ hc hw hm
    rw [hg0] at hg
    simp only [Option.some.injEq] at hg
    subst hg
    rw [hsy] at heq
    simp only [Option.some.injEq] at heq
    rw [← heq]
    refine ⟨?_, ?_⟩
    · by_cases hne : hole (ex.take n) ++ g0 = []
      · right
        rw [hne] at hloop
        exact ⟨mr1, hloop⟩
      · left; rw [if_neg hne]; exact hwf
    · intro b hsh hb hle
      by_cases hne : hole (ex.take n) ++ g0 = []
      · rw [if_pos hne]
        intro r hr
        simp only [List.mem_singleton] at hr
        subst hr
        rw [hb0 hsh b hb]; exact hle
      · rw [if_neg hne]; exact hwf
  · intro hcap hlen hbase
    obtain ⟨g, hg, -, -, -, -⟩ := synth_regular mm rt ex[n]? 0 hU _ hc hw hm
    exact output_ranges_defined ex n mm rt base mr0 shared g hn hcap hg
      (fun _ => ⟨hlen, hbase⟩)

/-- C20 (amended) at the scenario `exclude = [[0,0xFFF],[0x10000,0x1FFFF]]`,
`memory_max = 0x30000000`, `rmo_top = 0x20000000`, with two elements in each of the three
arrays. -/
theorem C20_witness :
    output_ranges [⟨0, 0xFFF, 0⟩, ⟨0x10000, 0x1FFFF, 0⟩] 2 0x30000000 0x20000000
        [⟨0, 0x30000000, 0⟩, zero_range] [zero_range, zero_range] false =
      some [⟨0x1000, 0xFFFF, 0⟩, ⟨0x20000, 0x20000000, 0⟩] ∧
    ((well_formed [⟨0x1000, 0xFFFF, 0⟩, ⟨0x20000, 0x20000000, 0⟩] ∨
        ∃ mr, setup_loop [⟨0, 0xFFF, 0⟩, ⟨0x10000, 0x1FFFF, 0⟩] 2 0x30000000
          0x20000000 2 0 [zero_range, zero_range] 0 = some (mr, 0)) ∧
      (∀ b, false = false → [(⟨0, 0x30000000, 0⟩ : memory_range), zero_range][0]? = some b →
        b.start ≤ 0x20000000 →
        well_formed [⟨0x1000, 0xFFFF, 0⟩, ⟨0x20000, 0x20000000, 0⟩])) ∧
    (∃ out, output_ranges [⟨0, 0xFFF, 0⟩, ⟨0x10000, 0x1FFFF, 0⟩] 2 0x30000000 0x20000000
        [⟨0, 0x30000000, 0⟩, zero_range] [zero_range, zero_range] false = some out) :=
  have h := C20_start_le_end [⟨0, 0xFFF, 0⟩, ⟨0x10000, 0x1FFFF, 0⟩] 2 0x30000000 0x20000000
    [⟨0, 0x30000000, 0⟩, zero_range] [zero_range, zero_range] false
    (by decide) (by decide) (by decide) (by decide) (by decide) (by decide)
  ⟨by decide, h.1 _ (by decide), h.2 (by decide) (by decide) (by decide)⟩

/-- The big-endian fold over `n` bytes stays below `(acc + 1) * 256 ^ n`. -/
theorem be_foldl_lt (l : List Nat) (acc : Nat) :
    l.foldl (fun acc b => acc * 256 + b % 256) acc < (acc + 1) * 256 ^ l.length := by
  induction l generalizing acc with
  | nil => simp
  | cons b l ih =>
    simp only [List.foldl_cons, List.length_cons]
    have h1 := ih (acc * 256 + b % 256)
    have h2 : b % 256 < 256 := Nat.mod_lt _ (by norm_num)
    have h3 : (acc * 256 + b % 256 + 1) * 256 ^ l.length ≤ (acc + 1) * 256 * 256 ^ l.length :=
      Nat.mul_le_mul_right _ (by omega)
    calc _ < _ := h1
      _ ≤ _ := h3
      _ = _ := by ring

/-- A sequence of `n` bytes denotes a number below `256 ^ n`. -/
theorem be_lt (l : List Nat) : be l < 256 ^ l.length := by
  have h := be_foldl_lt l 0
  simpa [be] using h

/-- A successful `fread` of one item of `n` bytes delivers `n` bytes. -/
theorem fread_item_length (b : List Nat) (n : Nat) (it : List Nat)
    (h : fread_item b n = some it) : it.length = n := by
  unfold fread_item at h
  split at h
  · rename_i hc
    simp only [Option.some.injEq] at h
    subst h
    simp [hc.2]
  · simp at h

/-- A value read into an `unsigned long` is below `2 ^ 32`. -/
theorem be_item_lt (b it : List Nat) (h : fread_item b SIZEOF_LONG = some it) :
    be it < U32 := by
  have h1 := be_lt it
  rw [fread_item_length b _ it h] at h1
  exact h1

/-- The scalars `rmo_top`, `mem_min`, `mem_max`, `crash_base` and `crash_size` are not touched by
`realloc_memory_ranges`. -/
theorem realloc_frame (h : Heap) (s : State) :
    (realloc_memory_ranges h s).2.rmo_top = s.rmo_top ∧
    (realloc_memory_ranges h s).2.mem_min = s.mem_min ∧
    (realloc_memory_ranges h s).2.mem_max = s.mem_max ∧
    (realloc_memory_ranges h s).2.crash_base = s.crash_base ∧
    (realloc_memory_ranges h s).2.crash_size = s.crash_size := by
  unfold realloc_memory_ranges
  simp only []
  repeat' split
  all_goals simp

/-- The same scalars are not touched by the conditional reallocation. -/
theorem grow_if_full_frame (h : Heap) (s : State) (i : Nat) :
    (grow_if_full h s i).rmo_top = s.rmo_top ∧
    (grow_if_full h s i).mem_min = s.mem_min ∧
    (grow_if_full h s i).mem_max = s.mem_max ∧
    (grow_if_full h s i).crash_base = s.crash_base ∧
    (grow_if_full h s i).crash_size = s.crash_size := by
  unfold grow_if_full
  split
  · exact realloc_frame h s
  · simp

/-- The initrd part of the `chosen` block leaves the same scalars alone. -/
theorem chosen_initrd_frame (env : Env) (nd : dt_node) (s : State) (i : Nat) (s' : State)
    (i' : Nat) (h : chosen_initrd env nd s i = some (node_result.next s' i')) :
    s'.rmo_top = s.rmo_top ∧ s'.mem_min = s.mem_min ∧ s'.mem_max = s.mem_max ∧
    s'.crash_base = s.crash_base ∧ s'.crash_size = s.crash_size := by
  unfold chosen_initrd at h
  repeat' split at h
  all_goals try simp at h
  · generalize set_start_end _ _ _ _ = r at h
    cases r with
    | none => simp at h
    | some ex =>
      simp only [Option.some.injEq, node_result.next.injEq] at h
      obtain ⟨h1, -⟩ := h
      subst h1
      exact grow_if_full_frame _ _ _
  · obtain ⟨h1, -⟩ := h
    subst h1
    simp

/-- The hash-table part of the `chosen` block leaves the same scalars alone. -/
theorem chosen_htab_frame (env : Env) (nd : dt_node) (s : State) (i : Nat) (s' : State)
    (i' : Nat) (h : chosen_htab env nd s i = some (node_result.next s' i')) :
    s'.rmo_top = s.rmo_top ∧ s'.mem_min = s.mem_min ∧ s'.mem_max = s.mem_max ∧
    s'.crash_base = s.crash_base ∧ s'.crash_size = s.crash_size := by
  unfold chosen_htab at h
  repeat' split at h
  all_goals try simp at h
  · obtain ⟨h1, -⟩ := h
    subst h1
    simp
  · generalize set_start_end _ _ _ _ = r at h
    cases r with
    | none => simp at h
    | some ex =>
      simp only [] at h
      have h2 := chosen_initrd_frame _ _ _ _ _ _ h
      have h3 := grow_if_full_frame env.heap { s with exclude_range := ex } (i + 1)
      simp only [] at h3
      obtain ⟨a1, a2, a3, a4, a5⟩ := h2
      obtain ⟨b1, b2, b3, b4, b5⟩ := h3
      exact ⟨a1.trans b1, a2.trans b2, a3.trans b3, a4.trans b4, a5.trans b5⟩

/-- What `open_prop` returns is what `fopen` returns. -/
theorem open_prop_some (nd : dt_node) (name : String) (r : fopen_result)
    (h : open_prop nd name = some r) : fopen nd name = r := by
  unfold open_prop at h
  split at h
  · simpa using h
  · simp at h

/-- Lines 350-392 when they run to the end: both values read are below `2 ^ 32`, `mem_min`
is raised to `crash_base` and `mem_max` is lowered to `crash_base + crash_size`. -/
theorem chosen_crash_bounds (nd : dt_node) (s s' : State)
    (h : chosen_crash nd true s = some (true, s')) :
    s'.rmo_top = s.rmo_top ∧
    s'.crash_base < U32 ∧ s'.crash_size < U32 ∧
    s'.mem_min = max s.mem_min s'.crash_base ∧
    s'.mem_max = min s.mem_max (s'.crash_base + s'.crash_size) := by
  unfold chosen_crash at h
  simp only [if_true] at h
  cases hb1 : open_prop nd "linux,crashkernel-base" with
  | none => rw [hb1] at h; simp at h
  | some r1 =>
    rw [hb1] at h
    cases r1 with
    | enoent => simp at h
    | error => simp at h
    | file b1 =>
      simp only [] at h
      cases h1 : fread_item b1 SIZEOF_LONG with
      | none => rw [h1] at h; simp at h
      | some it1 =>
        rw [h1] at h
        simp only [] at h
        cases hb2 : open_prop nd "linux,crashkernel-size" with
        | none => rw [hb2] at h; simp at h
        | some r2 =>
          rw [hb2] at h
          cases r2 with
          | enoent => simp at h
          | error => simp at h
          | file b2 =>
            simp only [] at h
            cases h2 : fread_item b2 SIZEOF_LONG with
            | none => rw [h2] at h; simp at h
            | some it2 =>
              rw [h2] at h
              simp only [Option.some.injEq, Prod.mk.injEq, true_and] at h
              have l1 := be_item_lt _ _ h1
              have l2 := be_item_lt _ _ h2
              have l3 : (be it1 + be it2) % U64 = be it1 + be it2 :=
                Nat.mod_eq_of_lt (by simp only [U32, U64] at *; omega)
              subst h
              simp only [reserve, add_usable_mem_rgns]
              refine ⟨?_, ?_, ?_, ?_, ?_⟩
              · repeat' split
                all_goals simp
              · repeat' split
                all_goals simpa using l1
              · repeat' split
                all_goals simpa using l2
              · repeat' split
                all_goals simp
                all_goals omega
              · repeat' split
                all_goals simp [l3] at *
                all_goals omega

/-- What a normal end of the `chosen` block means: `linux,kernel-end` was read and stored
in slot `i`, lines 350-392 ran to the end, and the hash-table part ended normally. -/
theorem chosen_node_next (env : Env) (nd : dt_node) (oc : Bool) (s : State) (i : Nat)
    (s' : State) (i' : Nat) (h : chosen_node env nd oc s i = some (node_result.next s' i')) :
    ∃ b it ex s2, fopen nd "linux,kernel-end" = fopen_result.file b ∧
      fread_item b SIZEOF_LONG = some it ∧
      set_start_end s.exclude_range i 0 (be it) = some ex ∧
      chosen_crash nd oc (grow_if_full env.heap { s with exclude_range := ex } (i + 1)) =
        some (true, s2) ∧
      chosen_htab env nd s2 (i + 1) = some (node_result.next s' i') := by
  unfold chosen_node at h
  cases hk : open_prop nd "linux,kernel-end" with
  | none => rw [hk] at h; simp at h
  | some r =>
    rw [hk] at h
    cases r with
    | enoent => simp at h
    | error => simp at h
    | file b =>
      simp only [] at h
      cases hr : fread_item b SIZEOF_LONG with
      | none => rw [hr] at h; simp at h
      | some it =>
        rw [hr] at h
        simp only [] at h
        cases hx : set_start_end s.exclude_range i 0 (be it) with
        | none => rw [hx] at h; simp at h
        | some ex =>
          rw [hx] at h
          simp only [] at h
          cases hc : chosen_crash nd oc
              (grow_if_full env.heap { s with exclude_range := ex } (i + 1)) with
          | none => rw [hc] at h; simp at h
          | some p =>
            obtain ⟨ok, s2⟩ := p
            rw [hc] at h
            cases ok with
            | false => simp at h
            | true => exact ⟨b, it, ex, s2, open_prop_some _ _ _ hk, hr, hx, hc, h⟩

/-- C19: with `KEXEC_ON_CRASH` set, when the loop body has processed a directory entry
whose name starts with `chosen` without leaving the function, `mem_min` is the maximum of
its old value and `crash_base`, and `mem_max` is the minimum of its old value and
`crash_base + crash_size` (no wraparound: both were read as 32-bit values); hence
`crash_base <= mem_min` and `mem_max <= crash_base + crash_size`. -/
theorem C19_crash_bounds (env : Env) (nd : dt_node) (s : State) (i : Nat) (s' : State)
    (i' : Nat) (hname : starts_with nd.d_name "chosen" = true)
    (h : devtree_node env true nd s i = some (node_result.next s' i')) :
    s'.mem_min = max s.mem_min s'.crash_base ∧
    s'.mem_max = min s.mem_max (s'.crash_base + s'.crash_size) ∧
    s'.crash_base ≤ s'.mem_min ∧ s'.mem_max ≤ s'.crash_base + s'.crash_size := by
  have key : s'.mem_min = max s.mem_min s'.crash_base ∧
      s'.mem_max = min s.mem_max (s'.crash_base + s'.crash_size) := by
    unfold devtree_node at h
    simp only [hname, Bool.true_or, Bool.not_true, Bool.false_eq_true, if_false, if_true] at h
    split at h
    · simp at h
    · split at h
      · simp at h
      · obtain ⟨b, it, ex, s2, -, -, -, hc, hh⟩ := chosen_node_next _ _ _ _ _ _ _ h
        have hg := grow_if_full_frame env.heap { s with exclude_range := ex } (i + 1)
        simp only [] at hg
        have hb := chosen_crash_bounds _ _ _ hc
        have hf := chosen_htab_frame _ _ _ _ _ _ hh
        obtain ⟨-, g2, g3, -, -⟩ := hg
        obtain ⟨-, -, -, b4, b5⟩ := hb
        obtain ⟨-, f2, f3, f4, f5⟩ := hf
        rw [f2, f3, f4, f5, b4, b5, g2, g3]
        exact ⟨rfl, rfl⟩
  refine ⟨key.1, key.2, ?_, ?_⟩
  · rw [key.1]; exact Nat.le_max_right _ _
  · rw [key.2]; exact Nat.min_le_right _ _

/-- C19 at a `chosen` node with a crash kernel region of `0x1000000` bytes at `0x2000000`:
`mem_min` rises from `0` to `0x2000000`, `mem_max` falls from `0xFFFFFFFF` to
`0x3000000`. -/
theorem C19_witness :
    starts_with node_chosen_crash.d_name "chosen" = true ∧
    devtree_node (env_of_chosen node_chosen_crash) true node_chosen_crash state_two_slots 0 =
      some (node_result.next state_after_chosen_crash 1) ∧
    state_after_chosen_crash.mem_min =
      max state_two_slots.mem_min state_after_chosen_crash.crash_base ∧
    state_after_chosen_crash.mem_max = min state_two_slots.mem_max
      (state_after_chosen_crash.crash_base + state_after_chosen_crash.crash_size) ∧
    state_after_chosen_crash.crash_base ≤ state_after_chosen_crash.mem_min ∧
    state_after_chosen_crash.mem_max ≤
      state_after_chosen_crash.crash_base + state_after_chosen_crash.crash_size :=
  ⟨by decide, by decide,
    C19_crash_bounds (env_of_chosen node_chosen_crash) node_chosen_crash state_two_slots 0
      state_after_chosen_crash 1 (by decide) (by decide)⟩

/-- A name that starts with a non-empty string starts with its first character. -/
theorem first_char (name pre : String) (c : Char) (cs : List Char) (hp : pre.data = c :: cs)
    (h : starts_with name pre = true) : name.data.head? = some c := by
  unfold starts_with at h
  rw [hp] at h
  cases hn : name.data with
  | nil => rw [hn] at h; simp [List.isPrefixOf] at h
  | cons a t =>
    rw [hn] at h
    simp only [List.isPrefixOf, Bool.and_eq_true, beq_iff_eq] at h
    simp [h.1]

/-- The name of a memory node passes the filter of line 317 and starts neither with
`chosen` nor with `rtas` nor with `pci@`. -/
theorem memory_not_chosen (nd : dt_node) (h : is_memory_node nd = true) :
    starts_with nd.d_name "chosen" = false ∧ starts_with nd.d_name "rtas" = false ∧
    starts_with nd.d_name "pci@" = false ∧
    (starts_with nd.d_name "memory@" || starts_with nd.d_name "memory") = true := by
  unfold is_memory_node at h
  simp only [Bool.or_eq_true, decide_eq_true_eq] at h
  rcases h with h | h
  · have h1 := first_char nd.d_name "memory@" 'm' _ rfl h
    refine ⟨?_, ?_, ?_, by simp [h]⟩
    · cases hc : starts_with nd.d_name "chosen" with
      | false => rfl
      | true => have h2 := first_char nd.d_name "chosen" 'c' _ rfl hc; rw [h1] at h2; simp at h2
    · cases hc : starts_with nd.d_name "rtas" with
      | false => rfl
      | true => have h2 := first_char nd.d_name "rtas" 'r' _ rfl hc; rw [h1] at h2; simp at h2
    · cases hc : starts_with nd.d_name "pci@" with
      | false => rfl
      | true => have h2 := first_char nd.d_name "pci@" 'p' _ rfl hc; rw [h1] at h2; simp at h2
  · rw [h]; decide

/-- Lines 350-392 do not touch `rmo_top`. -/
theorem chosen_crash_rmo_top (nd : dt_node) (oc : Bool) (s : State) (ok : Bool) (s' : State)
    (h : chosen_crash nd oc s = some (ok, s')) : s'.rmo_top = s.rmo_top := by
  unfold chosen_crash at h
  simp only [reserve, add_usable_mem_rgns] at h
  repeat' split at h
  all_goals try simp at h
  all_goals
    obtain ⟨-, h1⟩ := h
    subst h1
    try rfl

/-- The `chosen` block does not touch `rmo_top`. -/
theorem chosen_node_rmo_top (env : Env) (nd : dt_node) (oc : Bool) (s : State) (i : Nat)
    (s' : State) (i' : Nat) (h : chosen_node env nd oc s i = some (node_result.next s' i')) :
    s'.rmo_top = s.rmo_top := by
  obtain ⟨b, it, ex, s2, -, -, -, hc, hh⟩ := chosen_node_next _ _ _ _ _ _ _ h
  have hg := (grow_if_full_frame env.heap { s with exclude_range := ex } (i + 1)).1
  simp only [] at hg
  rw [(chosen_htab_frame _ _ _ _ _ _ hh).1, chosen_crash_rmo_top _ _ _ _ _ hc, hg]

/-- The `rtas` block does not touch `rmo_top`. -/
theorem rtas_node_rmo_top (nd : dt_node) (oc : Bool) (s : State) (i : Nat)
    (s' : State) (i' : Nat) (h : rtas_node nd oc s i = some (node_result.next s' i')) :
    s'.rmo_top = s.rmo_top := by
  unfold rtas_node at h
  repeat' split at h
  all_goals try simp at h
  all_goals
    generalize set_start_end _ _ _ _ = r at h
    cases r with
    | none => simp at h
    | some ex =>
      simp only [Option.some.injEq, node_result.next.injEq] at h
      obtain ⟨h1, -⟩ := h
      subst h1
      simp [add_usable_mem_rgns]

/-- The `pci@` block does not touch `rmo_top`. -/
theorem pci_node_rmo_top (env : Env) (nd : dt_node) (oc : Bool) (s : State) (i : Nat)
    (s' : State) (i' : Nat) (h : pci_node env nd oc s i = some (node_result.next s' i')) :
    s'.rmo_top = s.rmo_top := by
  unfold pci_node at h
  repeat' split at h
  all_goals try simp at h
  all_goals first
    | rw [← h.1]
    | (generalize set_start_end _ _ _ _ = r at h
       cases r with
       | none => simp at h
       | some ex =>
         simp only [Option.some.injEq, node_result.next.injEq] at h
         obtain ⟨h1, -⟩ := h
         subst h1
         simp [add_usable_mem_rgns])

/-- The memory block sets `rmo_top` to `base + size` of the `reg` pair of its node, limited
to `0x30000000`. -/
theorem memory_node_rmo_top (nd : dt_node) (s : State) (i : Nat)
    (s' : State) (i' : Nat) (h : memory_node nd s i = some (node_result.next s' i')) :
    ∃ base size, reg_pair nd = some (base, size) ∧
      s'.rmo_top = min ((base + size) % U64) 0x30000000 := by
  unfold memory_node at h
  unfold reg_pair
  cases hk : open_prop nd "reg" with
  | none => rw [hk] at h; simp at h
  | some r =>
    rw [hk] at h
    rw [open_prop_some _ _ _ hk]
    cases r with
    | enoent => simp at h
    | error => simp at h
    | file b =>
      simp only [] at h
      split at h
      · simp at h
      · split at h
        · rename_i h8
          simp only [Option.some.injEq, node_result.next.injEq] at h
          refine ⟨be (b.take 4), be ((b.drop 4).take 4), by simp only [if_pos h8], ?_⟩
          rw [← h.1]
          simp only []
          split <;> omega
        · split at h
          · rename_i h8 h16
            simp only [Option.some.injEq, node_result.next.injEq] at h
            refine ⟨be (b.take 8), be ((b.drop 8).take 8),
              by simp only [if_neg h8, if_pos h16], ?_⟩
            rw [← h.1]
            simp only []
            split <;> omega
          · simp at h

/-- One pass of the loop body sets `rmo_top` from the node when it is a memory node and
leaves it alone otherwise. -/
theorem devtree_node_rmo_top (env : Env) (oc : Bool) (nd : dt_node) (s : State) (i : Nat)
    (s' : State) (i' : Nat) (h : devtree_node env oc nd s i = some (node_result.next s' i')) :
    if is_memory_node nd then
      ∃ base size, reg_pair nd = some (base, size) ∧
        s'.rmo_top = min ((base + size) % U64) 0x30000000
    else s'.rmo_top = s.rmo_top := by
  cases hm : is_memory_node nd with
  | true =>
    simp only [if_true]
    obtain ⟨h1, h2, h3, h4⟩ := memory_not_chosen nd hm
    unfold devtree_node at h
    unfold is_memory_node at hm
    simp only [h1, h2, h3, Bool.false_or, Bool.or_false, h4, hm, Bool.not_true,
      Bool.false_eq_true, if_false, if_true] at h
    split at h
    · simp at h
    · split at h
      · simp at h
      · exact memory_node_rmo_top _ _ _ _ _ h
  | false =>
    simp only [Bool.false_eq_true, if_false]
    unfold devtree_node at h
    unfold is_memory_node at hm
    rw [hm] at h
    simp only [Bool.false_eq_true, if_false] at h
    repeat' split at h
    all_goals try simp at h
    · rw [← h.1]
    · exact chosen_node_rmo_top _ _ _ _ _ _ _ h
    · exact rtas_node_rmo_top _ _ _ _ _ _ h
    · exact pci_node_rmo_top _ _ _ _ _ _ _ h
    · rw [← h.1]

/-- The loop leaves `rmo_top` as the last memory node among the entries set it. -/
theorem devtree_loop_rmo_top (env : Env) (oc : Bool) (nodes : List dt_node) (s : State)
    (i : Nat) (s' : State) (i' : Nat)
    (h : devtree_loop env oc nodes s i = some (node_result.next s' i')) :
    match (nodes.filter is_memory_node).getLast? with
    | none => s'.rmo_top = s.rmo_top
    | some nd => ∃ base size, reg_pair nd = some (base, size) ∧
        s'.rmo_top = min ((base + size) % U64) 0x30000000 := by
  induction nodes generalizing s i with
  | nil =>
    simp only [devtree_loop, Option.some.injEq, node_result.next.injEq] at h
    simp [h.1]
  | cons nd rest ih =>
    simp only [devtree_loop] at h
    cases hn : devtree_node env oc nd s i with
    | none => rw [hn] at h; simp at h
    | some r =>
      rw [hn] at h
      cases r with
      | fail s1 => simp at h
      | next s1 i1 =>
        simp only [] at h
        have h1 := devtree_node_rmo_top _ _ _ _ _ _ _ hn
        have h2 := ih _ _ h
        cases hm : is_memory_node nd with
        | false =>
          rw [hm] at h1
          simp only [Bool.false_eq_true, if_false] at h1
          simp only [List.filter_cons, hm, Bool.false_eq_true, if_false]
          cases hl : (rest.filter is_memory_node).getLast? with
          | none => rw [hl] at h2; simp only [] at h2 ⊢; rw [h2, h1]
          | some x => rw [hl] at h2; exact h2
        | true =>
          rw [hm] at h1
          simp only [if_true] at h1
          simp only [List.filter_cons, hm, if_true, List.getLast?_cons]
          cases hl : (rest.filter is_memory_node).getLast? with
          | none =>
            rw [hl] at h2
            simp only [Option.getD_none] at h2 ⊢
            obtain ⟨b, sz, e1, e2⟩ := h1
            exact ⟨b, sz, e1, by rw [h2, e2]⟩
          | some x => rw [hl] at h2; simpa using h2

/-- C14 (as stated, refuted): with the entries `chosen`, `memory@0` (`reg = (0, 0x800000)`)
and `memory@800000` (`reg = (0x800000, 0x800000)`) in this order, `get_devtree_details`
succeeds and leaves `rmo_top = 0x1000000`, while the first memory node enumerated gives
`min (0 + 0x800000, 0x30000000) = 0x800000`. -/
theorem C14_counterexample :
    (get_devtree_details env_kernel_fills_memory false state_two_slots).map
      (fun r => (r.1, r.2.rmo_top)) = some (0, 0x1000000) ∧
    (env_kernel_fills_memory.tree.bind
      (fun nodes => (nodes.filter is_memory_node).head?)).bind reg_pair = some (0, 0x800000) ∧
    min ((0 + 0x800000) % U64) 0x30000000 ≠ 0x1000000 := by
  decide

/-- C14 (amended): when `get_devtree_details` succeeds on a directory with one or more
memory nodes, `rmo_top` equals `min (base + size, 0x30000000)` (the sum taken modulo
`2 ^ 64`) where `(base, size)` is the `reg` pair of the last memory node enumerated: every
memory node overwrites `rmo_top`.  So `rmo_top` never exceeds `0x30000000`. -/
theorem C14_rmo_top_last (env : Env) (oc : Bool) (s : State) (nodes : List dt_node)
    (nd : dt_node) (ht : env.tree = some nodes)
    (hl : (nodes.filter is_memory_node).getLast? = some nd)
    (h : (get_devtree_details env oc s).map Prod.fst = some 0) :
    ∃ base size, reg_pair nd = some (base, size) ∧
      (get_devtree_details env oc s).map (fun r => r.2.rmo_top) =
        some (min ((base + size) % U64) 0x30000000) ∧
      min ((base + size) % U64) 0x30000000 ≤ 0x30000000 := by
  unfold get_devtree_details at h ⊢
  rw [ht] at h ⊢
  simp only [] at h ⊢
  cases hd : devtree_loop env oc nodes s 0 with
  | none => rw [hd] at h; simp at h
  | some r =>
    cases r with
    | fail s1 => rw [hd] at h; simp at h
    | next s1 i1 =>
      have h1 := devtree_loop_rmo_top _ _ _ _ _ _ _ hd
      rw [hl] at h1
      obtain ⟨b, sz, e1, e2⟩ := h1
      refine ⟨b, sz, e1, ?_, Nat.min_le_right _ _⟩
      rw [hd] at h
      simp only [] at h ⊢
      cases hs : sort_ranges s1.exclude_range i1 with
      | none => rw [hs] at h; simp at h
      | some ex => simp [e2]

/-- C14 (amended) on the directory `chosen`, `memory@0`, `memory@800000`: the last memory
node has `reg = (0x800000, 0x800000)` and `rmo_top` is `0x1000000`. -/
theorem C14_witness :
    ∃ base size,
      reg_pair ⟨"memory@800000", true,
        [("reg", prop_file.data (u32_bytes 0x800000 ++ u32_bytes 0x800000))]⟩ =
        some (base, size) ∧
      (get_devtree_details env_kernel_fills_memory false state_two_slots).map
        (fun r => r.2.rmo_top) = some (min ((base + size) % U64) 0x30000000) ∧
      min ((base + size) % U64) 0x30000000 ≤ 0x30000000 :=
  C14_rmo_top_last env_kernel_fills_memory false state_two_slots _ _ rfl (by decide)
    (by decide)

/-- A name that starts with `pci@` starts neither with `chosen` nor with `rtas` and is not
the name of a memory node. -/
theorem pci_not_others (name : String) (h : starts_with name "pci@" = true) :
    starts_with name "chosen" = false ∧ starts_with name "rtas" = false ∧
    starts_with name "memory@" = false ∧ decide (name = "memory") = false := by
  have h1 := first_char name "pci@" 'p' _ rfl h
  refine ⟨?_, ?_, ?_, ?_⟩
  · cases hc : starts_with name "chosen" with
    | false => rfl
    | true => have h2 := first_char name "chosen" 'c' _ rfl hc; rw [h1] at h2; simp at h2
  · cases hc : starts_with name "rtas" with
    | false => rfl
    | true => have h2 := first_char name "rtas" 'r' _ rfl hc; rw [h1] at h2; simp at h2
  · cases hc : starts_with name "memory@" with
    | false => rfl
    | true => have h2 := first_char name "memory@" 'm' _ rfl hc; rw [h1] at h2; simp at h2
  · simp only [decide_eq_false_iff_not]
    intro hn
    rw [hn] at h
    revert h
    decide

/-- When the path of a property fits in `fname`, so does the path of its node. -/
theorem dir_path_fits_of_open (nd : dt_node) (name : String) (r : fopen_result)
    (h : open_prop nd name = some r) : dir_path_fits nd = true := by
  unfold open_prop at h
  split at h
  · rename_i hp
    unfold prop_path_fits at hp
    unfold dir_path_fits
    simp only [decide_eq_true_eq] at hp ⊢
    omega
  · simp at h

/-- Whether lines 350-392 run to the end depends on the node and the flag only. -/
theorem chosen_crash_ok_indep (nd : dt_node) (oc : Bool) (s t : State) :
    (chosen_crash nd oc s).map Prod.fst = (chosen_crash nd oc t).map Prod.fst := by
  unfold chosen_crash
  cases oc with
  | false => rfl
  | true =>
    simp only [if_true]
    cases open_prop nd "linux,crashkernel-base" with
    | none => rfl
    | some r1 =>
      cases r1 with
      | enoent => rfl
      | error => rfl
      | file b1 =>
        simp only []
        cases fread_item b1 SIZEOF_LONG with
        | none => rfl
        | some it1 =>
          simp only []
          cases open_prop nd "linux,crashkernel-size" with
          | none => rfl
          | some r2 =>
            cases r2 with
            | enoent => rfl
            | error => rfl
            | file b2 =>
              simp only []
              cases fread_item b2 SIZEOF_LONG with
              | none => rfl
              | some it2 => simp only [Option.map_some']

/-- The `continue` of lines 400-404 and 553-557, for one pass of the loop body.  (1) For a
`chosen` entry without `linux,htab-base` whose `linux,kernel-end` and, on
`KEXEC_ON_CRASH`, crash kernel properties are read, with slot `i` of `exclude_range`
allocated: the kernel exclusion is stored in slot `i`, the index is left at `i + 1` and the
loop goes on with the next entry.  (2) For a `pci@` entry without `linux,tce-base`: nothing
changes and the loop goes on with the next entry. -/
theorem absent_property_node (env : Env) (oc : Bool) (nd : dt_node)
    (rest : List dt_node) (s : State) (i : Nat) (hdir : nd.is_dir = true) :
    (starts_with nd.d_name "chosen" = true →
      open_prop nd "linux,htab-base" = some fopen_result.enoent →
      ∀ b it r, open_prop nd "linux,kernel-end" = some (fopen_result.file b) →
        fread_item b SIZEOF_LONG = some it → s.exclude_range[i]? = some r →
        (chosen_crash nd oc s).map Prod.fst = some true →
        ∃ s', chosen_crash nd oc (grow_if_full env.heap
              { s with exclude_range := s.exclude_range.set i ⟨0, be it, r.type⟩ }
              (i + 1)) = some (true, s') ∧
          devtree_node env oc nd s i = some (node_result.next s' (i + 1)) ∧
          devtree_loop env oc (nd :: rest) s i = devtree_loop env oc rest s' (i + 1)) ∧
    (starts_with nd.d_name "pci@" = true →
      open_prop nd "linux,tce-base" = some fopen_result.enoent →
      devtree_node env oc nd s i = some (node_result.next s i) ∧
      devtree_loop env oc (nd :: rest) s i = devtree_loop env oc rest s i) := by
  constructor
  · intro hname hh b it r hk hr hx hc
    have hfit := dir_path_fits_of_open _ _ _ hk
    have hc2 := chosen_crash_ok_indep nd oc s (grow_if_full env.heap
      { s with exclude_range := s.exclude_range.set i ⟨0, be it, r.type⟩ } (i + 1))
    rw [hc] at hc2
    cases hcc : chosen_crash nd oc (grow_if_full env.heap
        { s with exclude_range := s.exclude_range.set i ⟨0, be it, r.type⟩ } (i + 1)) with
    | none => rw [hcc] at hc2; simp at hc2
    | some p =>
      obtain ⟨ok, s2⟩ := p
      rw [hcc] at hc2
      simp only [Option.map_some', Option.some.injEq] at hc2
      subst hc2
      have hnode : devtree_node env oc nd s i = some (node_result.next s2 (i + 1)) := by
        unfold devtree_node
        simp only [hname, hdir, hfit, Bool.true_or, Bool.not_true, Bool.false_eq_true,
          if_false, if_true]
        unfold chosen_node
        rw [hk]
        simp only []
        rw [hr]
        simp only [set_start_end, hx, hcc]
        simp only [chosen_htab, hh]
      exact ⟨s2, rfl, hnode, by simp only [devtree_loop, hnode]⟩
  · intro hname hh
    obtain ⟨h1, h2, h3, h4⟩ := pci_not_others nd.d_name hname
    have hfit := dir_path_fits_of_open _ _ _ hh
    have hnode : devtree_node env oc nd s i = some (node_result.next s i) := by
      unfold devtree_node
      simp only [hname, hdir, hfit, h1, h2, h3, h4, Bool.true_or, Bool.or_true, Bool.not_true,
        Bool.false_eq_true, Bool.or_false, if_false, if_true]
      simp only [pci_node, hh]
    exact ⟨hnode, by simp only [devtree_loop, hnode]⟩

/-- An entry that passes the name filter and whose path does not fit in `fname` makes
`strcat` write behind the buffer (line 323): there is no defined result. -/
theorem devtree_node_long_name (env : Env) (oc : Bool) (nd : dt_node) (s : State) (i : Nat)
    (hname : (starts_with nd.d_name "chosen" || starts_with nd.d_name "memory@" ||
      starts_with nd.d_name "memory" || starts_with nd.d_name "pci@" ||
      starts_with nd.d_name "rtas") = true)
    (hlen : dir_path_fits nd = false) : devtree_node env oc nd s i = none := by
  unfold devtree_node
  simp only [hname, hlen, Bool.not_true, Bool.not_false, Bool.false_eq_true, if_false, if_true]

/-- C16 (the code at the failing input): the directory holds `chosen` (with
`linux,kernel-end`, without `linux,htab-base`), `memory@0`, `rtas` and `pci@80000000` (with
`linux,tce-base` and `linux,tce-size`), enumerated in this order; every property read
succeeds.  After the first three entries the index is `2` and `exclude_range` has `2`
elements (`max_memory_ranges = 2`): the `chosen` block reallocated after its store (line
349), the `rtas` block did not.  The `pci@` block then stores into `exclude_range[2]`
(line 582), outside the allocation, so neither `get_devtree_details` nor
`get_memory_ranges_dt` has a defined result.  Without the `pci@` entry the call returns `0`
with the kernel and the rtas exclusion and no hash-table entry, and with a `pci@` entry
without `linux,tce-base` in place of the last two entries it returns `0` with the kernel
exclusion alone. -/
theorem C16_store_past_exclude_range :
    open_prop node_chosen_no_htab "linux,htab-base" = some fopen_result.enoent ∧
    ((get_base_ranges env_pci_after_rtas (state_allocated env_pci_after_rtas init_state)).bind
      (fun r => devtree_loop env_pci_after_rtas false
        [node_chosen_no_htab, node_memory, node_rtas] r.2 0)).map index_and_capacity =
      some (2, 2, 2) ∧
    ((get_base_ranges env_pci_after_rtas (state_allocated env_pci_after_rtas init_state)).bind
      (fun r => get_devtree_details env_pci_after_rtas false r.2)) = none ∧
    get_memory_ranges_dt env_pci_after_rtas false init_state = none ∧
    (get_memory_ranges_dt (env_of_nodes [node_chosen_no_htab, node_memory, node_rtas]) false
      init_state).map (fun r => (r.1, exclusion_list r.2.1)) =
      some (0, [⟨0, 0xFFFFFF, 0⟩, ⟨0x3000000, 0x3010000, 0⟩]) ∧
    (get_memory_ranges_dt env_absent_properties false init_state).map
      (fun r => (r.1, exclusion_list r.2.1)) = some (0, [⟨0, 0xFFFFFF, 0⟩]) := by
  refine ⟨rfl, by decide, by decide, by decide, by decide, by decide⟩

/-- Over entries none of which is a memory node the loop of `get_base_ranges` does nothing. -/
theorem base_loop_no_memory_node (env : Env) (nodes : List dt_node) (s : State) (n : Nat)
    (buf : List Nat) (h : ∀ nd ∈ nodes, is_memory_node nd = false) :
    base_loop env nodes s n buf = some (base_result.next s n buf) := by
  induction nodes with
  | nil => rfl
  | cons nd rest ih =>
    have h1 := h nd (List.mem_cons_self _ _)
    simp only [base_loop, base_node, h1, Bool.not_false, if_true]
    exact ih (fun x hx => h x (List.mem_cons_of_mem _ hx))

/-- When the directory can be opened and holds no memory node, `get_base_ranges` reaches
line 282 with `nr_memory_ranges = 0` and reads `base_memory_range[-1]`, whatever the state:
it has no defined result, and in particular does not return `-1`. -/
theorem get_base_ranges_no_memory_node (env : Env) (nodes : List dt_node) (s : State)
    (ht : env.tree = some nodes) (h : ∀ nd ∈ nodes, is_memory_node nd = false) :
    get_base_ranges env s = none := by
  unfold get_base_ranges
  rw [ht]
  simp only [base_loop_no_memory_node env nodes s 0 env.buf0 h]
  cases sort_base_ranges (base_array s) 0 with
  | none => rfl
  | some b => simp

/-- C12 (the code at the failing input): the directory holds a `chosen` node and no memory
node.  `count_memory_ranges` and `alloc_memory_ranges` return `0` (with an allocator whose
`malloc (0)` succeeds), and `get_base_ranges` does not return `-1`: it reaches line 282
with `nr_memory_ranges = 0` and reads `base_memory_range[-1]`, so that neither it nor
`get_memory_ranges_dt` has a defined result. -/
theorem C12_no_memory_node_not_rejected :
    (count_memory_ranges env_no_memory_node init_state).1 = 0 ∧
    (alloc_memory_ranges env_no_memory_node
      (count_memory_ranges env_no_memory_node init_state).2).1 = 0 ∧
    get_base_ranges env_no_memory_node (state_allocated env_no_memory_node init_state) =
      none ∧
    get_memory_ranges_dt env_no_memory_node false init_state = none := by
  refine ⟨by decide, by decide, ?_, by decide⟩
  exact get_base_ranges_no_memory_node _ _ _ rfl (by decide)

/-- C15 (the code at the failing input): the memory node has `reg = (0, 0x20000000)` encoded
as two 64-bit values.  `get_base_ranges` returns `0` and appends the region `[0, 0]`
(start = upper word of the base, end = start + lower word of the base), not
`[0, 0x20000000]`, and `memory_max` is `0`.  With `reg = (0, 0x10000000)` encoded as two
32-bit values the region appended is `[0, 0x10000000]`. -/
theorem C15_reg64_misread :
    reg_pair node_memory_reg64 = some (0, 0x20000000) ∧
    (get_base_ranges (env_of_memory node_memory_reg64)
        (state_allocated (env_of_memory node_memory_reg64) init_state)).map
      (fun r => (r.1, base_ranges r.2, r.2.memory_max)) =
      some (0, [⟨0, 0, RANGE_RAM⟩], 0) ∧
    reg_pair node_memory = some (0, 0x10000000) ∧
    (get_base_ranges (env_of_memory node_memory)
        (state_allocated (env_of_memory node_memory) init_state)).map
      (fun r => (r.1, base_ranges r.2, r.2.memory_max)) =
      some (0, [⟨0, 0x10000000, RANGE_RAM⟩], 0x10000000) := by
  decide

/-- C18 (the code at the failing input): one memory node `[0, 0x1000000]` and a kernel that
fills it.  The first call of `get_memory_ranges_dt` from the initial state returns the one
range `[0x1000000, 0x1000000]` and leaves `max_memory_ranges = 2`; the second call, made
in the state the first one left, against the same directory and allocator, returns the one
range `[0, 0x1000000]`. -/
theorem C18_second_call_differs :
    (get_memory_ranges_dt env_one_node_full false init_state).map
      (fun r => (r.1, r.2.2, r.2.1.max_memory_ranges)) =
      some (0, some [⟨0x1000000, 0x1000000, 0⟩], 2) ∧
    ((get_memory_ranges_dt env_one_node_full false init_state).bind
      (fun r => get_memory_ranges_dt env_one_node_full false r.2.1)).map
      (fun r => (r.1, r.2.2, r.2.1.max_memory_ranges)) =
      some (0, some [⟨0, 0x1000000, 0⟩], 3) := by
  decide

/-- A compare-and-exchange step keeps the length of the array. -/
theorem swap_step_length (a : List memory_range) (j : Nat) (a1 : List memory_range)
    (h : swap_step a j = some a1) : a1.length = a.length := by
  unfold swap_step at h
  split at h
  · split at h
    · simp only [Option.some.injEq] at h
      subst h
      simp
    · simp only [Option.some.injEq] at h
      subst h
      rfl
  · simp at h

/-- The inner loop of the sort keeps the length of the array. -/
theorem sort_inner_length : ∀ (k j : Nat) (a a1 : List memory_range),
    sort_inner k j a = some a1 → a1.length = a.length
  | 0, _, a, a1, h => by
    simp only [sort_inner, Option.some.injEq] at h
    subst h; rfl
  | k + 1, j, a, a1, h => by
    simp only [sort_inner] at h
    cases hs : swap_step a j with
    | none => rw [hs] at h; simp at h
    | some a2 =>
      rw [hs] at h
      simp only [] at h
      rw [sort_inner_length k (j + 1) a2 a1 h, swap_step_length a j a2 hs]

/-- The outer loop of the sort keeps the length of the array. -/
theorem sort_outer_length (nr : Nat) : ∀ (k i : Nat) (a a1 : List memory_range),
    sort_outer nr k i a = some a1 → a1.length = a.length
  | 0, _, a, a1, h => by
    simp only [sort_outer, Option.some.injEq] at h
    subst h; rfl
  | k + 1, i, a, a1, h => by
    simp only [sort_outer] at h
    cases hs : sort_inner (nr - i - 1) 0 a with
    | none => rw [hs] at h; simp at h
    | some a2 =>
      rw [hs] at h
      simp only [] at h
      rw [sort_outer_length nr k (i + 1) a2 a1 h, sort_inner_length _ _ a a2 hs]

/-- Every end is at most the largest end. -/
theorem le_largest_end (l : List memory_range) : ∀ a ∈ l, a.end_ ≤ largest_end l := by
  induction l with
  | nil => simp
  | cons x l ih =>
    intro a ha
    simp only [largest_end, List.foldr_cons]
    rcases List.mem_cons.1 ha with h | h
    · subst h; exact Nat.le_max_left _ _
    · exact Nat.le_trans (ih a h) (Nat.le_max_right _ _)

/-- The largest end is below every common bound of the ends. -/
theorem largest_end_le (l : List memory_range) (m : Nat) (h : ∀ a ∈ l, a.end_ ≤ m) :
    largest_end l ≤ m := by
  induction l with
  | nil => simp [largest_end]
  | cons x l ih =>
    simp only [largest_end, List.foldr_cons]
    exact Nat.max_le.2 ⟨h x (List.mem_cons_self _ _),
      ih (fun a ha => h a (List.mem_cons_of_mem _ ha))⟩

/-- The largest end is the end that bounds all others. -/
theorem largest_end_eq (l : List memory_range) (m : Nat) (h1 : ∀ a ∈ l, a.end_ ≤ m)
    (h2 : ∃ a ∈ l, a.end_ = m) : largest_end l = m := by
  obtain ⟨a, ha, e⟩ := h2
  exact Nat.le_antisymm (largest_end_le l m h1) (e ▸ le_largest_end l a ha)

/-- A range of one list has, by start and end, a twin in a list with the same pairs. -/
theorem mem_of_pairs_perm {l1 l2 : List memory_range} (h : (pairs l1).Perm (pairs l2))
    (a : memory_range) (ha : a ∈ l1) : ∃ b ∈ l2, b.start = a.start ∧ b.end_ = a.end_ := by
  have h1 : (a.start, a.end_) ∈ pairs l1 := by
    simp only [pairs, List.mem_map]
    exact ⟨a, ha, rfl⟩
  have h2 := h.subset h1
  simp only [pairs, List.mem_map, Prod.mk.injEq] at h2
  exact h2

/-- What was stored through `base_memory_range` is what it points to. -/
theorem base_array_set_base_array (s : State) (a : List memory_range) :
    base_array (set_base_array s a) = a := by
  unfold base_array set_base_array
  split
  · rename_i h; simp [h]
  · rename_i h; simp [h]

/-- In a list sorted by start in which ends follow starts, the last range has the largest
end. -/
theorem sorted_last_largest (L : List memory_range) (last : memory_range)
    (hs : sorted_by_start L) (hl : L.getLast? = some last) (he : ends_follow_starts L) :
    ∀ a ∈ L, a.end_ ≤ last.end_ := by
  intro a ha
  have hlm : last ∈ L := List.mem_of_getLast?_eq_some hl
  apply he a ha last hlm
  obtain ⟨pre, rfl⟩ : ∃ pre, L = pre ++ [last] := by
    have hne : L ≠ [] := by intro h; rw [h] at hl; simp at hl
    refine ⟨L.dropLast, ?_⟩
    have := List.dropLast_append_getLast hne
    rw [List.getLast?_eq_getLast _ hne] at hl
    simp only [Option.some.injEq] at hl
    rw [hl] at this
    exact this.symm
  rcases List.mem_append.1 ha with h | h
  · unfold sorted_by_start at hs
    rw [List.pairwise_append] at hs
    exact hs.2.2 a h last (List.mem_singleton_self _)
  · simp only [List.mem_singleton] at h
    rw [h]

/-- What a return value `0` of `get_base_ranges` means: the loop ran over all entries and
stored `n >= 1` ranges inside the allocation, these were sorted by start, and `memory_max`
is the end of the last of them. -/
theorem get_base_ranges_success (env : Env) (s : State)
    (h : (get_base_ranges env s).map Prod.fst = some 0) :
    ∃ nodes s1 n buf L, env.tree = some nodes ∧
      base_loop env nodes s 0 env.buf0 = some (base_result.next s1 n buf) ∧
      0 < n ∧ n ≤ (base_array s1).length ∧
      sort_base_ranges (base_array s1) n = some (L ++ (base_array s1).drop n) ∧
      L.length = n ∧ sorted_by_start L ∧
      (pairs L).Perm (pairs ((base_array s1).take n)) ∧
      ∃ last, L.getLast? = some last ∧
        get_base_ranges env s = some (0,
          { set_base_array s1 (L ++ (base_array s1).drop n) with
            nr_memory_ranges := n, memory_max := last.end_ }) := by
  unfold get_base_ranges at h ⊢
  cases ht : env.tree with
  | none => rw [ht] at h; simp at h
  | some nodes =>
    rw [ht] at h
    simp only [] at h ⊢
    cases hb : base_loop env nodes s 0 env.buf0 with
    | none => rw [hb] at h; simp at h
    | some r =>
      rw [hb] at h
      cases r with
      | fail s1 => simp at h
      | next s1 n buf =>
        simp only [] at h ⊢
        cases hs : sort_base_ranges (base_array s1) n with
        | none => rw [hs] at h; simp at h
        | some b =>
          rw [hs] at h
          simp only [] at h ⊢
          by_cases hn : n = 0
          · rw [if_pos hn] at h; simp at h
          · rw [if_neg hn] at h ⊢
            cases hl : b[n - 1]? with
            | none => rw [hl] at h; simp at h
            | some last =>
              have hlen := sort_outer_length n (n - 1) 0 _ _ hs
              have hlt : n - 1 < b.length := by
                by_contra hc
                rw [List.getElem?_eq_none (Nat.le_of_not_lt hc)] at hl
                simp at hl
              have hle : n ≤ (base_array s1).length := by omega
              obtain ⟨L, h1, h2, h3, h4, -, -⟩ := sort_outer_sorts (base_array s1) n hle
              unfold sort_base_ranges at hs
              rw [h1] at hs
              simp only [Option.some.injEq] at hs
              subst hs
              have hlast : L.getLast? = some last := by
                rw [List.getElem?_append_left (by omega)] at hl
                rw [List.getLast?_eq_getElem?, h2]
                exact hl
              refine ⟨nodes, s1, n, buf, L, rfl, hb, by omega, hle, ?_, h2, h3, h4, last,
                hlast, ?_⟩
              · unfold sort_base_ranges; exact h1
              · rfl

/-- The base ranges of the state that `get_base_ranges` returns are the sorted ranges. -/
theorem base_ranges_after (s1 : State) (L R : List memory_range) (n m : Nat)
    (hL : L.length = n) :
    base_ranges { set_base_array s1 (L ++ R) with nr_memory_ranges := n, memory_max := m } =
      L := by
  have h1 : base_array
      { set_base_array s1 (L ++ R) with nr_memory_ranges := n, memory_max := m } = L ++ R := by
    unfold base_array set_base_array
    split
    · rename_i h; simp [h]
    · rename_i h; simp [h]
  unfold base_ranges
  rw [h1]
  simp [← hL]

/-- That ends follow starts depends on the `(start, end)` pairs only, not on their order. -/
theorem ends_follow_starts_of_perm {l1 l2 : List memory_range}
    (h : (pairs l1).Perm (pairs l2)) (he : ends_follow_starts l2) : ends_follow_starts l1 := by
  intro a ha b hb hab
  obtain ⟨a2, ha2, e1, e2⟩ := mem_of_pairs_perm h a ha
  obtain ⟨b2, hb2, e3, e4⟩ := mem_of_pairs_perm h b hb
  have := he a2 ha2 b2 hb2 (by omega)
  omega

/-- C11 (amended): when `get_base_ranges` returns `0`, it has collected at least one base
range, the base ranges it leaves are those collected by the loop, sorted ascending by
start, and `memory_max` equals the end of the last of them (the one with the highest
start).  It equals the largest end over all collected base ranges whenever, of any two
collected ranges, the one that starts no later also ends no later. -/
theorem C11_memory_max_last (env : Env) (s : State)
    (h : (get_base_ranges env s).map Prod.fst = some 0) :
    ∃ s' nodes s1 buf last, get_base_ranges env s = some (0, s') ∧
      env.tree = some nodes ∧
      base_loop env nodes s 0 env.buf0 =
        some (base_result.next s1 s'.nr_memory_ranges buf) ∧
      0 < s'.nr_memory_ranges ∧
      (pairs (base_ranges s')).Perm (pairs ((base_array s1).take s'.nr_memory_ranges)) ∧
      sorted_by_start (base_ranges s') ∧
      (base_ranges s').getLast? = some last ∧
      s'.memory_max = last.end_ ∧
      (ends_follow_starts ((base_array s1).take s'.nr_memory_ranges) →
        s'.memory_max = largest_end ((base_array s1).take s'.nr_memory_ranges)) := by
  obtain ⟨nodes, s1, n, buf, L, ht, hb, hn, hle, hs, hL, hsort, hperm, last, hlast, hres⟩ :=
    get_base_ranges_success env s h
  have hbr := base_ranges_after s1 L ((base_array s1).drop n) n last.end_ hL
  refine ⟨_, nodes, s1, buf, last, hres, ht, hb, hn, ?_, ?_, ?_, rfl, ?_⟩
  · rw [hbr]; exact hperm
  · rw [hbr]; exact hsort
  · rw [hbr]; exact hlast
  · intro he
    have heL := ends_follow_starts_of_perm hperm he
    have hall := sorted_last_largest L last hsort hlast heL
    symm
    apply largest_end_eq
    · intro c hc
      obtain ⟨a, ha, -, e2⟩ := mem_of_pairs_perm hperm.symm c hc
      have := hall a ha
      show c.end_ ≤ last.end_
      omega
    · obtain ⟨c, hc, -, e2⟩ := mem_of_pairs_perm hperm last (List.mem_of_getLast?_eq_some hlast)
      exact ⟨c, hc, e2⟩

/-- C11 (as stated, refuted): with the memory nodes `reg = (0, 0x4000)` and
`reg = (0x1000, 0x1000)`, `get_base_ranges` returns `0`, the base ranges are `[0, 0x4000]`
and `[0x1000, 0x2000]`, and `memory_max` is `0x2000` while the largest end is `0x4000`. -/
theorem C11_counterexample :
    (get_base_ranges env_nested_memory (state_allocated env_nested_memory init_state)).map
      (fun r => (r.1, base_ranges r.2, r.2.memory_max, largest_end (base_ranges r.2))) =
      some (0, [⟨0, 0x4000, RANGE_RAM⟩, ⟨0x1000, 0x2000, RANGE_RAM⟩], 0x2000, 0x4000) := by
  decide

/-- C11 (amended) on the directory with the memory nodes `reg = (0, 0x800000)` and
`reg = (0x800000, 0x800000)`, where `memory_max` and the largest end are `0x1000000`. -/
theorem C11_witness :
    ∃ s' nodes s1 buf last,
      get_base_ranges env_kernel_fills_memory
        (state_allocated env_kernel_fills_memory init_state) = some (0, s') ∧
      env_kernel_fills_memory.tree = some nodes ∧
      base_loop env_kernel_fills_memory nodes
          (state_allocated env_kernel_fills_memory init_state) 0
          env_kernel_fills_memory.buf0 =
        some (base_result.next s1 s'.nr_memory_ranges buf) ∧
      0 < s'.nr_memory_ranges ∧
      (pairs (base_ranges s')).Perm (pairs ((base_array s1).take s'.nr_memory_ranges)) ∧
      sorted_by_start (base_ranges s') ∧
      (base_ranges s').getLast? = some last ∧
      s'.memory_max = last.end_ ∧
      (ends_follow_starts ((base_array s1).take s'.nr_memory_ranges) →
        s'.memory_max = largest_end ((base_array s1).take s'.nr_memory_ranges)) ∧
      s'.memory_max = 0x1000000 ∧ largest_end (base_ranges s') = 0x1000000 := by
  obtain ⟨s', nodes, s1, buf, last, h1, h2⟩ := C11_memory_max_last env_kernel_fills_memory
    (state_allocated env_kernel_fills_memory init_state) (by decide)
  have h3 : (get_base_ranges env_kernel_fills_memory
      (state_allocated env_kernel_fills_memory init_state)).map
      (fun r => (r.2.memory_max, largest_end (base_ranges r.2))) =
      some (0x1000000, 0x1000000) := by decide
  rw [h1] at h3
  simp only [Option.map_some', Option.some.injEq, Prod.mk.injEq] at h3
  exact ⟨s', nodes, s1, buf, last, h1, by
    obtain ⟨a1, a2, a3, a4, a5, a6, a7, a8⟩ := h2
    exact ⟨a1, a2, a3, a4, a5, a6, a7, a8, h3.1, h3.2⟩⟩

/-- On a `chosen` entry whose `linux,kernel-end` cannot be read the loop body leaves
`get_devtree_details` with `return -1`, the state unchanged, when the path of the property
fits in `fname`. -/
theorem chosen_unreadable_fails (env : Env) (oc : Bool) (nd : dt_node) (s : State) (i : Nat)
    (hname : starts_with nd.d_name "chosen" = true) (hbad : kernel_end_unreadable nd = true)
    (hfit : prop_path_fits nd "linux,kernel-end" = true) :
    devtree_node env oc nd s i = some (node_result.fail s) := by
  have hopen : open_prop nd "linux,kernel-end" = some (fopen nd "linux,kernel-end") := by
    unfold open_prop; rw [if_pos hfit]
  have hdir := dir_path_fits_of_open _ _ _ hopen
  unfold devtree_node
  simp only [hname, hdir, Bool.true_or, Bool.not_true, Bool.false_eq_true, if_false, if_true]
  cases hd : nd.is_dir with
  | false => simp
  | true =>
    simp only [Bool.not_true, Bool.false_eq_true, if_false]
    unfold chosen_node
    rw [hopen]
    unfold kernel_end_unreadable at hbad
    cases hk : fopen nd "linux,kernel-end" with
    | enoent => rfl
    | error => rfl
    | file b =>
      rw [hk] at hbad
      simp only [Option.isNone_iff_eq_none] at hbad
      simp only [hbad]

/-- On such an entry the loop body never goes on to the next entry. -/
theorem chosen_unreadable_not_next (env : Env) (oc : Bool) (nd : dt_node) (s : State)
    (i : Nat) (hname : starts_with nd.d_name "chosen" = true)
    (hbad : kernel_end_unreadable nd = true) (s' : State) (i' : Nat) :
    devtree_node env oc nd s i ≠ some (node_result.next s' i') := by
  intro h
  unfold devtree_node at h
  simp only [hname, Bool.true_or, Bool.not_true, Bool.false_eq_true, if_false, if_true] at h
  split at h
  · simp at h
  · split at h
    · simp at h
    · obtain ⟨b, it, -, -, hk, hr, -⟩ := chosen_node_next _ _ _ _ _ _ _ h
      unfold kernel_end_unreadable at hbad
      rw [hk] at hbad
      simp [hr] at hbad

/-- The loop over a directory that holds such an entry never ends normally. -/
theorem devtree_loop_never_succeeds (env : Env) (oc : Bool) (nd : dt_node)
    (post : List dt_node) (hname : starts_with nd.d_name "chosen" = true)
    (hbad : kernel_end_unreadable nd = true) :
    ∀ (pre : List dt_node) (s : State) (i : Nat) (s' : State) (i' : Nat),
      devtree_loop env oc (pre ++ nd :: post) s i ≠ some (node_result.next s' i')
  | [], s, i, s', i' => by
    simp only [List.nil_append, devtree_loop]
    cases hx : devtree_node env oc nd s i with
    | none => simp
    | some r =>
      cases r with
      | fail s1 => simp
      | next s1 i1 => exact absurd hx (chosen_unreadable_not_next env oc nd s i hname hbad s1 i1)
  | x :: pre, s, i, s', i' => by
    simp only [List.cons_append, devtree_loop]
    cases hx : devtree_node env oc x s i with
    | none => simp
    | some r =>
      cases r with
      | fail s1 => simp
      | next s1 i1 =>
        simp only []
        exact devtree_loop_never_succeeds env oc nd post hname hbad pre s1 i1 s' i'

/-- On such a directory `get_devtree_details` returns `-1` whenever it returns. -/
theorem get_devtree_details_fails (env : Env) (oc : Bool) (pre : List dt_node)
    (nd : dt_node) (post : List dt_node) (s : State)
    (ht : env.tree = some (pre ++ nd :: post))
    (hname : starts_with nd.d_name "chosen" = true)
    (hbad : kernel_end_unreadable nd = true) (r : Int × State)
    (h : get_devtree_details env oc s = some r) : r.1 = -1 := by
  unfold get_devtree_details at h
  rw [ht] at h
  simp only [] at h
  cases hl : devtree_loop env oc (pre ++ nd :: post) s 0 with
  | none => rw [hl] at h; simp at h
  | some x =>
    cases x with
    | fail s1 =>
      rw [hl] at h
      simp only [Option.some.injEq] at h
      rw [← h]
    | next s1 i1 =>
      exact absurd hl (devtree_loop_never_succeeds env oc nd post hname hbad pre s 0 s1 i1)

/-- The exit `out:` returns `-1`. -/
theorem setup_out_fails (s : State) (r : Int × State) (h : setup_out s = some r) :
    r.1 = -1 := by
  unfold setup_out at h
  cases hc : cleanup_memory_ranges s with
  | none => rw [hc] at h; simp at h
  | some s1 =>
    rw [hc] at h
    simp only [Option.some.injEq] at h
    rw [← h]

/-- On such a directory `setup_memory_ranges` returns `-1` whenever it returns. -/
theorem setup_memory_ranges_fails (env : Env) (oc : Bool) (pre : List dt_node)
    (nd : dt_node) (post : List dt_node) (s : State)
    (ht : env.tree = some (pre ++ nd :: post))
    (hname : starts_with nd.d_name "chosen" = true)
    (hbad : kernel_end_unreadable nd = true) (r : Int × State)
    (h : setup_memory_ranges env oc s = some r) : r.1 = -1 := by
  unfold setup_memory_ranges at h
  cases hb : get_base_ranges env s with
  | none => rw [hb] at h; simp at h
  | some x =>
    obtain ⟨r1, s1⟩ := x
    rw [hb] at h
    simp only [] at h
    by_cases h1 : r1 ≠ 0
    · rw [if_pos h1] at h
      exact setup_out_fails _ _ h
    · rw [if_neg h1] at h
      cases hd : get_devtree_details env oc s1 with
      | none => rw [hd] at h; simp at h
      | some y =>
        obtain ⟨r2, s2⟩ := y
        rw [hd] at h
        simp only [] at h
        have h2 : r2 = -1 := get_devtree_details_fails env oc pre nd post s1 ht hname hbad _ hd
        rw [if_pos (by rw [h2]; decide)] at h
        exact setup_out_fails _ _ h

/-- On such a directory `get_memory_ranges_dt` returns `-1` and assigns no range list
whenever it returns. -/
theorem get_memory_ranges_dt_fails (env : Env) (oc : Bool) (pre : List dt_node)
    (nd : dt_node) (post : List dt_node) (s : State)
    (ht : env.tree = some (pre ++ nd :: post))
    (hname : starts_with nd.d_name "chosen" = true)
    (hbad : kernel_end_unreadable nd = true) (r : Int × State × Option (List memory_range))
    (h : get_memory_ranges_dt env oc s = some r) : r.1 = -1 ∧ r.2.2 = none := by
  unfold get_memory_ranges_dt at h
  simp only [] at h
  split at h
  · simp only [Option.some.injEq] at h
    rw [← h]; exact ⟨rfl, rfl⟩
  · split at h
    · simp only [Option.some.injEq] at h
      rw [← h]; exact ⟨rfl, rfl⟩
    · cases hs : setup_memory_ranges env oc
          (alloc_memory_ranges env (count_memory_ranges env s).2).2 with
      | none => rw [hs] at h; simp at h
      | some x =>
        obtain ⟨r3, s3⟩ := x
        rw [hs] at h
        simp only [] at h
        have h3 : r3 = -1 := setup_memory_ranges_fails env oc pre nd post _ ht hname hbad _ hs
        rw [if_pos (by rw [h3]; decide)] at h
        simp only [Option.some.injEq] at h
        rw [← h]; exact ⟨rfl, rfl⟩

/-- An entry that is neither `chosen` nor `rtas` nor `pci@`, whose path fits in `fname`,
with a `reg` property of fewer than `MAXBYTES` bytes when it is a memory node, changes at
most `rmo_top`. -/
theorem devtree_node_plain (env : Env) (oc : Bool) (x : dt_node) (s : State) (i : Nat)
    (hc : starts_with x.d_name "chosen" = false) (hr : starts_with x.d_name "rtas" = false)
    (hp : starts_with x.d_name "pci@" = false) (hfit : dir_path_fits x = true)
    (hm : is_memory_node x = true → reg_present x = true) :
    devtree_node env oc x s i = some (node_result.fail s) ∨
    ∃ rt, devtree_node env oc x s i = some (node_result.next { s with rmo_top := rt } i) := by
  unfold devtree_node
  simp only [hc, hr, hp, hfit, Bool.false_or, Bool.or_false, Bool.false_eq_true, if_false,
    Bool.not_true]
  by_cases h1 : (!(starts_with x.d_name "memory@" || starts_with x.d_name "memory")) = true
  · rw [if_pos h1]
    exact Or.inr ⟨s.rmo_top, rfl⟩
  · rw [if_neg h1]
    by_cases h2 : (!x.is_dir) = true
    · rw [if_pos h2]; exact Or.inl rfl
    · rw [if_neg h2]
      by_cases h3 : (starts_with x.d_name "memory@" || decide (x.d_name = "memory")) = true
      · rw [if_pos h3]
        have h4 := hm h3
        unfold reg_present at h4
        simp only [Bool.and_eq_true] at h4
        obtain ⟨h5, h4⟩ := h4
        unfold memory_node open_prop
        rw [if_pos h5]
        cases hk : fopen x "reg" with
        | enoent => exact Or.inl rfl
        | error => exact Or.inl rfl
        | file b =>
          rw [hk] at h4
          simp only [decide_eq_true_eq] at h4
          simp only []
          rw [if_neg (by omega)]
          by_cases h8 : b.length = 8
          · rw [if_pos h8]; exact Or.inr ⟨_, rfl⟩
          · rw [if_neg h8]
            by_cases h16 : b.length = 16
            · rw [if_pos h16]; exact Or.inr ⟨_, rfl⟩
            · rw [if_neg h16]; exact Or.inl rfl
      · rw [if_neg h3]
        exact Or.inr ⟨s.rmo_top, rfl⟩

/-- When only such entries precede a `chosen` entry whose `linux,kernel-end` cannot be read,
the loop ends with `return -1` and `memory_range` and `base_memory_range` stand to each
other as before. -/
theorem devtree_loop_fails (env : Env) (oc : Bool) (nd : dt_node)
    (post : List dt_node) (hname : starts_with nd.d_name "chosen" = true)
    (hbad : kernel_end_unreadable nd = true)
    (hfit : prop_path_fits nd "linux,kernel-end" = true) :
    ∀ (pre : List dt_node) (s : State) (i : Nat),
      (∀ x ∈ pre, starts_with x.d_name "chosen" = false ∧
        starts_with x.d_name "rtas" = false ∧ starts_with x.d_name "pci@" = false ∧
        dir_path_fits x = true ∧
        (is_memory_node x = true → reg_present x = true)) →
      ∃ s1, devtree_loop env oc (pre ++ nd :: post) s i = some (node_result.fail s1) ∧
        s1.link = s.link
  | [], s, i, _ => by
    refine ⟨s, ?_, rfl⟩
    simp [devtree_loop, chosen_unreadable_fails env oc nd s i hname hbad hfit]
  | x :: pre, s, i, h => by
    obtain ⟨hc, hr, hp, hf, hm⟩ := h x (List.mem_cons_self _ _)
    simp only [List.cons_append, devtree_loop]
    rcases devtree_node_plain env oc x s i hc hr hp hf hm with h1 | ⟨rt, h1⟩
    · rw [h1]; exact ⟨s, rfl, rfl⟩
    · rw [h1]
      simp only []
      obtain ⟨s1, e1, e2⟩ := devtree_loop_fails env oc nd post hname hbad hfit pre
        { s with rmo_top := rt } i (fun y hy => h y (List.mem_cons_of_mem _ hy))
      exact ⟨s1, e1, e2⟩

/-- The loop body of `get_base_ranges` while the arrays have room: no reallocation, the
store stays inside `base_memory_range`. -/
theorem base_node_capacity (env : Env) (x : dt_node) (s : State) (n : Nat) (buf : List Nat)
    (hl : s.link = mr_link.separate) (hlen : s.base_memory_range.length = s.max_memory_ranges)
    (hn : is_memory_node x = true → n < s.max_memory_ranges ∧ reg_present x = true) :
    (∃ s1, base_node env x s n buf = some (base_result.fail s1) ∧
      s1.link = mr_link.separate) ∨
    ∃ s1 buf1, base_node env x s n buf =
        some (base_result.next s1 (if is_memory_node x then n + 1 else n) buf1) ∧
      s1.link = mr_link.separate ∧ s1.base_memory_range.length = s1.max_memory_ranges ∧
      s1.max_memory_ranges = s.max_memory_ranges := by
  unfold base_node
  cases hm : is_memory_node x with
  | false =>
    simp only [Bool.not_false, if_true, Bool.false_eq_true, if_false]
    exact Or.inr ⟨s, buf, rfl, hl, hlen, rfl⟩
  | true =>
    obtain ⟨h1, h2⟩ := hn hm
    unfold reg_present at h2
    simp only [Bool.and_eq_true] at h2
    obtain ⟨hp, h2⟩ := h2
    have hdir : dir_path_fits x = true := by
      unfold prop_path_fits at hp
      unfold dir_path_fits
      simp only [decide_eq_true_eq] at hp ⊢
      omega
    simp only [hdir, hp, Bool.not_true, Bool.false_eq_true, if_false, if_true]
    by_cases hd : (!x.is_dir) = true
    · rw [if_pos hd]; exact Or.inl ⟨s, rfl, hl⟩
    · rw [if_neg hd]
      cases hk : fopen x "reg" with
      | enoent => rw [hk] at h2; simp at h2
      | error => exact Or.inl ⟨s, rfl, hl⟩
      | file b =>
        right
        simp only []
        have hr : (if n ≥ s.max_memory_ranges then realloc_memory_ranges env.heap s
            else (0, s)) = (0, s) := if_neg (by omega)
        simp only [hr, Int.lt_irrefl, if_false]
        have hba : base_array s = s.base_memory_range := by
          unfold base_array; rw [hl]; simp
        rw [hba, if_pos (by omega)]
        refine ⟨_, _, rfl, ?_, ?_, ?_⟩
        · unfold set_base_array; rw [hl]; simp [hl]
        · unfold set_base_array; rw [hl]; simp [hlen]
        · unfold set_base_array; rw [hl]; simp

/-- The loop of `get_base_ranges` when `max_memory_ranges` covers the memory nodes left and
every memory node has a `reg` entry: it returns `-1` or stores one range per memory
node, without reallocation. -/
theorem base_loop_capacity (env : Env) :
    ∀ (nodes : List dt_node) (s : State) (n : Nat) (buf : List Nat),
      s.link = mr_link.separate → s.base_memory_range.length = s.max_memory_ranges →
      n + (nodes.filter is_memory_node).length ≤ s.max_memory_ranges →
      (∀ x ∈ nodes, is_memory_node x = true → reg_present x = true) →
      (∃ s1, base_loop env nodes s n buf = some (base_result.fail s1) ∧
        s1.link = mr_link.separate) ∨
      ∃ s1 buf1, base_loop env nodes s n buf =
          some (base_result.next s1 (n + (nodes.filter is_memory_node).length) buf1) ∧
        s1.link = mr_link.separate ∧ s1.base_memory_range.length = s1.max_memory_ranges ∧
        s1.max_memory_ranges = s.max_memory_ranges
  | [], s, n, buf, hl, hlen, _, _ => Or.inr ⟨s, buf, rfl, hl, hlen, rfl⟩
  | x :: rest, s, n, buf, hl, hlen, hcap, hreg => by
    have hx : is_memory_node x = true → n < s.max_memory_ranges ∧ reg_present x = true := by
      intro hm
      refine ⟨?_, hreg x (List.mem_cons_self _ _) hm⟩
      simp only [List.filter_cons, hm, if_true, List.length_cons] at hcap
      omega
    simp only [base_loop]
    rcases base_node_capacity env x s n buf hl hlen hx with ⟨s1, e1, e2⟩ | ⟨s1, buf1, e1, e2, e3, e4⟩
    · rw [e1]; exact Or.inl ⟨s1, rfl, e2⟩
    · rw [e1]
      simp only []
      have hcap2 : (if is_memory_node x = true then n + 1 else n) +
          (rest.filter is_memory_node).length ≤ s1.max_memory_ranges := by
        rw [e4]
        cases hm : is_memory_node x with
        | false =>
          simp only [List.filter_cons, hm, Bool.false_eq_true, if_false] at hcap ⊢
          exact hcap
        | true =>
          simp only [List.filter_cons, hm, if_true, List.length_cons] at hcap ⊢
          omega
      rcases base_loop_capacity env rest s1 _ buf1 e2 e3 hcap2
        (fun y hy => hreg y (List.mem_cons_of_mem _ hy)) with ⟨s2, f1, f2⟩ | ⟨s2, buf2, f1, f2, f3, f4⟩
      · exact Or.inl ⟨s2, f1, f2⟩
      · refine Or.inr ⟨s2, buf2, ?_, f2, f3, f4.trans e4⟩
        rw [f1]
        cases hm : is_memory_node x with
        | false => simp [List.filter_cons, hm]
        | true =>
          simp only [List.filter_cons, hm, if_true, List.length_cons]
          congr 2
          omega

/-- After `alloc_memory_ranges`, on a directory with at least one memory node in which
every memory node has a `reg` entry, `get_base_ranges` returns, and the arrays are still
separate blocks. -/
theorem get_base_ranges_defined (env : Env) (nodes : List dt_node) (s : State)
    (ht : env.tree = some nodes)
    (hl : s.link = mr_link.separate) (hlen : s.base_memory_range.length = s.max_memory_ranges)
    (hcap : (nodes.filter is_memory_node).length ≤ s.max_memory_ranges)
    (hpos : 0 < (nodes.filter is_memory_node).length)
    (hreg : ∀ x ∈ nodes, is_memory_node x = true → reg_present x = true) :
    ∃ r s1, get_base_ranges env s = some (r, s1) ∧ s1.link = mr_link.separate := by
  unfold get_base_ranges
  rw [ht]
  simp only []
  rcases base_loop_capacity env nodes s 0 env.buf0 hl hlen (by omega) hreg with
    ⟨s1, e1, e2⟩ | ⟨s1, buf1, e1, e2, e3, e4⟩
  · rw [e1]; exact ⟨_, s1, rfl, e2⟩
  · rw [e1]
    simp only [Nat.zero_add]
    have hba : base_array s1 = s1.base_memory_range := by
      unfold base_array; rw [e2]; simp
    have hle : (nodes.filter is_memory_node).length ≤ (base_array s1).length := by
      rw [hba, e3, e4]; exact hcap
    obtain ⟨L, h1, h2, -⟩ := sort_outer_sorts (base_array s1) _ hle
    unfold sort_base_ranges
    rw [h1]
    simp only []
    rw [if_neg (by omega)]
    have hlt : (nodes.filter is_memory_node).length - 1 < L.length := by omega
    rw [List.getElem?_append_left hlt, List.getElem?_eq_getElem hlt]
    refine ⟨_, _, rfl, ?_⟩
    unfold set_base_array
    rw [e2]
    simp [e2]

/-- A successful `alloc_memory_ranges` leaves separate blocks of `max_memory_ranges`
elements. -/
theorem alloc_memory_ranges_ok (env : Env) (s : State)
    (h : (alloc_memory_ranges env s).1 = 0) :
    (alloc_memory_ranges env s).2.link = mr_link.separate ∧
    (alloc_memory_ranges env s).2.base_memory_range.length =
      (alloc_memory_ranges env s).2.max_memory_ranges ∧
    (alloc_memory_ranges env s).2.max_memory_ranges = s.max_memory_ranges := by
  unfold alloc_memory_ranges at h ⊢
  simp only [] at h ⊢
  repeat' split at h
  all_goals simp_all

/-- In the ordinary case the failure is reported: when the entries enumerated before the
`chosen` entry with the unreadable `linux,kernel-end` are neither `chosen` nor `rtas` nor
`pci@` entries, the paths fit in `fname`, the directory has at least one memory node, and
every memory node has a `reg` entry of fewer than `MAXBYTES` bytes, `get_memory_ranges_dt`
returns `-1` and assigns no range list. -/
theorem unreadable_kernel_end_reported (env : Env) (oc : Bool) (s : State)
    (pre : List dt_node) (nd : dt_node) (post : List dt_node)
    (ht : env.tree = some (pre ++ nd :: post))
    (hname : starts_with nd.d_name "chosen" = true)
    (hbad : kernel_end_unreadable nd = true)
    (hfit : prop_path_fits nd "linux,kernel-end" = true)
    (hpre : ∀ x ∈ pre, starts_with x.d_name "chosen" = false ∧
      starts_with x.d_name "rtas" = false ∧ starts_with x.d_name "pci@" = false ∧
      dir_path_fits x = true)
    (hreg : ∀ x ∈ pre ++ nd :: post, is_memory_node x = true → reg_present x = true)
    (hmem : ∃ x ∈ pre ++ nd :: post, is_memory_node x = true) :
    ∃ s', get_memory_ranges_dt env oc s = some (-1, s', none) := by
  have hpos : 0 < ((pre ++ nd :: post).filter is_memory_node).length := by
    obtain ⟨x, hx, hm⟩ := hmem
    exact List.length_pos_of_mem (List.mem_filter.2 ⟨hx, hm⟩)
  unfold get_memory_ranges_dt
  have hcount : count_memory_ranges env s = (0, { s with max_memory_ranges :=
      if s.use_new_dtb then
        s.max_memory_ranges + ((pre ++ nd :: post).filter is_memory_node).length + 1
      else s.max_memory_ranges + ((pre ++ nd :: post).filter is_memory_node).length }) := by
    unfold count_memory_ranges
    rw [ht]
  rw [hcount]
  simp only [ne_eq, not_true_eq_false, if_false]
  generalize hs1 : ({ s with max_memory_ranges :=
      if s.use_new_dtb then
        s.max_memory_ranges + ((pre ++ nd :: post).filter is_memory_node).length + 1
      else s.max_memory_ranges + ((pre ++ nd :: post).filter is_memory_node).length } :
      State) = s1
  have hmax : ((pre ++ nd :: post).filter is_memory_node).length ≤ s1.max_memory_ranges := by
    rw [← hs1]
    simp only []
    split <;> omega
  by_cases ha : (alloc_memory_ranges env s1).1 = 0
  · obtain ⟨a1, a2, a3⟩ := alloc_memory_ranges_ok env s1 ha
    rw [if_neg (by rw [ha]; decide)]
    obtain ⟨r1, s3, hb, hl3⟩ := get_base_ranges_defined env _ (alloc_memory_ranges env s1).2
      ht a1 a2 (by rw [a3]; exact hmax) hpos hreg
    have hsetup : ∃ s', setup_memory_ranges env oc (alloc_memory_ranges env s1).2 =
        some (-1, s') := by
      unfold setup_memory_ranges
      rw [hb]
      simp only []
      by_cases h1 : r1 ≠ 0
      · rw [if_pos h1]
        unfold setup_out cleanup_memory_ranges
        rw [if_pos hl3]
        exact ⟨_, rfl⟩
      · rw [if_neg h1]
        unfold get_devtree_details
        rw [ht]
        simp only []
        obtain ⟨s4, e1, e2⟩ := devtree_loop_fails env oc nd post hname hbad hfit pre s3 0
          (fun x hx => ⟨(hpre x hx).1, (hpre x hx).2.1, (hpre x hx).2.2.1, (hpre x hx).2.2.2,
            hreg x (List.mem_append_left _ hx)⟩)
        rw [e1]
        simp only [ne_eq, Int.reduceNeg, neg_eq_zero, one_ne_zero, not_false_eq_true, if_true]
        unfold setup_out cleanup_memory_ranges
        rw [if_pos (e2.trans hl3)]
        exact ⟨_, rfl⟩
    obtain ⟨s', hs'⟩ := hsetup
    rw [hs']
    simp only [ne_eq, Int.reduceNeg, neg_eq_zero, one_ne_zero, not_false_eq_true, if_true]
    exact ⟨_, rfl⟩
  · rw [if_pos ha]
    exact ⟨_, rfl⟩

/-- C17 (the code at the failing input): the directory holds `memory@0`, `rtas`,
`pci@80000000` (with `linux,tce-base` and `linux,tce-size`) and `chosen`, whose
`linux,kernel-end` cannot be opened, enumerated in this order.  `max_memory_ranges` is `1`
and `exclude_range` has one element; the `rtas` block stores `exclude_range[0]` and leaves
the index `1` without reallocating, and the `pci@` block stores into `exclude_range[1]`
(line 582), outside the allocation, before the `chosen` entry is read:
`get_memory_ranges_dt` has no defined result instead of returning `-1`.  Two more
directories without a defined result: `chosen` (readable), `memory@0` and a second entry
`chosen@1` without `linux,kernel-end`, where `get_devtree_details` returns `-1` and
`cleanup_memory_ranges` frees one block twice (after line 191 `base_memory_range` is the
block of `memory_range`); and the one entry `chosen` without `linux,kernel-end`, where
`base_memory_range[-1]` is read first.  With `memory@0` before that entry and no store in
between the call returns `-1` and assigns no range list. -/
theorem C17_store_before_chosen :
    kernel_end_unreadable node_chosen_no_kernel_end = true ∧
    ((get_base_ranges env_pci_before_chosen
        (state_allocated env_pci_before_chosen init_state)).bind
      (fun r => devtree_loop env_pci_before_chosen false [node_memory, node_rtas] r.2 0)).map
      index_and_capacity = some (1, 1, 1) ∧
    ((get_base_ranges env_pci_before_chosen
        (state_allocated env_pci_before_chosen init_state)).bind
      (fun r => get_devtree_details env_pci_before_chosen false r.2)) = none ∧
    get_memory_ranges_dt env_pci_before_chosen false init_state = none ∧
    kernel_end_unreadable node_chosen_second = true ∧
    ((get_base_ranges env_two_chosen (state_allocated env_two_chosen init_state)).bind
      (fun r => get_devtree_details env_two_chosen false r.2)).map
      (fun r => (r.1, r.2.link, (cleanup_memory_ranges r.2).isNone)) =
      some (-1, mr_link.shared, true) ∧
    get_memory_ranges_dt env_two_chosen false init_state = none ∧
    get_memory_ranges_dt (env_of_nodes [node_chosen_no_kernel_end]) false init_state = none ∧
    (get_memory_ranges_dt env_no_kernel_end false init_state).map (fun r => (r.1, r.2.2)) =
      some (-1, none) := by
  refine ⟨by decide, by decide, by decide, by decide, by decide, by decide, by decide,
    by decide, by decide⟩

/-- The exit `out:` does not return `0`. -/
theorem setup_out_not_zero (s : State) : (setup_out s).map Prod.fst ≠ some 0 := by
  intro h
  cases hs : setup_out s with
  | none => rw [hs] at h; simp at h
  | some r =>
    rw [hs] at h
    simp only [Option.map_some', Option.some.injEq] at h
    have := setup_out_fails s r hs
    omega

/-- What a return value `0` of `setup_memory_ranges` means: both readers returned `0` and
lines 629-690 ran to the end on the state they left. -/
theorem setup_memory_ranges_success (env : Env) (oc : Bool) (s : State)
    (h : (setup_memory_ranges env oc s).map Prod.fst = some 0) :
    ∃ (s2 : State) (mr : List memory_range) (nr : Nat),
      setup_ranges s2.exclude_range s2.nr_exclude_ranges s2.memory_max s2.rmo_top
        s2.base_memory_range s2.memory_range (decide (s2.link = mr_link.shared)) =
        some (mr, nr) ∧
      setup_memory_ranges env oc s =
        some (0, { s2 with memory_range := mr, nr_memory_ranges := nr }) := by
  unfold setup_memory_ranges at h ⊢
  cases hb : get_base_ranges env s with
  | none => rw [hb] at h; simp at h
  | some x =>
    obtain ⟨r1, s1⟩ := x
    rw [hb] at h
    simp only [] at h ⊢
    by_cases h1 : r1 ≠ 0
    · rw [if_pos h1] at h
      exact absurd h (setup_out_not_zero s1)
    · rw [if_neg h1] at h ⊢
      cases hd : get_devtree_details env oc s1 with
      | none => rw [hd] at h; simp at h
      | some y =>
        obtain ⟨r2, s2⟩ := y
        rw [hd] at h
        simp only [] at h ⊢
        by_cases h2 : r2 ≠ 0
        · rw [if_pos h2] at h
          exact absurd h (setup_out_not_zero s2)
        · rw [if_neg h2] at h ⊢
          cases hr : setup_ranges s2.exclude_range s2.nr_exclude_ranges s2.memory_max
              s2.rmo_top s2.base_memory_range s2.memory_range
              (decide (s2.link = mr_link.shared)) with
          | none => rw [hr] at h; simp at h
          | some p =>
            obtain ⟨mr, nr⟩ := p
            exact ⟨s2, mr, nr, hr, rfl⟩

/-- C22: whenever `setup_memory_ranges` returns `0`, `nr_memory_ranges` is at least `1` and at
most `nr_exclude_ranges + 1`; and whenever `get_memory_ranges_dt` returns `0`, the range
list it hands to the caller has `nr_memory_ranges` elements, so it is not empty and has at
most `nr_exclude_ranges + 1` elements. -/
theorem C22_range_count (env : Env) (oc : Bool) (s : State) :
    ((setup_memory_ranges env oc s).map Prod.fst = some 0 →
      ∃ s', setup_memory_ranges env oc s = some (0, s') ∧
        1 ≤ s'.nr_memory_ranges ∧ s'.nr_memory_ranges ≤ s'.nr_exclude_ranges + 1) ∧
    ((get_memory_ranges_dt env oc s).map Prod.fst = some 0 →
      ∃ s' l, get_memory_ranges_dt env oc s = some (0, s', some l) ∧
        l.length = s'.nr_memory_ranges ∧
        1 ≤ l.length ∧ l.length ≤ s'.nr_exclude_ranges + 1) := by
  constructor
  · intro h
    obtain ⟨s2, mr, nr, h1, h2⟩ := setup_memory_ranges_success env oc s h
    obtain ⟨c1, c2, -⟩ := setup_ranges_count _ _ _ _ _ _ _ _ _ h1
    exact ⟨_, h2, c1, c2⟩
  · intro h
    unfold get_memory_ranges_dt at h ⊢
    simp only [] at h ⊢
    split at h
    · simp at h
    · rename_i hc
      rw [if_neg hc]
      split at h
      · simp at h
      · rename_i ha
        rw [if_neg ha]
        cases hs : setup_memory_ranges env oc
            (alloc_memory_ranges env (count_memory_ranges env s).2).2 with
        | none => rw [hs] at h; simp at h
        | some x =>
          obtain ⟨r3, s3⟩ := x
          rw [hs] at h
          simp only [] at h ⊢
          by_cases h3 : r3 ≠ 0
          · rw [if_pos h3] at h; simp at h
          · rw [if_neg h3]
            have h0 : r3 = 0 := by omega
            subst h0
            obtain ⟨s2, mr, nr, e1, e2⟩ := setup_memory_ranges_success env oc _
              (by rw [hs]; rfl)
            rw [hs] at e2
            simp only [Option.some.injEq, Prod.mk.injEq, true_and] at e2
            obtain ⟨c1, c2, c3⟩ := setup_ranges_count _ _ _ _ _ _ _ _ _ e1
            refine ⟨s3, _, rfl, ?_⟩
            rw [e2]
            simp only [List.length_take]
            omega

/-- When the last exclusion ends below `memory_max`, the loop needs no element behind the
list. -/
theorem gaps_from_within_list (mm rt : Nat) :
    ∀ (l : List memory_range), (∀ e, l.getLast? = some e → e.end_ < mm) →
      ∃ g, gaps_from mm rt none l = some g
  | [], _ => ⟨[], rfl⟩
  | [e], h => by
    have he : e.end_ < mm := h e rfl
    exact ⟨(clip rt ((e.end_ + 1) % U64) mm).1, by simp only [gaps_from, he, if_true]⟩
  | e :: e1 :: rest, h => by
    have h' : ∀ x, (e1 :: rest).getLast? = some x → x.end_ < mm := by
      intro x hx
      apply h x
      rw [List.getLast?_cons_cons]; exact hx
    obtain ⟨g, hg⟩ := gaps_from_within_list mm rt (e1 :: rest) h'
    simp only [gaps_from]
    split
    · exact ⟨g, hg⟩
    · split
      · exact ⟨_, rfl⟩
      · rw [hg]; exact ⟨_, rfl⟩

/-- When the last exclusion ends below `memory_max`, the loop runs to its end on an
exclusion array of exactly `nr_exclude_ranges` elements: it reads no index `k >= n`. -/
theorem setup_loop_within_list (ex : List memory_range) (mm rt : Nat)
    (mr0 : List memory_range) (hcap : ex.length < mr0.length)
    (h : ∀ e, ex.getLast? = some e → e.end_ < mm) :
    ∃ r, setup_loop ex ex.length mm rt ex.length 0 mr0 0 = some r := by
  have href := setup_loop_refines ex ex.length mm rt mr0 (Nat.le_refl _) hcap
  obtain ⟨g, hg⟩ := gaps_from_within_list mm rt ex h
  have hnone : ex[ex.length]? = none := List.getElem?_eq_none (Nat.le_refl _)
  rw [hnone, List.take_length, hg] at href
  obtain ⟨mr1, h1, -⟩ := href
  exact ⟨_, h1⟩

/-- C21 (the code at the failing input): one exclusion `[0x1000, 0x2FFF]` (`n = 1`) that ends
above `memory_max = 0x2000`, with `rmo_top = 0x10000`.  The trailing-gap branch is not
taken and line 663 reads `exclude_range[1]`: on an array of exactly one element there is
no defined result, and on an array of two elements the result depends on the element
behind the list, `[0, 0xFFF], [0x3000, 0x10000]` when it is zero-filled and `[0, 0xFFF]`
when its start is `0x3000`.  With the exclusion `[0x1000, 0x1FFF]`, which ends below
`memory_max`, an array of one element suffices. -/
theorem C21_reads_past_the_list :
    sorted_by_start [⟨0x1000, 0x2FFF, 0⟩] ∧
    output_ranges [⟨0x1000, 0x2FFF, 0⟩] 1 0x2000 0x10000
      [⟨0, 0x2000, 0⟩, zero_range] [zero_range, zero_range] false = none ∧
    output_ranges [⟨0x1000, 0x2FFF, 0⟩, zero_range] 1 0x2000 0x10000
      [⟨0, 0x2000, 0⟩, zero_range] [zero_range, zero_range] false =
      some [⟨0, 0xFFF, RANGE_RAM⟩, ⟨0x3000, 0x10000, RANGE_RAM⟩] ∧
    output_ranges [⟨0x1000, 0x2FFF, 0⟩, ⟨0x3000, 0, 0⟩] 1 0x2000 0x10000
      [⟨0, 0x2000, 0⟩, zero_range] [zero_range, zero_range] false =
      some [⟨0, 0xFFF, RANGE_RAM⟩] ∧
    output_ranges [⟨0x1000, 0x1FFF, 0⟩] 1 0x2000 0x10000
      [⟨0, 0x2000, 0⟩, zero_range] [zero_range, zero_range] false =
      some [⟨0, 0xFFF, RANGE_RAM⟩, ⟨0x2000, 0x2000, RANGE_RAM⟩] := by
  decide

/-- C22 on the directory with a `chosen` node (kernel, hash table, initrd) and one memory
node: both calls return `0` with two ranges for three exclusions. -/
theorem C22_witness :
    (∃ s', setup_memory_ranges (env_of_chosen node_chosen_htab) false
        (state_allocated (env_of_chosen node_chosen_htab) init_state) = some (0, s') ∧
      1 ≤ s'.nr_memory_ranges ∧ s'.nr_memory_ranges ≤ s'.nr_exclude_ranges + 1) ∧
    (∃ s' l, get_memory_ranges_dt (env_of_chosen node_chosen_htab) false init_state =
        some (0, s', some l) ∧
      l.length = s'.nr_memory_ranges ∧ 1 ≤ l.length ∧
      l.length ≤ s'.nr_exclude_ranges + 1) ∧
    (get_memory_ranges_dt (env_of_chosen node_chosen_htab) false init_state).map
      (fun r => (r.1, r.2.1.nr_memory_ranges, r.2.1.nr_exclude_ranges)) = some (0, 2, 3) :=
  ⟨(C22_range_count (env_of_chosen node_chosen_htab) false
      (state_allocated (env_of_chosen node_chosen_htab) init_state)).1 (by decide),
   (C22_range_count (env_of_chosen node_chosen_htab) false init_state).2 (by decide),
   by decide⟩

end KexecPpc
